import Mathlib

/-!
# Locator widget: filter resolution and request coordination

A shallow embedding of `src/plugins/coreplugin/locator/locatorwidget.cpp`.

* `QString` is a list of characters; the Qt string primitives used by the
  widget (`QChar::isSpace`, `indexOf`, `mid`, `trimmed`) are written out below.
* `QString::toLower`, the registered filter list `Locator::filters()`, the
  virtual `ILocatorFilter::accept` and `FileIconProvider::icon` live outside
  the file and are collected in the record `Host`.  Of `accept` only the three
  values it returns are modelled.
* The widget's members are the fields of `LocatorWidget`; every member
  function is a function from states to states.  Calls which leave the widget
  (`prepareSearch`, `runAsync`, `accept`) are appended to logs kept in the
  state, so that theorems can speak about which calls happened and in which
  order.
* The worker function `runSearch` is not part of the file.  What it reports
  reaches the widget as notifications (`Event`): batches of results, the end of
  the task, and the signal `finished` of the watcher.
* `LocatorModel::data` returns, next to the value, the model afterwards
  (`mEntries` is mutable there) and the file names it passed to
  `FileIconProvider::icon`.
* Geometry, painting, key handling and focus events are left out.
-/

namespace Locator

/-! ## Strings -/

/-- A `QString`, as the list of its characters. -/
abbrev QString := List Char

/-- The code points for which `QChar::isSpace` answers true: the space, the
control characters U+0009 to U+000D, U+0085, U+00A0 and the characters of the
Unicode separator categories Zs, Zl and Zp. -/
def QChar.isSpace (c : Char) : Bool :=
  let u := c.toNat
  u == 0x20 || (0x09 ≤ u && u ≤ 0x0d) || u == 0x85 || u == 0xa0 || u == 0x1680
    || (0x2000 ≤ u && u ≤ 0x200a) || u == 0x2028 || u == 0x2029 || u == 0x202f
    || u == 0x205f || u == 0x3000

/-- The constant `QChar::Space`. -/
def QChar.Space : Char := ' '

/-- The call `text.indexOf(ch, start)`: the first position at or after `start`
holding `ch`; `none` stands for the result `-1`. -/
def QString.indexOf (text : QString) (ch : Char) (start : Nat) : Option Nat :=
  let rest := text.drop start
  let i := rest.findIdx (fun c => c == ch)
  if i < rest.length then some (start + i) else none

/-- The call `text.mid(pos, n)`. -/
def QString.mid (text : QString) (pos n : Nat) : QString :=
  (text.drop pos).take n

/-- The call `text.mid(pos)`. -/
def QString.midFrom (text : QString) (pos : Nat) : QString :=
  text.drop pos

/-- The call `text.trimmed()`: whitespace removed from both ends. -/
def QString.trimmed (text : QString) : QString :=
  (((text.dropWhile QChar.isSpace).reverse).dropWhile QChar.isSpace).reverse

/-! ## Filters, entries and the host -/

/-- What the widget reads of an `ILocatorFilter`.  The field `id` stands for
the identity of the filter object (its address). -/
structure ILocatorFilter where
  id : Nat
  shortcutString : QString
  isIncludedByDefault : Bool
  deriving DecidableEq, Repr

/-- The enumeration `LocatorFilterEntry::HighlightInfo::DataType`. -/
inductive HighlightDataType where
  | DisplayName
  | ExtraInfo
  deriving DecidableEq, Repr

/-- The member `highlightInfo` of an entry: which field is highlighted, from
which offset and for how many characters. -/
structure HighlightInfo where
  startIndex : Int
  length : Int
  dataType : HighlightDataType
  deriving DecidableEq, Repr

/-- A `LocatorFilterEntry`.  The field `filter` is the pointer to the owning
filter, `none` being the null pointer; `displayIcon` is the optional icon. -/
structure LocatorFilterEntry where
  filter : Option Nat
  displayName : QString
  extraInfo : QString
  fileName : QString
  displayIcon : Option Nat
  highlightInfo : HighlightInfo
  deriving DecidableEq, Repr

/-- The three out-parameters of `ILocatorFilter::accept`. -/
structure AcceptResult where
  newText : QString
  selectionStart : Int
  selectionLength : Int
  deriving DecidableEq, Repr

/-- The collaborators of the widget that are defined elsewhere. -/
structure Host where
  /-- The list `Locator::filters()`, in registration order. -/
  filters : List ILocatorFilter
  /-- The function `QString::toLower`. -/
  toLower : QString → QString
  /-- The virtual `ILocatorFilter::accept`, by filter identity. -/
  accept : Nat → LocatorFilterEntry → AcceptResult
  /-- The function `FileIconProvider::icon`. -/
  icon : QString → Nat

/-! ## Filter resolution -/

/-- The first loop of `filtersFor`: the index of the first character that is
not whitespace, or the length of the text when there is none. -/
def firstNonSpace (text : QString) : Nat :=
  text.findIdx (fun c => !QChar.isSpace c)

/-- The `foreach` of `filtersFor`: walks the filters with the accumulated
`prefixFilters` and the current value of `searchText`. -/
def prefixLoop (pfx remainder : QString) :
    List ILocatorFilter → List ILocatorFilter × QString → List ILocatorFilter × QString
  | [], acc => acc
  | f :: fs, (prefixFilters, searchText) =>
      if pfx = f.shortcutString then
        prefixLoop pfx remainder fs (prefixFilters ++ [f], remainder)
      else
        prefixLoop pfx remainder fs (prefixFilters, searchText)

/-- The function `LocatorWidget::filtersFor`.  The reference parameter
`searchText` is returned as the second component; `searchText0` is the value
it holds on entry. -/
def filtersFor (h : Host) (text : QString) (searchText0 : QString) :
    List ILocatorFilter × QString :=
  let whiteSpace := QString.indexOf text QChar.Space (firstNonSpace text)
  let filters := h.filters
  let fallback : List ILocatorFilter × QString :=
    (filters.filter (fun f => f.isIncludedByDefault), QString.trimmed text)
  match whiteSpace with
  | some ws =>
      let pfx := h.toLower (QString.mid text (firstNonSpace text) (ws - firstNonSpace text))
      let r := prefixLoop pfx (QString.trimmed (QString.midFrom text ws)) filters ([], searchText0)
      if !r.1.isEmpty then r else fallback
  | none => fallback

/-! ## The result model -/

/-- The members of `LocatorModel` that the search pipeline touches. -/
structure LocatorModel where
  mEntries : List LocatorFilterEntry
  hasExtraInfo : Bool
  deriving DecidableEq, Repr

/-- The function `LocatorModel::clear`. -/
def LocatorModel.clear (_m : LocatorModel) : LocatorModel :=
  { mEntries := [], hasExtraInfo := false }

/-- The function `LocatorModel::rowCount` for the root index. -/
def LocatorModel.rowCount (m : LocatorModel) : Int :=
  m.mEntries.length

/-- The function `LocatorModel::columnCount` for the root index. -/
def LocatorModel.columnCount (m : LocatorModel) : Int :=
  if m.hasExtraInfo then 2 else 1

/-- The function `LocatorModel::addEntries`. -/
def LocatorModel.addEntries (m : LocatorModel) (entries : List LocatorFilterEntry) :
    LocatorModel :=
  let m1 : LocatorModel := { m with mEntries := m.mEntries ++ entries }
  if m1.hasExtraInfo then m1
  else if entries.any (fun e => !e.extraInfo.isEmpty) then { m1 with hasExtraInfo := true }
  else m1

/-- A freshly constructed `LocatorModel`: no entries, `hasExtraInfo = false`. -/
def LocatorModel.fresh : LocatorModel :=
  { mEntries := [], hasExtraInfo := false }

/-- What `data` reads of a `QModelIndex`: its row and column, and whether it
belongs to a model.  The invalid index has row and column -1 and no model. -/
structure QModelIndex where
  row : Int
  column : Int
  hasModel : Bool
  deriving DecidableEq, Repr

/-- The function `QModelIndex::isValid`. -/
def QModelIndex.isValid (index : QModelIndex) : Bool :=
  decide (0 ≤ index.row) && decide (0 ≤ index.column) && index.hasModel

/-- The roles that `LocatorModel::data` tells apart; `other` stands for every
role without a case in its switch. -/
inductive ItemRole where
  | DisplayRole
  | ToolTipRole
  | DecorationRole
  | ResultIconRole
  | ForegroundRole
  | ResultItemRole
  | ResultBeginColumnNumberRole
  | SearchTermLengthRole
  | ResultHighlightBackgroundColor
  | other (role : Nat)
  deriving DecidableEq, Repr

/-- The two colours that `data` returns. -/
inductive QColor where
  | darkGray
  | highlightBackground
  deriving DecidableEq, Repr

/-- The values that `LocatorModel::data` returns; `invalid` is `QVariant()`,
and `icon none` holds the null `QIcon()`. -/
inductive QVariant where
  | invalid
  | string (text : QString)
  | icon (handle : Option Nat)
  | color (c : QColor)
  | entry (e : LocatorFilterEntry)
  | int (n : Int)
  deriving DecidableEq, Repr

/-- The outcome of one call of `data`: the value returned, the model
afterwards (`mEntries` is mutable), and the file names that were passed to
`FileIconProvider::icon` during the call. -/
structure DataResult where
  value : QVariant
  model : LocatorModel
  iconLookups : List QString
  deriving DecidableEq, Repr

/-- The function `LocatorModel::data`. -/
def LocatorModel.data (h : Host) (m : LocatorModel) (index : QModelIndex) (role : ItemRole) :
    DataResult :=
  if !index.isValid || decide (index.row ≥ m.mEntries.length) then
    { value := QVariant.invalid, model := m, iconLookups := [] }
  else
    match m.mEntries[index.row.toNat]? with
    | none => { value := QVariant.invalid, model := m, iconLookups := [] }
    | some entry =>
      match role with
      | ItemRole.DisplayRole =>
        if index.column = 0 then
          { value := QVariant.string entry.displayName, model := m, iconLookups := [] }
        else if index.column = 1 then
          { value := QVariant.string entry.extraInfo, model := m, iconLookups := [] }
        else { value := QVariant.invalid, model := m, iconLookups := [] }
      | ItemRole.ToolTipRole =>
        if entry.extraInfo.isEmpty then
          { value := QVariant.string entry.displayName, model := m, iconLookups := [] }
        else
          { value := QVariant.string (entry.displayName ++ ['\n', '\n'] ++ entry.extraInfo),
            model := m, iconLookups := [] }
      | ItemRole.DecorationRole | ItemRole.ResultIconRole =>
        if index.column = 0 then
          if entry.displayIcon.isNone && !entry.fileName.isEmpty then
            let resolved := h.icon entry.fileName
            { value := QVariant.icon (some resolved)
              model := { m with
                mEntries := m.mEntries.set index.row.toNat
                  { entry with displayIcon := some resolved } }
              iconLookups := [entry.fileName] }
          else
            { value := QVariant.icon entry.displayIcon, model := m, iconLookups := [] }
        else { value := QVariant.invalid, model := m, iconLookups := [] }
      | ItemRole.ForegroundRole =>
        if index.column = 1 then
          { value := QVariant.color QColor.darkGray, model := m, iconLookups := [] }
        else { value := QVariant.invalid, model := m, iconLookups := [] }
      | ItemRole.ResultItemRole =>
        { value := QVariant.entry entry, model := m, iconLookups := [] }
      | ItemRole.ResultBeginColumnNumberRole | ItemRole.SearchTermLengthRole =>
        let highlightColumn : Int :=
          if entry.highlightInfo.dataType = HighlightDataType.DisplayName then 0 else 1
        if highlightColumn = index.column then
          let startIndexRole : Bool := decide (role = ItemRole.ResultBeginColumnNumberRole)
          { value := QVariant.int
              (if startIndexRole then entry.highlightInfo.startIndex
               else entry.highlightInfo.length)
            model := m, iconLookups := [] }
        else { value := QVariant.invalid, model := m, iconLookups := [] }
      | ItemRole.ResultHighlightBackgroundColor =>
        { value := QVariant.color QColor.highlightBackground, model := m, iconLookups := [] }
      | ItemRole.other _ => { value := QVariant.invalid, model := m, iconLookups := [] }

/-- One operation on the model from outside: `clear` or `addEntries`. -/
inductive ModelOp where
  | clear
  | addEntries (entries : List LocatorFilterEntry)
  deriving DecidableEq, Repr

/-- The effect of one operation. -/
def LocatorModel.apply (m : LocatorModel) : ModelOp → LocatorModel
  | ModelOp.clear => m.clear
  | ModelOp.addEntries entries => m.addEntries entries

/-- A sequence of operations, oldest first. -/
def LocatorModel.applyAll (m : LocatorModel) (ops : List ModelOp) : LocatorModel :=
  ops.foldl LocatorModel.apply m

/-! ## The widget state -/

/-- The state of the `QFuture` watched by `m_entriesWatcher`, together with the
arguments `runSearch` was started with and the results reported so far. -/
structure QFuture where
  running : Bool
  canceled : Bool
  filters : List ILocatorFilter
  searchText : QString
  results : List LocatorFilterEntry
  deriving DecidableEq, Repr

/-- The call `QFuture::cancel`: the task is asked to stop; it keeps running
until the worker notices. -/
def QFuture.cancel (f : QFuture) : QFuture :=
  { f with canceled := true }

/-- The selection of the line edit. -/
inductive Selection where
  | untouched
  | range (start length : Int)
  | all
  deriving DecidableEq, Repr

/-- The members of `LocatorWidget` (and of the widgets it owns) that the
request coordination reads or writes, followed by the logs of the calls that
leave the widget. -/
structure LocatorWidget where
  m_locatorModel : LocatorModel
  completionListVisible : Bool
  completionListCurrentRow : Int
  lineText : QString
  lineFocus : Bool
  lineSelection : Selection
  lineCursor : Option Int
  m_updateRequested : Bool
  m_requestedCompletionText : QString
  m_needsClearResult : Bool
  m_rowRequestedForAccept : Int
  future : QFuture
  showPopupTimerActive : Bool
  showProgressTimerActive : Bool
  progressIndicatorVisible : Bool
  /-- Every `filter->prepareSearch(searchText)` so far, oldest first. -/
  prepareSearchCalls : List (Nat × QString)
  /-- Every `runAsync(&runSearch, filters, searchText)` so far, oldest first. -/
  started : List (List ILocatorFilter × QString)
  /-- Every `entry.filter->accept(entry, ...)` so far, oldest first. -/
  acceptCalls : List (Nat × LocatorFilterEntry)
  /-- The number of tasks that were still running when `setFuture` replaced
  them in the watcher. -/
  detachedRunning : Nat
  /-- Whether `Q_ASSERT(entry.filter != nullptr)` was reached with a null
  filter. -/
  assertFailed : Bool
  deriving DecidableEq, Repr

/-- The widget right after its constructor: nothing requested, an empty
model, a hidden completion list and a watcher holding a default-constructed
future, which is not running and reports started, canceled and finished.  The
pending accept row starts at -1, the value `handleSearchFinished` resets it
to. -/
def LocatorWidget.initial : LocatorWidget :=
  { m_locatorModel := { mEntries := [], hasExtraInfo := false }
    completionListVisible := false
    completionListCurrentRow := -1
    lineText := []
    lineFocus := false
    lineSelection := Selection.untouched
    lineCursor := none
    m_updateRequested := false
    m_requestedCompletionText := []
    m_needsClearResult := false
    m_rowRequestedForAccept := -1
    future := { running := false, canceled := true, filters := [], searchText := [],
                results := [] }
    showPopupTimerActive := false
    showProgressTimerActive := false
    progressIndicatorVisible := false
    prepareSearchCalls := []
    started := []
    acceptCalls := []
    detachedRunning := 0
    assertFailed := false }

/-- The number of search tasks running: the watched one, and those detached
from the watcher while running. -/
def LocatorWidget.runningTasks (s : LocatorWidget) : Nat :=
  (if s.future.running then 1 else 0) + s.detachedRunning

/-! ## The member functions -/

/-- The call `m_entriesWatcher->setFuture(future)` for a task just started by
`runAsync`. -/
def setFuture (s : LocatorWidget) (future : QFuture) : LocatorWidget :=
  { s with
    detachedRunning := s.detachedRunning + (if s.future.running then 1 else 0)
    future := future }

/-- The function `LocatorWidget::updateCompletionList`. -/
def updateCompletionList (h : Host) (s : LocatorWidget) (text : QString) : LocatorWidget :=
  let s1 := { s with m_updateRequested := true }
  if s1.future.running then
    { s1 with
      m_requestedCompletionText := text
      future := s1.future.cancel }
  else
    let s2 := { s1 with showProgressTimerActive := true, m_needsClearResult := true }
    let r := filtersFor h text []
    let filters := r.1
    let searchText := r.2
    let s3 := { s2 with
      prepareSearchCalls := s2.prepareSearchCalls ++ filters.map (fun (f : ILocatorFilter) => (f.id, searchText)) }
    let future : QFuture :=
      { running := true, canceled := false, filters := filters, searchText := searchText,
        results := [] }
    setFuture { s3 with started := s3.started ++ [(filters, searchText)] } future

/-- The function `LocatorWidget::showPopup`. -/
def showPopup (s : LocatorWidget) : LocatorWidget :=
  { s with m_updateRequested := true, showPopupTimerActive := true }

/-- The function `LocatorWidget::showCompletionList`, without the geometry. -/
def showCompletionList (s : LocatorWidget) : LocatorWidget :=
  { s with completionListVisible := true }

/-- The function `LocatorWidget::showPopupNow`. -/
def showPopupNow (h : Host) (s : LocatorWidget) : LocatorWidget :=
  let s1 := { s with showPopupTimerActive := false }
  showCompletionList (updateCompletionList h s1 s1.lineText)

/-- The call `m_fileLineEdit->setText(text)`: the signal `textChanged`, which
the constructor connects to `showPopup`, is emitted when the text changes. -/
def setText (s : LocatorWidget) (text : QString) : LocatorWidget :=
  if text = s.lineText then s else showPopup { s with lineText := text }

/-- The function `LocatorWidget::showText`. -/
def showText (h : Host) (s : LocatorWidget) (text : QString)
    (selectionStart selectionLength : Int) : LocatorWidget :=
  let s1 := if !text.isEmpty then setText s text else s
  let s2 := { s1 with lineFocus := true }
  let s3 := showPopupNow h s2
  if selectionStart ≥ 0 then
    let s4 := { s3 with lineSelection := Selection.range selectionStart selectionLength }
    if selectionLength = 0 then { s4 with lineCursor := some selectionStart } else s4
  else
    { s3 with lineSelection := Selection.all }

/-- The function `LocatorWidget::acceptEntry`. -/
def acceptEntry (h : Host) (s : LocatorWidget) (row : Int) : LocatorWidget :=
  if !s.completionListVisible then s
  else if row ≥ s.m_locatorModel.rowCount then s
  else if !(0 ≤ row && row < s.m_locatorModel.rowCount) then s
  else
    match s.m_locatorModel.mEntries[row.toNat]? with
    | none => s
    | some entry =>
      match entry.filter with
      | none => { s with assertFailed := true }
      | some f =>
        let r := h.accept f entry
        let s1 := { s with acceptCalls := s.acceptCalls ++ [(f, entry)] }
        if r.newText.isEmpty then
          { s1 with completionListVisible := false, lineFocus := false }
        else
          showText h s1 r.newText r.selectionStart r.selectionLength

/-- The function `LocatorWidget::setProgressIndicatorVisible`. -/
def setProgressIndicatorVisible (s : LocatorWidget) (visible : Bool) : LocatorWidget :=
  { s with progressIndicatorVisible := visible }

/-- The function `LocatorWidget::handleSearchFinished`. -/
def handleSearchFinished (h : Host) (s : LocatorWidget) : LocatorWidget :=
  let s1 := { s with showProgressTimerActive := false }
  let s2 := setProgressIndicatorVisible s1 false
  let s3 := { s2 with m_updateRequested := false }
  if s3.m_rowRequestedForAccept ≥ 0 then
    let s4 := acceptEntry h s3 s3.m_rowRequestedForAccept
    { s4 with m_rowRequestedForAccept := -1 }
  else if s3.future.canceled then
    let text := s3.m_requestedCompletionText
    let s4 := { s3 with m_requestedCompletionText := [] }
    updateCompletionList h s4 text
  else if s3.m_needsClearResult then
    { s3 with m_locatorModel := s3.m_locatorModel.clear, m_needsClearResult := false }
  else s3

/-- The function `LocatorWidget::scheduleAcceptEntry`; `row` is `index.row()`. -/
def scheduleAcceptEntry (h : Host) (s : LocatorWidget) (row : Int) : LocatorWidget :=
  if s.m_updateRequested then
    { s with m_rowRequestedForAccept := row, future := s.future.cancel }
  else
    acceptEntry h s row

/-- The function `LocatorWidget::addSearchResults`; `resultAt(i)` reads the
results reported to the watched future. -/
def addSearchResults (s : LocatorWidget) (firstIndex endIndex : Nat) : LocatorWidget :=
  let s1 :=
    if s.m_needsClearResult then
      { s with m_locatorModel := s.m_locatorModel.clear, m_needsClearResult := false }
    else s
  let selectFirst : Bool := s1.m_locatorModel.rowCount == 0
  let entries := (s1.future.results.drop firstIndex).take (endIndex - firstIndex)
  let s2 := { s1 with m_locatorModel := s1.m_locatorModel.addEntries entries }
  if selectFirst then
    let s3 := { s2 with
      completionListCurrentRow := if 0 < s2.m_locatorModel.rowCount then 0 else -1 }
    if s3.m_rowRequestedForAccept ≥ 0 then { s3 with m_rowRequestedForAccept := 0 } else s3
  else s2

/-- The call `setCurrentIndex(model()->index(row, 0))` on the completion
list: `index(row, 0)` is a valid index exactly for the rows of the model, and
the invalid index has row -1. -/
def setCurrentIndexRow (s : LocatorWidget) (row : Int) : LocatorWidget :=
  { s with
    completionListCurrentRow :=
      if 0 ≤ row ∧ row < s.m_locatorModel.rowCount then row else -1 }

/-- The function `CompletionList::next`. -/
def CompletionList.next (s : LocatorWidget) : LocatorWidget :=
  let index := s.completionListCurrentRow + 1
  let wrapped := if index ≥ s.m_locatorModel.rowCount then 0 else index
  setCurrentIndexRow s wrapped

/-- The function `CompletionList::previous`. -/
def CompletionList.previous (s : LocatorWidget) : LocatorWidget :=
  let index := s.completionListCurrentRow - 1
  let wrapped := if index < 0 then s.m_locatorModel.rowCount - 1 else index
  setCurrentIndexRow s wrapped

/-- A sequence of `data` calls on one row, each given by its column and its
role: the model after the last call and the file names passed to
`FileIconProvider::icon` along the way, oldest first. -/
def LocatorModel.readRow (h : Host) (m : LocatorModel) (row : Int) :
    List (Int × ItemRole) → LocatorModel × List QString
  | [] => (m, [])
  | (column, role) :: rest =>
    let r := m.data h { row := row, column := column, hasModel := true } role
    let after := LocatorModel.readRow h r.model row rest
    (after.1, r.iconLookups ++ after.2)

/-! ## Notifications and runs -/

/-- What can happen to the widget: the user edits the line, the popup timer
fires, a query is submitted, a row of the completion list is activated, the
worker reports a batch of results (the watcher then emits `resultsReadyAt`),
the worker leaves `runSearch`, and the watcher emits `finished`. -/
inductive Event where
  | textChanged (text : QString)
  | showPopupTimeout
  | submitQuery (text : QString)
  | commitSelection (row : Int)
  | resultsReady (entries : List LocatorFilterEntry)
  | taskEnds
  | finished
  deriving DecidableEq, Repr

/-- The notifications other than a commit and a handled completion. -/
def Event.isBackground : Event → Bool
  | Event.commitSelection _ => false
  | Event.finished => false
  | _ => true

/-- The worker appends a batch to the results of the watched future and the
watcher calls `addSearchResults` for the new index range. -/
def deliverBatch (s : LocatorWidget) (entries : List LocatorFilterEntry) : LocatorWidget :=
  let first := s.future.results.length
  let s1 := { s with future := { s.future with results := s.future.results ++ entries } }
  addSearchResults s1 first (first + entries.length)

/-- The worker leaves `runSearch`: the watched future stops running. -/
def taskEnds (s : LocatorWidget) : LocatorWidget :=
  { s with future := { s.future with running := false } }

/-- One notification.  The signal `finished` is only emitted for a future that
has stopped running. -/
def step (h : Host) (s : LocatorWidget) : Event → LocatorWidget
  | Event.textChanged text => showPopup { s with lineText := text }
  | Event.showPopupTimeout => showPopupNow h s
  | Event.submitQuery text => updateCompletionList h s text
  | Event.commitSelection row => scheduleAcceptEntry h s row
  | Event.resultsReady entries => deliverBatch s entries
  | Event.taskEnds => taskEnds s
  | Event.finished => if s.future.running then s else handleSearchFinished h s

/-- A sequence of notifications, oldest first. -/
def run (h : Host) (s : LocatorWidget) (events : List Event) : LocatorWidget :=
  events.foldl (step h) s

/-- The notifications of a query q1 superseded by a query q2: q1 is submitted,
some of its batches arrive, q2 is submitted, further batches of q1 may arrive,
the task of q1 ends and its completion is handled, then the batches of q2
arrive, its task ends and its completion is handled. -/
def supersededRun (q1 q2 : QString) (before after batches2 : List (List LocatorFilterEntry)) :
    List Event :=
  Event.submitQuery q1 :: before.map Event.resultsReady
    ++ Event.submitQuery q2 :: after.map Event.resultsReady
    ++ [Event.taskEnds, Event.finished]
    ++ batches2.map Event.resultsReady
    ++ [Event.taskEnds, Event.finished]

/-! ## Words of the specification -/

/-- The input after its leading whitespace. -/
def afterLeadingWhitespace (text : QString) : QString :=
  text.dropWhile QChar.isSpace

/-- The lower-cased token between the first non-whitespace character and the
first space that follows it. -/
def leadingToken (h : Host) (text : QString) : QString :=
  h.toLower ((afterLeadingWhitespace text).takeWhile (fun c => c != QChar.Space))

/-- The part of the input from the space that ends the token onward. -/
def afterToken (text : QString) : QString :=
  (afterLeadingWhitespace text).dropWhile (fun c => c != QChar.Space)

/-- The registered filters that are included by default. -/
def defaultFilters (h : Host) : List ILocatorFilter :=
  h.filters.filter (fun f => f.isIncludedByDefault)

/-- The registered filters whose shortcut string is the given token. -/
def filtersWithShortcut (h : Host) (token : QString) : List ILocatorFilter :=
  h.filters.filter (fun f => decide (f.shortcutString = token))

/-- The invariant of the request coordination: no task was ever detached from
the watcher while running, and a running task implies a requested update. -/
def SingleTask (s : LocatorWidget) : Prop :=
  s.detachedRunning = 0 ∧ (s.future.running = true → s.m_updateRequested = true)

/-- The entries the sink shows once a pending clear has been applied. -/
def settledEntries (s : LocatorWidget) : List LocatorFilterEntry :=
  if s.m_needsClearResult then [] else s.m_locatorModel.mEntries

/-- The first three statements of `handleSearchFinished`: the progress timer
is stopped, the indicator hidden and the update request reset. -/
def finishedPrologue (s : LocatorWidget) : LocatorWidget :=
  { s with
    showProgressTimerActive := false
    progressIndicatorVisible := false
    m_updateRequested := false }

/-- The three settling actions of the request coordination. -/
inductive SettlingAction where
  | accept
  | restart
  | idle
  deriving DecidableEq, Repr

/-- The settling action that a completion calls for: the deferred accept when
an accept row is pending; otherwise the restart when the task reports
cancelled; otherwise the idle settle. -/
def settlingAction (s : LocatorWidget) : SettlingAction :=
  if 0 ≤ s.m_rowRequestedForAccept then SettlingAction.accept
  else if s.future.canceled then SettlingAction.restart
  else SettlingAction.idle

/-- The deferred accept: the entry at the pending row is accepted and the
pending row is reset. -/
def settleAccept (h : Host) (s : LocatorWidget) : LocatorWidget :=
  { acceptEntry h (finishedPrologue s) s.m_rowRequestedForAccept with
    m_rowRequestedForAccept := -1 }

/-- The restart: the recorded text is cleared and submitted. -/
def settleRestart (h : Host) (s : LocatorWidget) : LocatorWidget :=
  updateCompletionList h { finishedPrologue s with m_requestedCompletionText := [] }
    s.m_requestedCompletionText

/-- The idle settle: a sink clear that is still pending is applied. -/
def settleIdle (s : LocatorWidget) : LocatorWidget :=
  { finishedPrologue s with
    m_locatorModel := if s.m_needsClearResult then s.m_locatorModel.clear else s.m_locatorModel
    m_needsClearResult := false }

/-- One settling action performed on a state. -/
def performSettling (h : Host) (s : LocatorWidget) : SettlingAction → LocatorWidget
  | SettlingAction.accept => settleAccept h s
  | SettlingAction.restart => settleRestart h s
  | SettlingAction.idle => settleIdle s

/-- The entries that an operation appends. -/
def ModelOp.entries : ModelOp → List LocatorFilterEntry
  | ModelOp.clear => []
  | ModelOp.addEntries entries => entries

/-- The operations after the last `clear` of a sequence (all of them when
there is none). -/
def opsSinceClear (ops : List ModelOp) : List ModelOp :=
  (ops.reverse.takeWhile (fun op => op != ModelOp.clear)).reverse

/-- The entries appended since the last `clear`, or since creation. -/
def appendedSinceClear (ops : List ModelOp) : List LocatorFilterEntry :=
  ((opsSinceClear ops).map ModelOp.entries).flatten

/-- Whether an entry has non-empty extra info. -/
def hasNonEmptyExtraInfo (e : LocatorFilterEntry) : Bool :=
  !e.extraInfo.isEmpty

/-! ## A small host and concrete runs -/

/-- Lower-casing of the letters A to Z, enough for the concrete runs below. -/
def asciiToLower (text : QString) : QString :=
  text.map Char.toLower

/-- A filter that answers every accept with an empty replacement text. -/
def acceptAndClose (_filter : Nat) (_entry : LocatorFilterEntry) : AcceptResult :=
  { newText := [], selectionStart := -1, selectionLength := 0 }

/-- Filter 1: shortcut "cls", not included by default. -/
def filterCls : ILocatorFilter :=
  { id := 1, shortcutString := ['c', 'l', 's'], isIncludedByDefault := false }

/-- Filter 2: shortcut "f", included by default. -/
def filterFiles : ILocatorFilter :=
  { id := 2, shortcutString := ['f'], isIncludedByDefault := true }

/-- Filter 3: shortcut "cls" again, included by default. -/
def filterCls2 : ILocatorFilter :=
  { id := 3, shortcutString := ['c', 'l', 's'], isIncludedByDefault := true }

/-- Filter 4: shortcut "m", included by default. -/
def filterMethods : ILocatorFilter :=
  { id := 4, shortcutString := ['m'], isIncludedByDefault := true }

/-- A filter with an empty shortcut string, not included by default. -/
def filterNoShortcut : ILocatorFilter :=
  { id := 5, shortcutString := [], isIncludedByDefault := false }

/-- A host with the four filters above, registered in the order 1, 2, 3, 4. -/
def demoHost : Host :=
  { filters := [filterCls, filterFiles, filterCls2, filterMethods]
    toLower := asciiToLower
    accept := acceptAndClose
    icon := fun _ => 0 }

/-- A host with filters 2 and 4 only, both included by default. -/
def defaultOnlyHost : Host :=
  { filters := [filterFiles, filterMethods]
    toLower := asciiToLower
    accept := acceptAndClose
    icon := fun _ => 0 }

/-- A host whose first filter has an empty shortcut string. -/
def emptyShortcutHost : Host :=
  { filters := [filterNoShortcut, filterFiles, filterCls]
    toLower := asciiToLower
    accept := acceptAndClose
    icon := fun _ => 0 }

/-- An entry of filter 2 with a one-letter display name. -/
def demoEntry (name : Char) : LocatorFilterEntry :=
  { filter := some 2, displayName := [name], extraInfo := [], fileName := [],
    displayIcon := none
    highlightInfo := { startIndex := 0, length := 0, dataType := HighlightDataType.DisplayName } }

/-- The query "a" is typed and the popup timer fires, three entries arrive,
the query "ab" is submitted and then row 1 is committed, and the task ends:
both a restart text and an accept row are pending. -/
def restartAndAcceptPending : LocatorWidget :=
  run demoHost LocatorWidget.initial
    [Event.textChanged ['a'], Event.showPopupTimeout,
     Event.resultsReady [demoEntry 'x', demoEntry 'y', demoEntry 'z'],
     Event.submitQuery ['a', 'b'], Event.commitSelection 1, Event.taskEnds]

/-- The query "q" is typed and the popup timer fires, three entries arrive,
row 0 is committed before the completion, and the task ends. -/
def acceptPending : LocatorWidget :=
  run demoHost LocatorWidget.initial
    [Event.textChanged ['q'], Event.showPopupTimeout,
     Event.resultsReady [demoEntry 'x', demoEntry 'y', demoEntry 'z'],
     Event.commitSelection 0, Event.taskEnds]

/-- A first search fills the sink with six entries and completes; the user
types again, commits row 5 before the popup timer fires, the timer starts the
new search, which delivers two entries and ends. -/
def sixEntriesThenEdit : LocatorWidget :=
  run demoHost LocatorWidget.initial
    [Event.textChanged ['a'], Event.showPopupTimeout,
     Event.resultsReady [demoEntry 'p', demoEntry 'q', demoEntry 'r', demoEntry 's',
       demoEntry 't', demoEntry 'u'],
     Event.taskEnds, Event.finished,
     Event.textChanged ['a', 'b']]

/-- A first search fills the sink with six entries and completes; the user
types again and the popup timer starts the new search, which is running and
has not delivered anything yet: the sink still shows the six old entries. -/
def newSearchOverOldList : LocatorWidget :=
  run demoHost LocatorWidget.initial
    [Event.textChanged ['a'], Event.showPopupTimeout,
     Event.resultsReady [demoEntry 'p', demoEntry 'q', demoEntry 'r', demoEntry 's',
       demoEntry 't', demoEntry 'u'],
     Event.taskEnds, Event.finished,
     Event.textChanged ['a', 'b'], Event.showPopupTimeout]

/-- An entry of filter 2 with a one-letter display name and the extra info
"dir". -/
def demoEntryWithInfo (name : Char) : LocatorFilterEntry :=
  { filter := some 2, displayName := [name], extraInfo := ['d', 'i', 'r'], fileName := [],
    displayIcon := none
    highlightInfo := { startIndex := 0, length := 0, dataType := HighlightDataType.DisplayName } }

/-- Row 0 of the six-entry list is committed while an update is pending, the
popup timer starts the new search, and the worker has reported a first batch
of two entries which is not delivered yet. -/
def firstBatchReported : LocatorWidget :=
  { run demoHost sixEntriesThenEdit [Event.commitSelection 0, Event.showPopupTimeout] with
    future :=
      { (run demoHost sixEntriesThenEdit
          [Event.commitSelection 0, Event.showPopupTimeout]).future with
        results := [demoEntry 'v', demoEntry 'w'] } }

/-- The one case in which `data` looks an icon up: a decoration read of
column 0 of an entry without an icon and with a file name. -/
def needsIconLookup (e : LocatorFilterEntry) (column : Int) (role : ItemRole) : Bool :=
  (decide (role = ItemRole.DecorationRole) || decide (role = ItemRole.ResultIconRole))
    && decide (column = 0) && e.displayIcon.isNone && !e.fileName.isEmpty

/-- An entry of filter 2 for the file "a.h", without an icon. -/
def demoFileEntry : LocatorFilterEntry :=
  { filter := some 2, displayName := ['a'], extraInfo := [], fileName := ['a', '.', 'h'],
    displayIcon := none
    highlightInfo := { startIndex := 0, length := 0, dataType := HighlightDataType.DisplayName } }

/-- A host whose icon provider answers with the length of the file name plus
40. -/
def iconHost : Host :=
  { filters := [filterFiles]
    toLower := asciiToLower
    accept := acceptAndClose
    icon := fun fileName => fileName.length + 40 }

end Locator

/-!
# Watch window: member variables and memory markup

A shallow embedding of the helpers of `src/plugins/debugger/watchwindow.cpp`
that compute on data: `sortedMemberVariables`, `variableMemoryMarkup` and the
two action texts.

* A watch model index is the record `WatchItem`: its name and, for each child
  row, what `addressOf`, `sizeOf` and `nameOf` return.
* Values of type `quint64` are natural numbers below 2^64; sums and
  differences that the code computes in `quint64` are reduced modulo 2^64.
* `qFill` outside the vector is undefined; `variableMemoryMarkup` returns
  `none` when a fill leaves the per-byte vector.
* The per-byte vector is constructed with an `int` size and the condensing
  loop counts with an `unsigned`: for a `size` that is not a non-negative
  `int` the construction or the loop leaves the vector, and
  `variableMemoryMarkup` returns `none` as well.
* The colours and the tool tip text come from Qt (`QColor::lighter`,
  `QColor::darker`, `tr(...).arg(...)`) and are collected in `Toolkit`.
-/

namespace Debugger

open Locator

/-! ## Member variables -/

/-- The number of values of a `quint64`. -/
def quint64Modulus : Nat := 2 ^ 64

/-- What `sortedMemberVariables` reads of a child row `m.child(r, 0)`:
`addressOf` (a `quint64`), `sizeOf` (a `uint`) and `nameOf`. -/
structure WatchRow where
  address : Nat
  size : Nat
  name : QString
  deriving DecidableEq, Repr

/-- What the helpers read of a watch model index: `nameOf(m)` and the child
rows in row order. -/
structure WatchItem where
  name : QString
  children : List WatchRow
  deriving DecidableEq, Repr

/-- The struct `MemberVariable`. -/
structure MemberVariable where
  address : Nat
  size : Nat
  name : QString
  deriving DecidableEq, Repr

/-- The function `lessThanMV`. -/
def lessThanMV (m1 m2 : MemberVariable) : Bool :=
  decide (m1.address < m2.address)

/-- Insertion of an element into a list behind the elements that are less
than it, and before every other one. -/
def stableInsert {α : Type} (lessThan : α → α → Bool) (x : α) : List α → List α
  | [] => [x]
  | y :: ys => if lessThan y x then y :: stableInsert lessThan x ys else x :: y :: ys

/-- The Qt algorithm `qStableSort(begin, end, lessThan)`, as a stable
insertion sort: the result is sorted and elements of which neither is less
than the other keep their order. -/
def qStableSort {α : Type} (lessThan : α → α → Bool) : List α → List α
  | [] => []
  | x :: xs => stableInsert lessThan x (qStableSort lessThan xs)

/-- The body of the loop of `sortedMemberVariables` for one child row. -/
def collectMember (start endAddress : Nat) (result : List MemberVariable) (child : WatchRow) :
    List MemberVariable :=
  let childAddress := child.address
  let childSize := child.size
  if childAddress != 0 && decide (childAddress ≥ start)
      && decide ((childAddress + childSize) % quint64Modulus ≤ endAddress) then
    result ++ [{ address := childAddress, size := childSize, name := child.name }]
  else result

/-- The function `sortedMemberVariables`. -/
def sortedMemberVariables (m : WatchItem) (start endAddress : Nat) : List MemberVariable :=
  let rowCount := m.children.length
  if rowCount = 0 then []
  else qStableSort lessThanMV (m.children.foldl (collectMember start endAddress) [])

/-! ## Memory markup -/

/-- A `QColor`, as a number. -/
abbrev Colour := Nat

/-- The parts of Qt that `variableMemoryMarkup` uses. -/
structure Toolkit where
  /-- The colour `Qt::lightGray`. -/
  lightGray : Colour
  /-- The colour `QColor(Qt::yellow).lighter()`. -/
  yellowLighter : Colour
  /-- The colour `QColor(Qt::cyan).lighter()`. -/
  cyanLighter : Colour
  /-- The function `QColor::darker(120)`. -/
  darker120 : Colour → Colour
  /-- The text `tr("%1.%2 at #%3").arg(name, member).arg(childOffset)`. -/
  memberToolTip : QString → QString → Nat → QString

/-- The pair `ColorNamePair`: background colour and tool tip of one byte. -/
abbrev ColorNamePair := Colour × QString

/-- A `MemoryViewWidget::Markup`; of the format only the background colour is
kept. -/
structure Markup where
  address : Nat
  size : Nat
  background : Colour
  toolTip : QString
  deriving DecidableEq, Repr

/-- The call `qFill(ranges.begin() + first, ranges.begin() + last, value)`;
`none` when the interval is not within the vector. -/
def qFill (ranges : List ColorNamePair) (first last : Nat) (value : ColorNamePair) :
    Option (List ColorNamePair) :=
  if first ≤ last ∧ last ≤ ranges.length then
    some (ranges.take first ++ List.replicate (last - first) value ++ ranges.drop last)
  else none

/-- The loop over the members in `variableMemoryMarkup`, from member number
`k` on, with the current values of `memberColor1` and `memberColor2`. -/
def fillMembers (qt : Toolkit) (name : QString) (address : Nat) :
    List MemberVariable → Nat → Colour → Colour → List ColorNamePair →
      Option (List ColorNamePair)
  | [], _, _, _, ranges => some ranges
  | member :: rest, k, memberColor1, memberColor2, ranges =>
    let memberColor := if k % 2 = 1 then memberColor1 else memberColor2
    let nextColor1 := if k % 2 = 1 then qt.darker120 memberColor1 else memberColor1
    let nextColor2 := if k % 2 = 1 then memberColor2 else qt.darker120 memberColor2
    let childOffset := (member.address + quint64Modulus - address) % quint64Modulus
    let toolTip := qt.memberToolTip name member.name childOffset
    match qFill ranges childOffset (childOffset + member.size) (memberColor, toolTip) with
    | none => none
    | some filled => fillMembers qt name address rest (k + 1) nextColor1 nextColor2 filled

/-- The loop that condenses the per-byte vector into markup ranges, from byte
number `i` on; `backwards` is the result so far, newest range first, so that
its head is `result.back()`. -/
def condenseLoop (address : Nat) : List ColorNamePair → Nat → List Markup → List Markup
  | [], _, backwards => backwards.reverse
  | range :: rest, i, [] =>
    condenseLoop address rest (i + 1)
      [{ address := (address + i) % quint64Modulus, size := 1, background := range.1,
         toolTip := range.2 }]
  | range :: rest, i, back :: earlier =>
    if back.background != range.1 then
      condenseLoop address rest (i + 1)
        ({ address := (address + i) % quint64Modulus, size := 1, background := range.1,
           toolTip := range.2 } :: back :: earlier)
    else
      condenseLoop address rest (i + 1) ({ back with size := back.size + 1 } :: earlier)

/-- The number of non-negative values of an `int`. -/
def intLimit : Nat := 2 ^ 31

/-- The per-byte vector `ranges` of `variableMemoryMarkup` after the members
have been filled in. The constructor `ColorNameVector ranges(size, ...)` takes
its size as an `int`: a `size` of 2^31 or more is narrowed to a negative
number or to fewer entries than the `size` bytes that the condensing loop
reads with `ranges.at(i)`, so there is no vector to go on with. -/
def memberRanges (qt : Toolkit) (m : WatchItem) (address size : Nat) (sizeIsEstimate : Bool)
    (defaultBackground : Colour) : Option (List ColorNamePair) :=
  let members := sortedMemberVariables m address ((address + size) % quint64Modulus)
  let baseColor := if sizeIsEstimate then defaultBackground else qt.lightGray
  let name := m.name
  if intLimit ≤ size then none
  else
    let ranges : List ColorNamePair := List.replicate size (baseColor, name)
    fillMembers qt name address members 0 qt.yellowLighter qt.cyanLighter ranges

/-- The function `variableMemoryMarkup`. -/
def variableMemoryMarkup (qt : Toolkit) (m : WatchItem) (address size : Nat)
    (sizeIsEstimate : Bool) (defaultBackground : Colour) : Option (List Markup) :=
  let members := sortedMemberVariables m address ((address + size) % quint64Modulus)
  if sizeIsEstimate && members.isEmpty then some []
  else
    match memberRanges qt m address size sizeIsEstimate defaultBackground with
    | none => none
    | some ranges => some (condenseLoop address ranges 0 [])

/-! ## Action texts -/

/-- The truncation shared by the two action texts: `exp.truncate(30)` and
`exp.append("...")` when `exp.size() > 30`. -/
def truncateExpression (exp : QString) : QString :=
  if exp.length > 30 then exp.take 30 ++ ['.', '.', '.'] else exp

/-- The function `addWatchActionText`, with the untranslated texts. -/
def addWatchActionText (exp : QString) : QString :=
  if exp.isEmpty then "Watch Expression".toList
  else "Watch Expression \"".toList ++ truncateExpression exp ++ ['"']

/-- The function `removeWatchActionText`, with the untranslated texts. -/
def removeWatchActionText (exp : QString) : QString :=
  if exp.isEmpty then "Remove Watch Expression".toList
  else "Remove Watch Expression \"".toList ++ truncateExpression exp ++ ['"']

/-- The member variable made from a child row. -/
def WatchRow.toMember (c : WatchRow) : MemberVariable :=
  { address := c.address, size := c.size, name := c.name }

/-- A child row that is kept: its address is non-zero and at least `start`,
and its address plus its size, as the `quint64` sum, is at most the end. -/
def withinArea (start endAddress : Nat) (c : WatchRow) : Bool :=
  c.address != 0 && decide (start ≤ c.address)
    && decide ((c.address + c.size) % quint64Modulus ≤ endAddress)

/-- The same with the sum of address and size as a plain number. -/
def liesWithin (start endAddress : Nat) (c : WatchRow) : Bool :=
  c.address != 0 && decide (start ≤ c.address) && decide (c.address + c.size ≤ endAddress)

/-- The kept child rows, in row order, as member variables. -/
def keptMembers (m : WatchItem) (start endAddress : Nat) : List MemberVariable :=
  (m.children.filter (withinArea start endAddress)).map WatchRow.toMember

/-- A watch item "s" at address 100 with six child rows: a member outside the
area, two rows at address 100 (an empty base and the first member), a row
without address, a member at 101 and a static member far away. -/
def demoStruct : WatchItem :=
  { name := ['s'],
    children :=
      [{ address := 108, size := 8, name := ['z'] },
       { address := 100, size := 0, name := ['B'] },
       { address := 0, size := 4, name := ['o'] },
       { address := 101, size := 1, name := ['c'] },
       { address := 5000, size := 4, name := ['S'] },
       { address := 100, size := 1, name := ['b'] },
       { address := 104, size := 4, name := ['x'] }] }

/-- The markup range for the single byte number `i`. -/
def byteMarkup (address i : Nat) (range : ColorNamePair) : Markup :=
  { address := (address + i) % quint64Modulus, size := 1, background := range.1,
    toolTip := range.2 }

/-- A range put in front of a list of ranges: it swallows the first of them
when that one has the same background colour. -/
def absorb (first : Markup) : List Markup → List Markup
  | [] => [first]
  | next :: more =>
    if next.background = first.background then
      { first with size := first.size + next.size } :: more
    else first :: next :: more

/-- The runs of identical background colour of a per-byte vector that starts
at byte number `off`: each run is one range, with the address and the tool
tip of its first byte. -/
def colourRuns (address : Nat) : Nat → List ColorNamePair → List Markup
  | _, [] => []
  | off, range :: rest => absorb (byteMarkup address off range) (colourRuns address (off + 1) rest)

/-- The per-byte background colours that a list of ranges stands for. -/
def expandColours (ranges : List Markup) : List Colour :=
  (ranges.map (fun r => List.replicate r.size r.background)).flatten

/-- The sum of the sizes of a list of ranges. -/
def totalSize (ranges : List Markup) : Nat :=
  (ranges.map (fun r => r.size)).sum

/-- The range that holds byte number `i` of the area. -/
def markupAt : List Markup → Nat → Option Markup
  | [], _ => none
  | r :: rest, i => if i < r.size then some r else markupAt rest (i - r.size)

/-- The offsets at which the ranges of a list start when they follow one
another without gap, the first of them at offset `off`. -/
def startOffsets : Nat → List Markup → List Nat
  | _, [] => []
  | off, r :: rest => off :: startOffsets (off + r.size) rest

/-- The offset of a member variable within the area that starts at
`address`, as the loop computes it. -/
def memberOffset (address : Nat) (mv : MemberVariable) : Nat :=
  (mv.address + quint64Modulus - address) % quint64Modulus

/-- Byte number `i` of the area belongs to the interval filled for the member
variable. -/
def covers (address : Nat) (mv : MemberVariable) (i : Nat) : Bool :=
  decide (memberOffset address mv ≤ i ∧ i < memberOffset address mv + mv.size)

/-- The colour of the member variable number `j` in address order: the
members with odd number start from the lighter yellow, those with even number
from the lighter cyan, and each further one of either kind is darker. -/
def memberColour (qt : Toolkit) (j : Nat) : Colour :=
  if j % 2 = 1 then qt.darker120^[j / 2] qt.yellowLighter
  else qt.darker120^[j / 2] qt.cyanLighter

/-- The colour and tool tip of byte number `i` after the members, the first
of them with number `k`, have been painted in their order over `cur`. -/
def paintByte (qt : Toolkit) (name : QString) (address : Nat) :
    List MemberVariable → Nat → ColorNamePair → Nat → ColorNamePair
  | [], _, cur, _ => cur
  | mv :: rest, k, cur, i =>
    paintByte qt name address rest (k + 1)
      (if covers address mv i then
        (memberColour qt k, qt.memberToolTip name mv.name (memberOffset address mv))
       else cur) i

/-- A toolkit with small numbers for the colours: light gray is 1, the
lighter yellow 100, the lighter cyan 200, darkening adds one, and the tool tip
of a member is "parent.member at #offset". -/
def demoToolkit : Toolkit :=
  { lightGray := 1, yellowLighter := 100, cyanLighter := 200,
    darker120 := fun c => c + 1,
    memberToolTip := fun name member offset =>
      name ++ ['.'] ++ member ++ " at #".toList ++ (Nat.toDigits 10 offset) }

/-- A watch item at the upper end of the address range: its area starts 16
bytes below 2^64 and has 8 bytes, and its child row starts 2 bytes below 2^64
and has 4 bytes. -/
def wrappingStruct : WatchItem :=
  { name := ['w'],
    children := [{ address := quint64Modulus - 2, size := 4, name := ['m'] }] }

/-- A union "u" at address 100 with two members that start at the same
address, of 4 and of 2 bytes. -/
def demoUnion : WatchItem :=
  { name := ['u'],
    children :=
      [{ address := 100, size := 4, name := ['i'] },
       { address := 100, size := 2, name := ['h'] }] }

/-- The markup of the union "u": the first two bytes in the colour of the
member h, which comes later in address order, the other two in the colour of
the member i. -/
def demoUnionMarkup : List Markup :=
  [{ address := 100, size := 2, background := 100, toolTip := "u.h at #0".toList },
   { address := 102, size := 2, background := 200, toolTip := "u.i at #0".toList }]

end Debugger

namespace Locator

/-! ## Lemmas -/

theorem take_findIdx_eq_takeWhile {α : Type} (q : α → Bool) (l : List α) :
    l.take (l.findIdx q) = l.takeWhile (fun c => !q c) := by
  induction l with
  | nil => rfl
  | cons a t ih =>
    rw [List.findIdx_cons]
    cases hq : q a <;> simp [List.takeWhile_cons, hq, ih]

theorem drop_findIdx_eq_dropWhile {α : Type} (q : α → Bool) (l : List α) :
    l.drop (l.findIdx q) = l.dropWhile (fun c => !q c) := by
  induction l with
  | nil => rfl
  | cons a t ih =>
    rw [List.findIdx_cons]
    cases hq : q a <;> simp [List.dropWhile_cons, hq, ih]

theorem findIdx_lt_length_iff_mem {α : Type} [DecidableEq α] (a : α) (l : List α) :
    l.findIdx (fun c => c == a) < l.length ↔ a ∈ l := by
  induction l with
  | nil => simp
  | cons b t ih =>
    rw [List.findIdx_cons]
    by_cases hb : b = a
    · simp [hb]
    · have hb2 : (b == a) = false := by simpa using hb
      have hne : ¬ a = b := fun e => hb e.symm
      simp [hb2, ih, hne]

theorem drop_firstNonSpace (text : QString) :
    text.drop (firstNonSpace text) = afterLeadingWhitespace text := by
  unfold firstNonSpace afterLeadingWhitespace
  rw [drop_findIdx_eq_dropWhile]
  simp

/-- The index computed by `indexOf` for the space, in the words of the
specification. -/
theorem indexOf_space_eq (text : QString) :
    QString.indexOf text QChar.Space (firstNonSpace text) =
      if QChar.Space ∈ afterLeadingWhitespace text then
        some (firstNonSpace text +
          (afterLeadingWhitespace text).findIdx (fun c => c == QChar.Space))
      else none := by
  unfold QString.indexOf
  simp only [drop_firstNonSpace, findIdx_lt_length_iff_mem]

theorem prefixLoop_fst (pfx remainder : QString) (fs : List ILocatorFilter)
    (acc : List ILocatorFilter) (st : QString) :
    (prefixLoop pfx remainder fs (acc, st)).1 =
      acc ++ fs.filter (fun f => decide (f.shortcutString = pfx)) := by
  induction fs generalizing acc st with
  | nil => simp [prefixLoop]
  | cons f t ih =>
    by_cases hf : pfx = f.shortcutString
    · subst hf
      simp [prefixLoop, ih]
    · have hf2 : ¬ f.shortcutString = pfx := fun e => hf e.symm
      simp [prefixLoop, hf, hf2, ih]

theorem prefixLoop_snd (pfx remainder : QString) (fs : List ILocatorFilter)
    (acc : List ILocatorFilter) (st : QString) :
    (prefixLoop pfx remainder fs (acc, st)).2 =
      if fs.filter (fun f => decide (f.shortcutString = pfx)) = [] then st else remainder := by
  induction fs generalizing acc st with
  | nil => simp [prefixLoop]
  | cons f t ih =>
    by_cases hf : pfx = f.shortcutString
    · subst hf
      rw [prefixLoop, if_pos rfl, ih]
      simp
    · have hf2 : ¬ f.shortcutString = pfx := fun e => hf e.symm
      simp [prefixLoop, hf, hf2, ih]

/-- The function `filtersFor` in the words of the specification: the filters
with the leading token as shortcut when there is a space and such a filter
exists, the default filters otherwise. -/
theorem filtersFor_eq (h : Host) (text st0 : QString) :
    filtersFor h text st0 =
      if QChar.Space ∈ afterLeadingWhitespace text ∧
          filtersWithShortcut h (leadingToken h text) ≠ [] then
        (filtersWithShortcut h (leadingToken h text), QString.trimmed (afterToken text))
      else (defaultFilters h, QString.trimmed text) := by
  unfold filtersFor
  rw [indexOf_space_eq]
  by_cases hsp : QChar.Space ∈ afterLeadingWhitespace text
  · simp only [hsp, if_true, true_and]
    have hmid : QString.mid text (firstNonSpace text)
        (firstNonSpace text + (afterLeadingWhitespace text).findIdx (fun c => c == QChar.Space)
          - firstNonSpace text) =
        (afterLeadingWhitespace text).takeWhile (fun c => c != QChar.Space) := by
      unfold QString.mid
      rw [Nat.add_sub_cancel_left, drop_firstNonSpace, take_findIdx_eq_takeWhile]
      rfl
    have hrest : QString.midFrom text
        (firstNonSpace text + (afterLeadingWhitespace text).findIdx (fun c => c == QChar.Space)) =
        afterToken text := by
      unfold QString.midFrom afterToken
      rw [← List.drop_drop, drop_firstNonSpace, drop_findIdx_eq_dropWhile]
      rfl
    simp only [hmid, hrest]
    have h1 := prefixLoop_fst (leadingToken h text) (QString.trimmed (afterToken text))
      h.filters [] st0
    have h2 := prefixLoop_snd (leadingToken h text) (QString.trimmed (afterToken text))
      h.filters [] st0
    unfold leadingToken at h1 h2
    unfold filtersWithShortcut leadingToken defaultFilters
    by_cases hne : h.filters.filter (fun f => decide (f.shortcutString =
        h.toLower ((afterLeadingWhitespace text).takeWhile (fun c => c != QChar.Space)))) = []
    · rw [hne] at h1
      simp [h1, hne]
    · rw [if_neg hne] at h2
      rw [if_pos hne]
      have hemp : (prefixLoop (h.toLower ((afterLeadingWhitespace text).takeWhile
          (fun c => c != QChar.Space))) (QString.trimmed (afterToken text)) h.filters
          ([], st0)).1.isEmpty = false := by
        rw [h1]; simpa [List.isEmpty_iff] using hne
      rw [hemp]
      simp only [Bool.not_false, if_true]
      exact Prod.ext (by simpa using h1) h2
  · simp [hsp, defaultFilters]

theorem singleTask_initial : SingleTask LocatorWidget.initial := by
  unfold SingleTask LocatorWidget.initial
  simp

theorem updateCompletionList_singleTask (h : Host) (s : LocatorWidget) (text : QString)
    (hs : s.detachedRunning = 0) : SingleTask (updateCompletionList h s text) := by
  unfold SingleTask updateCompletionList setFuture QFuture.cancel
  cases hr : s.future.running <;> simp [hr, hs]

theorem showPopupNow_singleTask (h : Host) (s : LocatorWidget)
    (hs : s.detachedRunning = 0) : SingleTask (showPopupNow h s) := by
  have := updateCompletionList_singleTask h { s with showPopupTimerActive := false } s.lineText hs
  unfold showPopupNow showCompletionList
  exact this

theorem SingleTask.of_fields {s t : LocatorWidget} (hs : SingleTask s)
    (h1 : t.detachedRunning = s.detachedRunning) (h2 : t.future = s.future)
    (h3 : t.m_updateRequested = s.m_updateRequested) : SingleTask t := by
  unfold SingleTask at hs ⊢
  rw [h1, h2, h3]
  exact hs

theorem setText_detachedRunning (s : LocatorWidget) (text : QString) :
    (setText s text).detachedRunning = s.detachedRunning := by
  unfold setText showPopup
  split_ifs <;> rfl

theorem showText_singleTask (h : Host) (s : LocatorWidget) (text : QString)
    (selectionStart selectionLength : Int) (hs : s.detachedRunning = 0) :
    SingleTask (showText h s text selectionStart selectionLength) := by
  have hst : (if (!text.isEmpty) = true then setText s text else s).detachedRunning = 0 := by
    split_ifs
    · rw [setText_detachedRunning]; exact hs
    · exact hs
  have key := showPopupNow_singleTask h
    { (if (!text.isEmpty) = true then setText s text else s) with lineFocus := true } hst
  refine SingleTask.of_fields key ?_ ?_ ?_ <;>
  · unfold showText
    simp only []
    split_ifs <;> rfl

theorem acceptEntry_singleTask (h : Host) (s : LocatorWidget) (row : Int)
    (hs : SingleTask s) : SingleTask (acceptEntry h s row) := by
  unfold acceptEntry
  split_ifs
  · exact hs
  · exact hs
  · exact hs
  · split
    · exact hs
    · split
      · exact SingleTask.of_fields hs rfl rfl rfl
      · simp only []
        split_ifs
        · exact SingleTask.of_fields hs rfl rfl rfl
        · exact showText_singleTask h _ _ _ _ hs.1

theorem handleSearchFinished_singleTask (h : Host) (s : LocatorWidget)
    (hs : SingleTask s) (hr : s.future.running = false) :
    SingleTask (handleSearchFinished h s) := by
  have hs3 : SingleTask { s with showProgressTimerActive := false, progressIndicatorVisible := false, m_updateRequested := false } := by
    unfold SingleTask
    exact ⟨hs.1, by simp [hr]⟩
  unfold handleSearchFinished setProgressIndicatorVisible
  simp only []
  split_ifs
  · exact SingleTask.of_fields (acceptEntry_singleTask h _ _ hs3) rfl rfl rfl
  · exact updateCompletionList_singleTask h _ _ hs.1
  · exact SingleTask.of_fields hs3 rfl rfl rfl
  · exact hs3

theorem scheduleAcceptEntry_singleTask (h : Host) (s : LocatorWidget) (row : Int)
    (hs : SingleTask s) : SingleTask (scheduleAcceptEntry h s row) := by
  unfold scheduleAcceptEntry
  split_ifs with hu
  · unfold SingleTask QFuture.cancel
    exact ⟨hs.1, fun _ => hu⟩
  · exact acceptEntry_singleTask h s row hs

theorem addSearchResults_fields (s : LocatorWidget) (a b : Nat) :
    (addSearchResults s a b).detachedRunning = s.detachedRunning ∧
    (addSearchResults s a b).future = s.future ∧
    (addSearchResults s a b).m_updateRequested = s.m_updateRequested := by
  unfold addSearchResults
  simp only []
  split_ifs <;> exact ⟨rfl, rfl, rfl⟩

theorem step_singleTask (h : Host) (s : LocatorWidget) (e : Event) (hs : SingleTask s) :
    SingleTask (step h s e) := by
  cases e with
  | textChanged text =>
    unfold step showPopup SingleTask
    exact ⟨hs.1, fun _ => rfl⟩
  | showPopupTimeout => exact showPopupNow_singleTask h s hs.1
  | submitQuery text => exact updateCompletionList_singleTask h s text hs.1
  | commitSelection row => exact scheduleAcceptEntry_singleTask h s row hs
  | resultsReady entries =>
    unfold step deliverBatch
    have hf := addSearchResults_fields
      { s with future := { s.future with results := s.future.results ++ entries } }
      s.future.results.length (s.future.results.length + entries.length)
    unfold SingleTask
    rw [hf.1, hf.2.1, hf.2.2]
    exact hs
  | taskEnds =>
    unfold step taskEnds SingleTask
    exact ⟨hs.1, by simp⟩
  | finished =>
    unfold step
    split_ifs with hr
    · exact hs
    · exact handleSearchFinished_singleTask h s hs (by simpa using hr)

theorem run_singleTask (h : Host) (events : List Event) (s : LocatorWidget)
    (hs : SingleTask s) : SingleTask (run h s events) := by
  unfold run
  induction events generalizing s with
  | nil => exact hs
  | cons e t ih => exact ih _ (step_singleTask h s e hs)

/-- The running branch of `updateCompletionList`, as one record update. -/
theorem updateCompletionList_running (h : Host) (s : LocatorWidget) (text : QString)
    (hr : s.future.running = true) :
    updateCompletionList h s text =
      { s with
        m_updateRequested := true
        m_requestedCompletionText := text
        future := s.future.cancel } := by
  unfold updateCompletionList
  simp [hr]

/-- The starting branch of `updateCompletionList`, as one record update. -/
theorem updateCompletionList_idle (h : Host) (s : LocatorWidget) (text : QString)
    (hr : s.future.running = false) :
    updateCompletionList h s text =
      { s with
        m_updateRequested := true
        showProgressTimerActive := true
        m_needsClearResult := true
        prepareSearchCalls := s.prepareSearchCalls ++
          (filtersFor h text []).1.map (fun f => (f.id, (filtersFor h text []).2))
        started := s.started ++ [filtersFor h text []]
        future := { running := true, canceled := false, filters := (filtersFor h text []).1,
                    searchText := (filtersFor h text []).2, results := [] } } := by
  unfold updateCompletionList setFuture
  simp [hr]

theorem run_append (h : Host) (s : LocatorWidget) (a b : List Event) :
    run h s (a ++ b) = run h (run h s a) b := by
  unfold run
  rw [List.foldl_append]

theorem run_cons (h : Host) (s : LocatorWidget) (e : Event) (t : List Event) :
    run h s (e :: t) = run h (step h s e) t := rfl

theorem run_nil (h : Host) (s : LocatorWidget) : run h s [] = s := rfl

theorem addEntries_mEntries (m : LocatorModel) (es : List LocatorFilterEntry) :
    (m.addEntries es).mEntries = m.mEntries ++ es := by
  unfold LocatorModel.addEntries
  simp only []
  split_ifs <;> rfl

/-- What a delivered batch leaves alone, and what it does to the sink. -/
theorem deliverBatch_spec (s : LocatorWidget) (es : List LocatorFilterEntry) :
    (deliverBatch s es).future.running = s.future.running ∧
    (deliverBatch s es).future.canceled = s.future.canceled ∧
    (deliverBatch s es).m_requestedCompletionText = s.m_requestedCompletionText ∧
    (deliverBatch s es).started = s.started ∧
    (deliverBatch s es).acceptCalls = s.acceptCalls ∧
    (deliverBatch s es).m_needsClearResult = false ∧
    (deliverBatch s es).m_locatorModel.mEntries = settledEntries s ++ es ∧
    (s.m_rowRequestedForAccept < 0 →
      (deliverBatch s es).m_rowRequestedForAccept = s.m_rowRequestedForAccept) ∧
    ((deliverBatch s es).m_rowRequestedForAccept = s.m_rowRequestedForAccept ∨
      (deliverBatch s es).m_rowRequestedForAccept = 0) := by
  unfold deliverBatch addSearchResults settledEntries
  simp only [List.drop_left, Nat.add_sub_cancel_left, List.take_length]
  cases hn : s.m_needsClearResult <;>
    simp only [hn, if_true, if_false, Bool.false_eq_true] <;>
    split_ifs <;> simp_all [addEntries_mEntries, LocatorModel.clear]

/-- A run of batch deliveries: the task, the pending restart and the logs are
left alone, and the batches are appended to the settled entries. -/
theorem run_batches (h : Host) (bs : List (List LocatorFilterEntry)) (s : LocatorWidget) :
    (run h s (bs.map Event.resultsReady)).future.running = s.future.running ∧
    (run h s (bs.map Event.resultsReady)).future.canceled = s.future.canceled ∧
    (run h s (bs.map Event.resultsReady)).m_requestedCompletionText
      = s.m_requestedCompletionText ∧
    (run h s (bs.map Event.resultsReady)).started = s.started ∧
    (run h s (bs.map Event.resultsReady)).acceptCalls = s.acceptCalls ∧
    settledEntries (run h s (bs.map Event.resultsReady)) = settledEntries s ++ bs.flatten ∧
    (s.m_rowRequestedForAccept < 0 →
      (run h s (bs.map Event.resultsReady)).m_rowRequestedForAccept
        = s.m_rowRequestedForAccept) := by
  induction bs generalizing s with
  | nil => simp [run_nil]
  | cons b t ih =>
    rw [List.map_cons, run_cons]
    obtain ⟨h1, h2, h3, h4, h5, h6, h7⟩ := ih (step h s (Event.resultsReady b))
    obtain ⟨d1, d2, d3, d4, d5, d6, d7, d8, -⟩ := deliverBatch_spec s b
    have hstep : step h s (Event.resultsReady b) = deliverBatch s b := rfl
    rw [hstep] at h1 h2 h3 h4 h5 h6 h7 ⊢
    refine ⟨h1.trans d1, h2.trans d2, h3.trans d3, h4.trans d4, h5.trans d5, ?_, ?_⟩
    · rw [h6, List.flatten_cons, ← List.append_assoc]
      congr 1
      unfold settledEntries
      rw [d6, d7]
      rfl
    · intro hneg
      rw [h7 (by rw [d8 hneg]; exact hneg), d8 hneg]

/-- A run of query submissions while the task is running. -/
theorem run_submits_running (h : Host) (texts : List QString) (s : LocatorWidget)
    (hr : s.future.running = true) :
    (run h s (texts.map Event.submitQuery)).future.running = true ∧
    (run h s (texts.map Event.submitQuery)).started = s.started ∧
    (run h s (texts.map Event.submitQuery)).m_rowRequestedForAccept
      = s.m_rowRequestedForAccept := by
  induction texts generalizing s with
  | nil => exact ⟨hr, rfl, rfl⟩
  | cons t ts ih =>
    rw [List.map_cons, run_cons]
    have hstep : step h s (Event.submitQuery t) = updateCompletionList h s t := rfl
    rw [hstep, updateCompletionList_running h s t hr]
    exact ih _ hr

/-- The restart branch of `handleSearchFinished`, for a finished task. -/
theorem handleSearchFinished_restart (h : Host) (s : LocatorWidget)
    (hrow : s.m_rowRequestedForAccept < 0) (hc : s.future.canceled = true)
    (hr : s.future.running = false) :
    handleSearchFinished h s =
      { s with
        m_updateRequested := true
        showProgressTimerActive := true
        progressIndicatorVisible := false
        m_requestedCompletionText := []
        m_needsClearResult := true
        prepareSearchCalls := s.prepareSearchCalls ++
          (filtersFor h s.m_requestedCompletionText []).1.map
            (fun f => (f.id, (filtersFor h s.m_requestedCompletionText []).2))
        started := s.started ++ [filtersFor h s.m_requestedCompletionText []]
        future := { running := true, canceled := false,
                    filters := (filtersFor h s.m_requestedCompletionText []).1,
                    searchText := (filtersFor h s.m_requestedCompletionText []).2,
                    results := [] } } := by
  unfold handleSearchFinished setProgressIndicatorVisible
  have hnot : ¬ s.m_rowRequestedForAccept ≥ 0 := by omega
  simp only [hnot, if_false, hc, if_true]
  exact updateCompletionList_idle h _ _ hr

/-- The idle branch of `handleSearchFinished`. -/
theorem handleSearchFinished_idle (h : Host) (s : LocatorWidget)
    (hrow : s.m_rowRequestedForAccept < 0) (hc : s.future.canceled = false) :
    (handleSearchFinished h s).m_locatorModel.mEntries = settledEntries s ∧
    (handleSearchFinished h s).m_needsClearResult = false ∧
    (handleSearchFinished h s).started = s.started ∧
    (handleSearchFinished h s).acceptCalls = s.acceptCalls ∧
    (handleSearchFinished h s).future = s.future := by
  unfold handleSearchFinished setProgressIndicatorVisible settledEntries
  have hnot : ¬ s.m_rowRequestedForAccept ≥ 0 := by omega
  simp only [hnot, if_false, hc, Bool.false_eq_true]
  cases hn : s.m_needsClearResult <;> simp [LocatorModel.clear]

/-- A non-empty run of query submissions while the task is running: nothing is
started, the last text is recorded and cancellation is requested. -/
theorem run_submits_last (h : Host) (texts : List QString) (last : QString)
    (s : LocatorWidget) (hr : s.future.running = true) :
    (run h s ((texts ++ [last]).map Event.submitQuery)).future.running = true ∧
    (run h s ((texts ++ [last]).map Event.submitQuery)).future.canceled = true ∧
    (run h s ((texts ++ [last]).map Event.submitQuery)).m_requestedCompletionText = last ∧
    (run h s ((texts ++ [last]).map Event.submitQuery)).started = s.started ∧
    (run h s ((texts ++ [last]).map Event.submitQuery)).m_rowRequestedForAccept
      = s.m_rowRequestedForAccept := by
  obtain ⟨a1, a2, a3⟩ := run_submits_running h texts s hr
  rw [List.map_append, run_append, List.map_singleton, run_cons, run_nil]
  have hstep : step h (run h s (texts.map Event.submitQuery)) (Event.submitQuery last) =
      updateCompletionList h (run h s (texts.map Event.submitQuery)) last := rfl
  rw [hstep, updateCompletionList_running h _ last a1]
  exact ⟨a1, rfl, rfl, a2, a3⟩

/-- The completion of a cancelled task with no accept pending: one search is
started, for the recorded text, and the recorded text is cleared. -/
theorem completion_restart (h : Host) (t : LocatorWidget)
    (hrow : t.m_rowRequestedForAccept < 0) (hc : t.future.canceled = true) :
    (run h t [Event.taskEnds, Event.finished]).started
      = t.started ++ [filtersFor h t.m_requestedCompletionText []] ∧
    (run h t [Event.taskEnds, Event.finished]).future
      = { running := true, canceled := false,
          filters := (filtersFor h t.m_requestedCompletionText []).1,
          searchText := (filtersFor h t.m_requestedCompletionText []).2, results := [] } ∧
    (run h t [Event.taskEnds, Event.finished]).m_requestedCompletionText = [] ∧
    (run h t [Event.taskEnds, Event.finished]).m_needsClearResult = true ∧
    (run h t [Event.taskEnds, Event.finished]).m_rowRequestedForAccept
      = t.m_rowRequestedForAccept ∧
    (run h t [Event.taskEnds, Event.finished]).acceptCalls = t.acceptCalls := by
  have hfin : run h t [Event.taskEnds, Event.finished] = handleSearchFinished h (taskEnds t) := by
    rw [run_cons, run_cons, run_nil]
    simp [step, taskEnds]
  rw [hfin, handleSearchFinished_restart h (taskEnds t) hrow hc rfl]
  exact ⟨rfl, rfl, rfl, rfl, rfl, rfl⟩

/-- The completion of a task that was not cancelled, with no accept pending:
the pending clear is applied and nothing is started. -/
theorem completion_idle (h : Host) (t : LocatorWidget)
    (hrow : t.m_rowRequestedForAccept < 0) (hc : t.future.canceled = false) :
    (run h t [Event.taskEnds, Event.finished]).m_locatorModel.mEntries = settledEntries t ∧
    (run h t [Event.taskEnds, Event.finished]).m_needsClearResult = false ∧
    (run h t [Event.taskEnds, Event.finished]).started = t.started ∧
    (run h t [Event.taskEnds, Event.finished]).acceptCalls = t.acceptCalls ∧
    (run h t [Event.taskEnds, Event.finished]).future.running = false := by
  have hfin : run h t [Event.taskEnds, Event.finished] = handleSearchFinished h (taskEnds t) := by
    rw [run_cons, run_cons, run_nil]
    simp [step, taskEnds]
  obtain ⟨i1, i2, i3, i4, i5⟩ := handleSearchFinished_idle h (taskEnds t) hrow hc
  rw [hfin, i5]
  exact ⟨i1, i2, i3, i4, rfl⟩

theorem updateCompletionList_acceptCalls (h : Host) (s : LocatorWidget) (text : QString) :
    (updateCompletionList h s text).acceptCalls = s.acceptCalls := by
  cases hr : s.future.running
  · rw [updateCompletionList_idle h s text hr]
  · rw [updateCompletionList_running h s text hr]

theorem updateCompletionList_row (h : Host) (s : LocatorWidget) (text : QString) :
    (updateCompletionList h s text).m_rowRequestedForAccept = s.m_rowRequestedForAccept := by
  cases hr : s.future.running
  · rw [updateCompletionList_idle h s text hr]
  · rw [updateCompletionList_running h s text hr]

theorem setText_fields (s : LocatorWidget) (text : QString) :
    (setText s text).lineText = text ∧
    (setText s text).future = s.future ∧
    (setText s text).started = s.started ∧
    (setText s text).acceptCalls = s.acceptCalls ∧
    (setText s text).m_rowRequestedForAccept = s.m_rowRequestedForAccept := by
  unfold setText showPopup
  split_ifs with ht
  · exact ⟨ht.symm, rfl, rfl, rfl, rfl⟩
  · exact ⟨rfl, rfl, rfl, rfl, rfl⟩

theorem showPopupNow_acceptCalls (h : Host) (s : LocatorWidget) :
    (showPopupNow h s).acceptCalls = s.acceptCalls := by
  unfold showPopupNow showCompletionList
  exact updateCompletionList_acceptCalls h _ _

theorem showPopupNow_row (h : Host) (s : LocatorWidget) :
    (showPopupNow h s).m_rowRequestedForAccept = s.m_rowRequestedForAccept := by
  unfold showPopupNow showCompletionList
  exact updateCompletionList_row h _ _

theorem showPopupNow_started (h : Host) (s : LocatorWidget) (hr : s.future.running = false) :
    (showPopupNow h s).started = s.started ++ [filtersFor h s.lineText []] := by
  unfold showPopupNow showCompletionList
  have hr2 : ({ s with showPopupTimerActive := false } : LocatorWidget).future.running = false := hr
  simp only []
  rw [updateCompletionList_idle h _ _ hr2]

theorem showText_acceptCalls (h : Host) (s : LocatorWidget) (text : QString)
    (a b : Int) : (showText h s text a b).acceptCalls = s.acceptCalls := by
  have key : (showPopupNow h
      { (if (!text.isEmpty) = true then setText s text else s) with lineFocus := true }).acceptCalls
      = s.acceptCalls := by
    rw [showPopupNow_acceptCalls]
    split_ifs
    · exact (setText_fields s text).2.2.2.1
    · rfl
  rw [← key]
  unfold showText
  simp only []
  split_ifs <;> rfl

/-- The search started by `showText` for a non-empty text when no task is
running: one search, for that text. -/
theorem showText_started (h : Host) (s : LocatorWidget) (text : QString) (a b : Int)
    (hr : s.future.running = false) (ht : text ≠ []) :
    (showText h s text a b).started = s.started ++ [filtersFor h text []] := by
  have hne : (!text.isEmpty) = true := by
    cases text with
    | nil => exact absurd rfl ht
    | cons c t => rfl
  obtain ⟨f1, f2, f3, -, -⟩ := setText_fields s text
  have key : (showPopupNow h { setText s text with lineFocus := true }).started
      = s.started ++ [filtersFor h text []] := by
    rw [showPopupNow_started h _ (f2 ▸ hr)]
    show (setText s text).started ++ [filtersFor h (setText s text).lineText []] = _
    rw [f1, f3]
  rw [← key]
  unfold showText
  simp only [hne, if_true]
  split_ifs <;> rfl

/-- An accept for a row at or beyond the row count is dropped. -/
theorem acceptEntry_beyond (h : Host) (s : LocatorWidget) (row : Int)
    (hrow : s.m_locatorModel.rowCount ≤ row) : acceptEntry h s row = s := by
  unfold acceptEntry
  split_ifs
  · rfl
  · rfl

/-- An accept for a visible list and a row within the sink calls the accept of
the filter owning the entry, once. -/
theorem acceptEntry_acceptCalls (h : Host) (s : LocatorWidget) (row : Int)
    (e : LocatorFilterEntry) (f : Nat)
    (hvis : s.completionListVisible = true) (hrow : 0 ≤ row)
    (hentry : s.m_locatorModel.mEntries[row.toNat]? = some e) (hf : e.filter = some f) :
    (acceptEntry h s row).acceptCalls = s.acceptCalls ++ [(f, e)] := by
  have hlt : row < s.m_locatorModel.rowCount := by
    unfold LocatorModel.rowCount
    have := (List.getElem?_eq_some_iff.mp hentry).1
    omega
  unfold acceptEntry
  rw [if_neg (by simp [hvis]), if_neg (by omega), if_neg (by simp [hrow, hlt])]
  simp only [hentry, hf]
  split_ifs
  · rfl
  · rw [showText_acceptCalls]

/-- What `acceptEntry` does to the two logs when no task is running: either
nothing is accepted and nothing started, or one accept is called and no
search is started, or one accept is called and one search is started for the
replacement text that this accept returned. -/
theorem acceptEntry_logs (h : Host) (s : LocatorWidget) (row : Int)
    (hr : s.future.running = false) :
    ((acceptEntry h s row).acceptCalls = s.acceptCalls ∧
      (acceptEntry h s row).started = s.started) ∨
    ∃ f e, (acceptEntry h s row).acceptCalls = s.acceptCalls ++ [(f, e)] ∧
      (((h.accept f e).newText = [] ∧ (acceptEntry h s row).started = s.started) ∨
       ((h.accept f e).newText ≠ [] ∧
        (acceptEntry h s row).started = s.started ++ [filtersFor h (h.accept f e).newText []])) := by
  unfold acceptEntry
  split_ifs
  · exact Or.inl ⟨rfl, rfl⟩
  · exact Or.inl ⟨rfl, rfl⟩
  · exact Or.inl ⟨rfl, rfl⟩
  · split
    · exact Or.inl ⟨rfl, rfl⟩
    · rename_i e he
      split
      · exact Or.inl ⟨rfl, rfl⟩
      · rename_i f hf
        refine Or.inr ⟨f, e, ?_⟩
        simp only []
        split_ifs with hnew
        · exact ⟨rfl, Or.inl ⟨by simpa [List.isEmpty_iff] using hnew, rfl⟩⟩
        · have hne : (h.accept f e).newText ≠ [] := by
            simpa [List.isEmpty_iff] using hnew
          exact ⟨showText_acceptCalls h _ _ _ _, Or.inr ⟨hne, showText_started h _ _ _ _ hr hne⟩⟩

/-- The accept branch of `handleSearchFinished`. -/
theorem handleSearchFinished_accept (h : Host) (s : LocatorWidget)
    (hrow : 0 ≤ s.m_rowRequestedForAccept) :
    handleSearchFinished h s =
      { acceptEntry h (finishedPrologue s) s.m_rowRequestedForAccept with
        m_rowRequestedForAccept := -1 } := by
  unfold handleSearchFinished setProgressIndicatorVisible finishedPrologue
  simp only [ge_iff_le, hrow, if_true]

/-- The notifications that neither commit a row nor handle a completion leave
the accept log alone and keep the pending accept row or retarget it to 0. -/
theorem step_background (h : Host) (t : LocatorWidget) (e : Event)
    (he : e.isBackground = true) :
    (step h t e).acceptCalls = t.acceptCalls ∧
    ((step h t e).m_rowRequestedForAccept = t.m_rowRequestedForAccept ∨
      (step h t e).m_rowRequestedForAccept = 0) := by
  cases e with
  | textChanged text => exact ⟨rfl, Or.inl rfl⟩
  | showPopupTimeout => exact ⟨showPopupNow_acceptCalls h t, Or.inl (showPopupNow_row h t)⟩
  | submitQuery text =>
    exact ⟨updateCompletionList_acceptCalls h t text, Or.inl (updateCompletionList_row h t text)⟩
  | commitSelection row => exact absurd he (by simp [Event.isBackground])
  | resultsReady entries =>
    obtain ⟨-, -, -, -, d5, -, -, -, d9⟩ := deliverBatch_spec t entries
    exact ⟨d5, d9⟩
  | taskEnds => exact ⟨rfl, Or.inl rfl⟩
  | finished => exact absurd he (by simp [Event.isBackground])

theorem run_background (h : Host) (mid : List Event) (t : LocatorWidget) (r : Int)
    (hmid : ∀ e ∈ mid, e.isBackground = true)
    (ht : t.m_rowRequestedForAccept = r ∨ t.m_rowRequestedForAccept = 0) :
    (run h t mid).acceptCalls = t.acceptCalls ∧
    ((run h t mid).m_rowRequestedForAccept = r ∨ (run h t mid).m_rowRequestedForAccept = 0) := by
  induction mid generalizing t with
  | nil => exact ⟨rfl, ht⟩
  | cons e es ih =>
    rw [run_cons]
    obtain ⟨a1, a2⟩ := step_background h t e (hmid e (List.mem_cons_self e es))
    have ht2 : (step h t e).m_rowRequestedForAccept = r ∨
        (step h t e).m_rowRequestedForAccept = 0 := by
      rcases a2 with a2 | a2
      · rw [a2]; exact ht
      · exact Or.inr a2
    obtain ⟨b1, b2⟩ := ih (step h t e) (fun x hx => hmid x (List.mem_cons_of_mem e hx)) ht2
    exact ⟨b1.trans a1, b2⟩

theorem addEntries_hasExtraInfo (m : LocatorModel) (es : List LocatorFilterEntry) :
    (m.addEntries es).hasExtraInfo = (m.hasExtraInfo || es.any hasNonEmptyExtraInfo) := by
  unfold LocatorModel.addEntries hasNonEmptyExtraInfo
  simp only []
  cases hm : m.hasExtraInfo
  · cases ha : es.any (fun e => !e.extraInfo.isEmpty) <;> simp [hm, ha]
  · simp [hm]

theorem applyAll_append (m : LocatorModel) (ops : List ModelOp) (op : ModelOp) :
    m.applyAll (ops ++ [op]) = (m.applyAll ops).apply op := by
  unfold LocatorModel.applyAll
  rw [List.foldl_append]
  rfl

theorem opsSinceClear_append_clear (ops : List ModelOp) :
    opsSinceClear (ops ++ [ModelOp.clear]) = [] := by
  unfold opsSinceClear
  simp [List.takeWhile_cons]

theorem opsSinceClear_append_add (ops : List ModelOp) (es : List LocatorFilterEntry) :
    opsSinceClear (ops ++ [ModelOp.addEntries es]) = opsSinceClear ops ++ [ModelOp.addEntries es] := by
  unfold opsSinceClear
  simp [List.takeWhile_cons]

theorem appendedSinceClear_append_add (ops : List ModelOp) (es : List LocatorFilterEntry) :
    appendedSinceClear (ops ++ [ModelOp.addEntries es]) = appendedSinceClear ops ++ es := by
  unfold appendedSinceClear
  rw [opsSinceClear_append_add]
  simp [ModelOp.entries]

/-- The model after a sequence of operations on a fresh one. -/
theorem applyAll_fresh (ops : List ModelOp) :
    (LocatorModel.fresh.applyAll ops).mEntries = appendedSinceClear ops ∧
    (LocatorModel.fresh.applyAll ops).hasExtraInfo
      = (appendedSinceClear ops).any hasNonEmptyExtraInfo := by
  induction ops using List.reverseRecOn with
  | nil => exact ⟨rfl, rfl⟩
  | append_singleton ops op ih =>
    rw [applyAll_append]
    cases op with
    | clear =>
      have hnil : appendedSinceClear (ops ++ [ModelOp.clear]) = [] := by
        unfold appendedSinceClear
        rw [opsSinceClear_append_clear]
        rfl
      rw [hnil]
      exact ⟨rfl, rfl⟩
    | addEntries es =>
      rw [appendedSinceClear_append_add]
      refine ⟨?_, ?_⟩
      · show ((LocatorModel.fresh.applyAll ops).addEntries es).mEntries = _
        rw [addEntries_mEntries, ih.1]
      · show ((LocatorModel.fresh.applyAll ops).addEntries es).hasExtraInfo = _
        rw [addEntries_hasExtraInfo, ih.2, List.any_append]

theorem updateCompletionList_model (h : Host) (s : LocatorWidget) (text : QString) :
    (updateCompletionList h s text).m_locatorModel = s.m_locatorModel := by
  cases hr : s.future.running
  · rw [updateCompletionList_idle h s text hr]
  · rw [updateCompletionList_running h s text hr]

theorem updateCompletionList_requested_idle (h : Host) (s : LocatorWidget) (text : QString)
    (hr : s.future.running = false) :
    (updateCompletionList h s text).m_requestedCompletionText = s.m_requestedCompletionText := by
  rw [updateCompletionList_idle h s text hr]

theorem setText_frame (s : LocatorWidget) (text : QString) :
    (setText s text).m_locatorModel = s.m_locatorModel ∧
    (setText s text).m_requestedCompletionText = s.m_requestedCompletionText := by
  unfold setText showPopup
  split_ifs
  · exact ⟨rfl, rfl⟩
  · exact ⟨rfl, rfl⟩

theorem showText_frame (h : Host) (s : LocatorWidget) (text : QString) (a b : Int)
    (hr : s.future.running = false) :
    (showText h s text a b).m_locatorModel = s.m_locatorModel ∧
    (showText h s text a b).m_requestedCompletionText = s.m_requestedCompletionText := by
  have hfut : (if (!text.isEmpty) = true then setText s text else s).future = s.future := by
    split_ifs
    · exact (setText_fields s text).2.1
    · rfl
  have hfr : (if (!text.isEmpty) = true then setText s text else s).m_locatorModel
        = s.m_locatorModel ∧
      (if (!text.isEmpty) = true then setText s text else s).m_requestedCompletionText
        = s.m_requestedCompletionText := by
    split_ifs
    · exact setText_frame s text
    · exact ⟨rfl, rfl⟩
  have key : (showPopupNow h
      { (if (!text.isEmpty) = true then setText s text else s) with lineFocus := true }).m_locatorModel
        = s.m_locatorModel ∧
      (showPopupNow h
      { (if (!text.isEmpty) = true then setText s text else s) with
          lineFocus := true }).m_requestedCompletionText = s.m_requestedCompletionText := by
    unfold showPopupNow showCompletionList
    refine ⟨?_, ?_⟩
    · exact (updateCompletionList_model h _ _).trans hfr.1
    · exact (updateCompletionList_requested_idle h _ _ (by rw [← hr, ← hfut])).trans hfr.2
  rw [← key.1, ← key.2]
  unfold showText
  simp only []
  split_ifs <;> exact ⟨rfl, rfl⟩

theorem acceptEntry_frame (h : Host) (s : LocatorWidget) (row : Int)
    (hr : s.future.running = false) :
    (acceptEntry h s row).m_locatorModel = s.m_locatorModel ∧
    (acceptEntry h s row).m_requestedCompletionText = s.m_requestedCompletionText := by
  unfold acceptEntry
  split_ifs
  · exact ⟨rfl, rfl⟩
  · exact ⟨rfl, rfl⟩
  · exact ⟨rfl, rfl⟩
  · split
    · exact ⟨rfl, rfl⟩
    · split
      · exact ⟨rfl, rfl⟩
      · simp only []
        split_ifs
        · exact ⟨rfl, rfl⟩
        · exact showText_frame h _ _ _ _ hr

theorem handleSearchFinished_eq_settleIdle (h : Host) (s : LocatorWidget)
    (hrow : s.m_rowRequestedForAccept < 0) (hc : s.future.canceled = false) :
    handleSearchFinished h s = settleIdle s := by
  unfold handleSearchFinished setProgressIndicatorVisible settleIdle finishedPrologue
  have hnot : ¬ s.m_rowRequestedForAccept ≥ 0 := by omega
  simp only [hnot, if_false, hc, Bool.false_eq_true]
  cases hn : s.m_needsClearResult <;> simp

theorem handleSearchFinished_eq_settleRestart (h : Host) (s : LocatorWidget)
    (hrow : s.m_rowRequestedForAccept < 0) (hc : s.future.canceled = true) :
    handleSearchFinished h s = settleRestart h s := by
  unfold handleSearchFinished setProgressIndicatorVisible settleRestart finishedPrologue
  have hnot : ¬ s.m_rowRequestedForAccept ≥ 0 := by omega
  simp only [hnot, if_false, hc, if_true]

/-- After at least one delivered batch no sink clear is pending. -/
theorem run_batches_needsClear (h : Host) (b : List LocatorFilterEntry)
    (bs : List (List LocatorFilterEntry)) (s : LocatorWidget) :
    (run h s ((b :: bs).map Event.resultsReady)).m_needsClearResult = false := by
  induction bs generalizing s b with
  | nil =>
    rw [List.map_cons, List.map_nil, run_cons, run_nil]
    exact (deliverBatch_spec s b).2.2.2.2.2.1
  | cons c cs ih =>
    rw [List.map_cons, run_cons]
    exact ih c (step h s (Event.resultsReady b))

/-- A query submitted when no task is running and no accept is pending. -/
theorem submit_idle_facts (h : Host) (s : LocatorWidget) (q : QString)
    (hidle : s.future.running = false) (hrow : s.m_rowRequestedForAccept < 0) :
    (step h s (Event.submitQuery q)).future.canceled = false ∧
    (step h s (Event.submitQuery q)).m_rowRequestedForAccept < 0 ∧
    (step h s (Event.submitQuery q)).m_needsClearResult = true := by
  have e1 : step h s (Event.submitQuery q) = updateCompletionList h s q := rfl
  rw [e1, updateCompletionList_idle h s q hidle]
  exact ⟨rfl, hrow, rfl⟩

/-- The completion of a task that was not cancelled, with no accept pending,
is the idle settle. -/
theorem completion_settleIdle (h : Host) (t : LocatorWidget)
    (hrow : t.m_rowRequestedForAccept < 0) (hc : t.future.canceled = false) :
    run h t [Event.taskEnds, Event.finished] = settleIdle (taskEnds t) := by
  rw [run_cons, run_cons, run_nil]
  have hst : step h (step h t Event.taskEnds) Event.finished
      = handleSearchFinished h (taskEnds t) := by
    simp [step, taskEnds]
  rw [hst]
  exact handleSearchFinished_eq_settleIdle h (taskEnds t) hrow hc

theorem setCurrentIndexRow_model (s : LocatorWidget) (row : Int) :
    (setCurrentIndexRow s row).m_locatorModel = s.m_locatorModel := rfl

theorem next_model (s : LocatorWidget) :
    (CompletionList.next s).m_locatorModel = s.m_locatorModel := rfl

theorem previous_model (s : LocatorWidget) :
    (CompletionList.previous s).m_locatorModel = s.m_locatorModel := rfl

theorem next_row (s : LocatorWidget) (hn : 1 ≤ s.m_locatorModel.rowCount)
    (h0 : 0 ≤ s.completionListCurrentRow)
    (h1 : s.completionListCurrentRow < s.m_locatorModel.rowCount) :
    (CompletionList.next s).completionListCurrentRow
      = (s.completionListCurrentRow + 1) % s.m_locatorModel.rowCount := by
  unfold CompletionList.next setCurrentIndexRow
  simp only []
  by_cases hw : s.completionListCurrentRow + 1 ≥ s.m_locatorModel.rowCount
  · have heq : s.completionListCurrentRow + 1 = s.m_locatorModel.rowCount := by omega
    rw [if_pos hw, if_pos ⟨le_refl 0, by omega⟩, heq, Int.emod_self]
  · rw [if_neg hw, if_pos ⟨by omega, by omega⟩, Int.emod_eq_of_lt (by omega) (by omega)]

theorem previous_row (s : LocatorWidget) (hn : 1 ≤ s.m_locatorModel.rowCount)
    (h0 : 0 ≤ s.completionListCurrentRow)
    (h1 : s.completionListCurrentRow < s.m_locatorModel.rowCount) :
    (CompletionList.previous s).completionListCurrentRow
      = (s.completionListCurrentRow - 1) % s.m_locatorModel.rowCount := by
  unfold CompletionList.previous setCurrentIndexRow
  simp only []
  by_cases hw : s.completionListCurrentRow - 1 < 0
  · have heq : s.completionListCurrentRow = 0 := by omega
    rw [if_pos hw, if_pos ⟨by omega, by omega⟩, heq]
    have : (0 - 1 : Int) % s.m_locatorModel.rowCount = s.m_locatorModel.rowCount - 1 := by
      have h2 : (0 - 1 : Int) = (s.m_locatorModel.rowCount - 1) + (-1) * s.m_locatorModel.rowCount := by
        ring
      rw [h2, Int.add_mul_emod_self, Int.emod_eq_of_lt (by omega) (by omega)]
    rw [this]
  · rw [if_neg hw, if_pos ⟨by omega, by omega⟩, Int.emod_eq_of_lt (by omega) (by omega)]

theorem next_iterate (s : LocatorWidget) (hn : 1 ≤ s.m_locatorModel.rowCount)
    (h0 : 0 ≤ s.completionListCurrentRow)
    (h1 : s.completionListCurrentRow < s.m_locatorModel.rowCount) (k : Nat) :
    (CompletionList.next^[k] s).m_locatorModel = s.m_locatorModel ∧
    (CompletionList.next^[k] s).completionListCurrentRow
      = (s.completionListCurrentRow + k) % s.m_locatorModel.rowCount := by
  induction k with
  | zero =>
    refine ⟨rfl, ?_⟩
    simp only [Function.iterate_zero, id_eq, Nat.cast_zero, add_zero]
    rw [Int.emod_eq_of_lt h0 h1]
  | succ k ih =>
    rw [Function.iterate_succ_apply']
    obtain ⟨im, ir⟩ := ih
    have hpos : (0 : Int) < s.m_locatorModel.rowCount := by omega
    have hr0 : 0 ≤ (CompletionList.next^[k] s).completionListCurrentRow := by
      rw [ir]; exact Int.emod_nonneg _ (by omega)
    have hr1 : (CompletionList.next^[k] s).completionListCurrentRow
        < (CompletionList.next^[k] s).m_locatorModel.rowCount := by
      rw [ir, im]; exact Int.emod_lt_of_pos _ hpos
    refine ⟨by rw [next_model, im], ?_⟩
    rw [next_row _ (by rw [im]; exact hn) hr0 hr1, ir, im]
    push_cast
    rw [← add_assoc, Int.add_emod ((s.completionListCurrentRow + ↑k) % s.m_locatorModel.rowCount),
      Int.emod_emod, ← Int.add_emod]

theorem toLower_ne_space (c : Char) (hc : c ≠ ' ') : c.toLower ≠ ' ' := by
  unfold Char.toLower
  simp only []
  split_ifs with h
  · obtain ⟨h1, h2⟩ := h
    generalize c.toNat = n at h1 h2
    interval_cases n <;> decide
  · exact hc

theorem asciiToLower_nonempty (t : QString) (ht : t ≠ []) : asciiToLower t ≠ [] := by
  unfold asciiToLower
  simpa using ht

theorem asciiToLower_spaceless (t : QString) (ht : QChar.Space ∉ t) :
    QChar.Space ∉ asciiToLower t := by
  unfold asciiToLower
  intro hmem
  obtain ⟨c, hc, hcl⟩ := List.mem_map.mp hmem
  have hne : c ≠ ' ' := by
    intro he
    rw [he] at hc
    exact ht hc
  exact toLower_ne_space c hne hcl

/-- The text that `filtersFor` lower-cases, in the words of the
specification. -/
theorem mid_token_eq (text : QString) :
    QString.mid text (firstNonSpace text)
        (firstNonSpace text + (afterLeadingWhitespace text).findIdx (fun c => c == QChar.Space)
          - firstNonSpace text) =
      (afterLeadingWhitespace text).takeWhile (fun c => c != QChar.Space) := by
  unfold QString.mid
  rw [Nat.add_sub_cancel_left, drop_firstNonSpace, take_findIdx_eq_takeWhile]
  rfl

theorem isSpace_space : QChar.isSpace QChar.Space = true := by decide

theorem rawToken_nonempty (text : QString) (hsp : QChar.Space ∈ afterLeadingWhitespace text) :
    (afterLeadingWhitespace text).takeWhile (fun c => c != QChar.Space) ≠ [] := by
  unfold afterLeadingWhitespace at hsp ⊢
  cases hl : text.dropWhile QChar.isSpace with
  | nil => rw [hl] at hsp; exact absurd hsp (List.not_mem_nil _)
  | cons c rest =>
    have hhead : QChar.isSpace c = false := by
      have := List.head_dropWhile_not QChar.isSpace text (by rw [hl]; exact List.cons_ne_nil _ _)
      simpa [hl] using this
    have hc : c ≠ QChar.Space := by
      intro he
      rw [he, isSpace_space] at hhead
      exact Bool.noConfusion hhead
    have hb : (c != QChar.Space) = true := by simpa using hc
    rw [List.takeWhile_cons, hb]
    exact List.cons_ne_nil _ _

theorem rawToken_spaceless (l : QString) :
    QChar.Space ∉ l.takeWhile (fun c => c != QChar.Space) := by
  intro hmem
  have := List.mem_takeWhile_imp hmem
  simp at this

theorem data_at_entry (h : Host) (m : LocatorModel) (row column : Int) (role : ItemRole)
    (e : LocatorFilterEntry) (hrow : 0 ≤ row) (hentry : m.mEntries[row.toNat]? = some e) :
    (needsIconLookup e column role = true →
      (m.data h { row := row, column := column, hasModel := true } role).value
        = QVariant.icon (some (h.icon e.fileName)) ∧
      (m.data h { row := row, column := column, hasModel := true } role).iconLookups
        = [e.fileName] ∧
      (m.data h { row := row, column := column, hasModel := true } role).model
        = { m with mEntries := (m.mEntries.set row.toNat
              { e with displayIcon := some (h.icon e.fileName) }) }) ∧
    (needsIconLookup e column role = false →
      (m.data h { row := row, column := column, hasModel := true } role).iconLookups = [] ∧
      (m.data h { row := row, column := column, hasModel := true } role).model = m) := by
  have hlt : row < m.mEntries.length := by
    have := (List.getElem?_eq_some_iff.mp hentry).1
    omega
  have hnot : ¬ (row ≥ (m.mEntries.length : Int)) := by omega
  unfold LocatorModel.data needsIconLookup QModelIndex.isValid
  by_cases hcol : 0 ≤ column
  · simp only [hrow, hcol, decide_True, Bool.and_self, Bool.not_true, hnot, decide_False,
      Bool.or_self, Bool.false_eq_true, if_false, hentry]
    cases role <;> simp <;> split_ifs <;> simp_all
  · have hc0 : ¬ column = 0 := by omega
    simp [hrow, hcol, hc0]

/-- Reads of a row whose entry has its icon leave the model alone and look
nothing up. -/
theorem readRow_resolved (h : Host) (m : LocatorModel) (row : Int) (e : LocatorFilterEntry)
    (icon : Nat) (hrow : 0 ≤ row) (hentry : m.mEntries[row.toNat]? = some e)
    (hicon : e.displayIcon = some icon) (reads : List (Int × ItemRole)) :
    m.readRow h row reads = (m, []) := by
  induction reads with
  | nil => rfl
  | cons r rest ih =>
    obtain ⟨column, role⟩ := r
    have hno : needsIconLookup e column role = false := by
      unfold needsIconLookup
      simp [hicon]
    obtain ⟨h1, h2⟩ := (data_at_entry h m row column role e hrow hentry).2 hno
    unfold LocatorModel.readRow
    simp only [h1, h2, ih, List.nil_append]

/-- Along the reads of one row at most one icon is looked up, and only for
the file of an entry that had no icon. -/
theorem readRow_lookups (h : Host) (m : LocatorModel) (row : Int) (e : LocatorFilterEntry)
    (hrow : 0 ≤ row) (hentry : m.mEntries[row.toNat]? = some e)
    (reads : List (Int × ItemRole)) :
    (m.readRow h row reads).2 = [] ∨
    (e.displayIcon = none ∧ e.fileName ≠ [] ∧ (m.readRow h row reads).2 = [e.fileName]) := by
  have hlt : row.toNat < m.mEntries.length := (List.getElem?_eq_some_iff.mp hentry).1
  induction reads with
  | nil => exact Or.inl rfl
  | cons r rest ih =>
    obtain ⟨column, role⟩ := r
    cases hneed : needsIconLookup e column role
    · obtain ⟨h1, h2⟩ := (data_at_entry h m row column role e hrow hentry).2 hneed
      unfold LocatorModel.readRow
      simp only [h1, h2, List.nil_append]
      exact ih
    · obtain ⟨-, h2, h3⟩ := (data_at_entry h m row column role e hrow hentry).1 hneed
      have hres := readRow_resolved h
        { m with mEntries := (m.mEntries.set row.toNat
            { e with displayIcon := some (h.icon e.fileName) }) }
        row { e with displayIcon := some (h.icon e.fileName) } (h.icon e.fileName) hrow
        (by simp [List.getElem?_set, hlt]) rfl rest
      refine Or.inr ⟨?_, ?_, ?_⟩
      · unfold needsIconLookup at hneed
        simp at hneed
        exact hneed.1.2
      · unfold needsIconLookup at hneed
        simp at hneed
        exact hneed.2
      · unfold LocatorModel.readRow
        simp only [h2, h3, hres, List.append_nil]

/-! ## Filter resolution: the subset and the search text -/

/-- C1: if the text, after its leading whitespace, contains a space and the
lower-cased token before that space is the shortcut string of at least one
registered filter, `filtersFor` returns exactly the registered filters with
that shortcut string, in registration order, whatever their default flag. -/
theorem filtersFor_prefix_filters (h : Host) (text st0 : QString)
    (hspace : QChar.Space ∈ afterLeadingWhitespace text)
    (hmatch : ∃ f ∈ h.filters, f.shortcutString = leadingToken h text) :
    (filtersFor h text st0).1 =
      h.filters.filter (fun f => decide (f.shortcutString = leadingToken h text)) := by
  obtain ⟨f, hf, hfs⟩ := hmatch
  have hne : filtersWithShortcut h (leadingToken h text) ≠ [] := by
    intro he
    have hmem : f ∈ filtersWithShortcut h (leadingToken h text) := by
      unfold filtersWithShortcut
      exact List.mem_filter.mpr ⟨hf, by simpa using hfs⟩
    rw [he] at hmem
    exact List.not_mem_nil f hmem
  rw [filtersFor_eq, if_pos ⟨hspace, hne⟩]
  rfl

/-- C1 at the text " Cls MyWidget" with filters 1 and 3 sharing the shortcut
"cls": both are returned, in registration order, and nothing else. -/
theorem filtersFor_prefix_filters_witness :
    (filtersFor demoHost [' ', 'C', 'l', 's', ' ', 'M', 'y', 'W', 'i', 'd', 'g', 'e', 't'] []).1
      = [filterCls, filterCls2] :=
  (filtersFor_prefix_filters demoHost
    [' ', 'C', 'l', 's', ' ', 'M', 'y', 'W', 'i', 'd', 'g', 'e', 't'] []
    (by decide) ⟨filterCls, by decide, by decide⟩).trans (by decide)

/-- C2: if the text has no space after its leading whitespace, or no
registered filter has the lower-cased leading token as shortcut string,
`filtersFor` returns the registered filters included by default, in
registration order, and the search text is the whole input trimmed. -/
theorem filtersFor_default_filters (h : Host) (text st0 : QString)
    (hno : QChar.Space ∉ afterLeadingWhitespace text ∨
      ∀ f ∈ h.filters, f.shortcutString ≠ leadingToken h text) :
    filtersFor h text st0 =
      (h.filters.filter (fun f => f.isIncludedByDefault), QString.trimmed text) := by
  rw [filtersFor_eq, if_neg]
  · rfl
  · rintro ⟨hspace, hne⟩
    rcases hno with hno | hno
    · exact hno hspace
    · apply hne
      unfold filtersWithShortcut
      rw [List.filter_eq_nil_iff]
      intro f hf
      simpa using hno f hf

/-- C2 at the query "fo" with filters 2 and 4, both included by default: the
result is both filters and the search text "fo". -/
theorem filtersFor_default_filters_witness :
    filtersFor defaultOnlyHost ['f', 'o'] [] = ([filterFiles, filterMethods], ['f', 'o']) :=
  (filtersFor_default_filters defaultOnlyHost ['f', 'o'] [] (Or.inl (by decide))).trans
    (by decide)

/-- C3: when the leading token is the shortcut string of at least one filter,
the search text is the input from the space that ends the token onward,
trimmed. -/
theorem filtersFor_prefix_searchText (h : Host) (text st0 : QString)
    (hspace : QChar.Space ∈ afterLeadingWhitespace text)
    (hmatch : ∃ f ∈ h.filters, f.shortcutString = leadingToken h text) :
    (filtersFor h text st0).2 = QString.trimmed (afterToken text) := by
  obtain ⟨f, hf, hfs⟩ := hmatch
  have hne : filtersWithShortcut h (leadingToken h text) ≠ [] := by
    intro he
    have hmem : f ∈ filtersWithShortcut h (leadingToken h text) := by
      unfold filtersWithShortcut
      exact List.mem_filter.mpr ⟨hf, by simpa using hfs⟩
    rw [he] at hmem
    exact List.not_mem_nil f hmem
  rw [filtersFor_eq, if_pos ⟨hspace, hne⟩]

/-- C3 at the query "cls MyWidget" with a filter of shortcut "cls": the search
text is "MyWidget". -/
theorem filtersFor_prefix_searchText_witness :
    (filtersFor demoHost ['c', 'l', 's', ' ', 'M', 'y', 'W', 'i', 'd', 'g', 'e', 't'] []).2
      = ['M', 'y', 'W', 'i', 'd', 'g', 'e', 't'] :=
  (filtersFor_prefix_searchText demoHost
    ['c', 'l', 's', ' ', 'M', 'y', 'W', 'i', 'd', 'g', 'e', 't'] []
    (by decide) ⟨filterCls, by decide, by decide⟩).trans (by decide)

/-- C4: for the empty input and for every input made of whitespace only,
`filtersFor` returns the filters included by default and an empty search
text, whatever the shortcut strings of the registered filters. -/
theorem filtersFor_blank (h : Host) (text st0 : QString)
    (hblank : ∀ c ∈ text, QChar.isSpace c = true) :
    filtersFor h text st0 = (h.filters.filter (fun f => f.isIncludedByDefault), []) := by
  have hlead : afterLeadingWhitespace text = [] := by
    unfold afterLeadingWhitespace
    rw [List.dropWhile_eq_nil_iff]
    exact hblank
  have htrim : QString.trimmed text = [] := by
    unfold QString.trimmed
    unfold afterLeadingWhitespace at hlead
    rw [hlead]
    rfl
  rw [filtersFor_eq, hlead, if_neg, htrim]
  · rfl
  · rintro ⟨hmem, -⟩
    exact List.not_mem_nil _ hmem

/-- C4 at the input made of a space, a tab and a space, with a registered
filter whose shortcut string is empty: only the default filter is returned
and the search text is empty. -/
theorem filtersFor_blank_witness :
    filtersFor emptyShortcutHost [' ', '\t', ' '] [] = ([filterFiles], []) :=
  (filtersFor_blank emptyShortcutHost [' ', '\t', ' '] [] (by decide)).trans (by decide)

/-! ## Request coordination: one task, restart and deferred accept -/

/-- C5: along every sequence of notifications from the initial widget at most
one search task is running; and `updateCompletionList`, called while the
watched task is running, starts no task: it records the text as the pending
restart text and requests cancellation of the running task, nothing else. -/
theorem single_task_in_flight (h : Host) (events : List Event) (text : QString) :
    (run h LocatorWidget.initial events).runningTasks ≤ 1 ∧
    ((run h LocatorWidget.initial events).future.running = true →
      updateCompletionList h (run h LocatorWidget.initial events) text =
          { run h LocatorWidget.initial events with
            m_requestedCompletionText := text
            future := (run h LocatorWidget.initial events).future.cancel } ∧
        (updateCompletionList h (run h LocatorWidget.initial events) text).started =
          (run h LocatorWidget.initial events).started ∧
        (updateCompletionList h (run h LocatorWidget.initial events) text).runningTasks =
          (run h LocatorWidget.initial events).runningTasks) := by
  have hinv := run_singleTask h events LocatorWidget.initial singleTask_initial
  generalize run h LocatorWidget.initial events = s at hinv ⊢
  obtain ⟨hd, hu⟩ := hinv
  refine ⟨?_, ?_⟩
  · unfold LocatorWidget.runningTasks
    rw [hd]
    split_ifs <;> simp
  · intro hr
    have hupd := hu hr
    rw [updateCompletionList_running h s text hr]
    refine ⟨?_, rfl, ?_⟩
    · cases s
      simp only [LocatorWidget.mk.injEq, and_true, true_and] at hupd ⊢
      simp_all
    · unfold LocatorWidget.runningTasks QFuture.cancel
      simp [hr]

/-- C5 after one submitted query "a": the task for "a" is running, and
submitting "b" starts nothing. -/
theorem single_task_in_flight_witness :
    (run demoHost LocatorWidget.initial [Event.submitQuery ['a']]).future.running = true ∧
    (updateCompletionList demoHost
        (run demoHost LocatorWidget.initial [Event.submitQuery ['a']]) ['b']).started =
      [([filterFiles, filterCls2, filterMethods], ['a'])] ∧
    (updateCompletionList demoHost
        (run demoHost LocatorWidget.initial [Event.submitQuery ['a']]) ['b']).runningTasks = 1 :=
  ⟨by decide,
   ((single_task_in_flight demoHost [Event.submitQuery ['a']] ['b']).2 (by decide)).2.1.trans
     (by decide),
   ((single_task_in_flight demoHost [Event.submitQuery ['a']] ['b']).2 (by decide)).2.2.trans
     (by decide)⟩

/-- C6: for every non-empty sequence of query texts submitted while a task is
running and no accept is pending, the submissions start nothing, and once the
task has ended the handling of its completion starts exactly one search, with
the filters and search text that `filtersFor` gives for the last submitted
text; the pending restart text is empty afterwards. -/
theorem restart_with_last_text (h : Host) (s : LocatorWidget) (texts : List QString)
    (last : QString) (hr : s.future.running = true) (hrow : s.m_rowRequestedForAccept < 0) :
    (run h s ((texts ++ [last]).map Event.submitQuery)).started = s.started ∧
    (run h s ((texts ++ [last]).map Event.submitQuery ++ [Event.taskEnds, Event.finished])).started
      = s.started ++ [filtersFor h last []] ∧
    (run h s ((texts ++ [last]).map Event.submitQuery ++ [Event.taskEnds, Event.finished])).future
      = { running := true, canceled := false, filters := (filtersFor h last []).1,
          searchText := (filtersFor h last []).2, results := [] } ∧
    (run h s ((texts ++ [last]).map Event.submitQuery
      ++ [Event.taskEnds, Event.finished])).m_requestedCompletionText = [] := by
  obtain ⟨-, b2, b3, b4, b5⟩ := run_submits_last h texts last s hr
  refine ⟨b4, ?_⟩
  rw [run_append]
  generalize run h s ((texts ++ [last]).map Event.submitQuery) = t at b2 b3 b4 b5
  obtain ⟨c1, c2, c3, -⟩ := completion_restart h t (b5 ▸ hrow) b2
  rw [b3, b4] at c1
  rw [b3] at c2
  exact ⟨c1, c2, c3⟩

/-- C6 with the text "b" submitted twice while the task for "a" is running:
one restart, for "b". -/
theorem restart_with_last_text_witness :
    (run demoHost LocatorWidget.initial [Event.submitQuery ['a']]).future.running = true ∧
    (run demoHost (run demoHost LocatorWidget.initial [Event.submitQuery ['a']])
      (([['b']] ++ [['b']]).map Event.submitQuery ++ [Event.taskEnds, Event.finished])).started
      = [([filterFiles, filterCls2, filterMethods], ['a']),
         ([filterFiles, filterCls2, filterMethods], ['b'])] ∧
    (run demoHost (run demoHost LocatorWidget.initial [Event.submitQuery ['a']])
      (([['b']] ++ [['b']]).map Event.submitQuery
        ++ [Event.taskEnds, Event.finished])).m_requestedCompletionText = [] :=
  ⟨by decide,
   (restart_with_last_text demoHost
      (run demoHost LocatorWidget.initial [Event.submitQuery ['a']]) [['b']] ['b']
      (by decide) (by decide)).2.1.trans (by decide),
   (restart_with_last_text demoHost
      (run demoHost LocatorWidget.initial [Event.submitQuery ['a']]) [['b']] ['b']
      (by decide) (by decide)).2.2.2⟩

/-- C7: starting with no task running and no accept pending, when q2 is
submitted while the task of q1 is running, then whatever batches of q1 were
delivered before and after that, once the completion of q1 has been handled
and the task of q2 has delivered its batches and completed normally, the sink
holds exactly the entries of the batches of q2, in delivery order, and nothing
else; two searches were started, for q1 and then for q2. -/
theorem sink_holds_last_query_only (h : Host) (s : LocatorWidget) (q1 q2 : QString)
    (before after batches2 : List (List LocatorFilterEntry))
    (hidle : s.future.running = false) (hrow : s.m_rowRequestedForAccept < 0) :
    (run h s (supersededRun q1 q2 before after batches2)).m_locatorModel.mEntries
      = batches2.flatten ∧
    (run h s (supersededRun q1 q2 before after batches2)).started
      = s.started ++ [filtersFor h q1 [], filtersFor h q2 []] ∧
    (run h s (supersededRun q1 q2 before after batches2)).future.running = false ∧
    (run h s (supersededRun q1 q2 before after batches2)).acceptCalls = s.acceptCalls := by
  unfold supersededRun
  simp only [run_append]
  -- q1 is submitted
  have e1 : step h s (Event.submitQuery q1) = updateCompletionList h s q1 := rfl
  rw [run_cons h s (Event.submitQuery q1), e1, updateCompletionList_idle h s q1 hidle]
  generalize hS1 : ({ s with
        m_updateRequested := true
        showProgressTimerActive := true
        m_needsClearResult := true
        prepareSearchCalls := s.prepareSearchCalls ++
          (filtersFor h q1 []).1.map (fun f => (f.id, (filtersFor h q1 []).2))
        started := s.started ++ [filtersFor h q1 []]
        future := { running := true, canceled := false, filters := (filtersFor h q1 []).1,
                    searchText := (filtersFor h q1 []).2, results := [] } } : LocatorWidget) = S1
  have r1 : S1.future.running = true := by rw [← hS1]
  have w1 : S1.m_rowRequestedForAccept < 0 := by rw [← hS1]; exact hrow
  have t1 : S1.started = s.started ++ [filtersFor h q1 []] := by rw [← hS1]
  have c1 : S1.acceptCalls = s.acceptCalls := by rw [← hS1]
  clear hS1 e1
  -- batches of q1
  obtain ⟨r2, -, -, t2, c2, -, w2⟩ := run_batches h before S1
  generalize run h S1 (before.map Event.resultsReady) = S2 at r2 t2 c2 w2
  -- q2 is submitted
  have e3 : step h S2 (Event.submitQuery q2) = updateCompletionList h S2 q2 := rfl
  rw [run_cons h S2 (Event.submitQuery q2), e3,
    updateCompletionList_running h S2 q2 (r2.trans r1)]
  generalize hS3 : ({ S2 with
        m_updateRequested := true
        m_requestedCompletionText := q2
        future := S2.future.cancel } : LocatorWidget) = S3
  have k3 : S3.future.canceled = true := by rw [← hS3]; rfl
  have p3 : S3.m_requestedCompletionText = q2 := by rw [← hS3]
  have w3 : S3.m_rowRequestedForAccept = S2.m_rowRequestedForAccept := by rw [← hS3]
  have t3 : S3.started = S2.started := by rw [← hS3]
  have c3 : S3.acceptCalls = S2.acceptCalls := by rw [← hS3]
  clear hS3 e3
  -- late batches of q1
  obtain ⟨-, k4, p4, t4, c4, -, w4⟩ := run_batches h after S3
  generalize run h S3 (after.map Event.resultsReady) = S4 at k4 p4 t4 c4 w4
  have w2' := w2 w1
  have w4' := w4 (by omega)
  -- completion of q1
  obtain ⟨t5, f5, -, n5, w5, c5⟩ := completion_restart h S4 (by omega) (k4.trans k3)
  generalize run h S4 [Event.taskEnds, Event.finished] = S5 at t5 f5 n5 w5 c5
  -- batches of q2
  obtain ⟨-, k6, -, t6, c6, m6, w6⟩ := run_batches h batches2 S5
  generalize run h S5 (batches2.map Event.resultsReady) = S6 at k6 t6 c6 m6 w6
  have w6' := w6 (by omega)
  -- completion of q2
  obtain ⟨m7, -, t7, c7, r7⟩ := completion_idle h S6 (by omega) (by rw [k6, f5])
  refine ⟨?_, ?_, r7, ?_⟩
  · rw [m7, m6]
    unfold settledEntries
    rw [n5]
    rfl
  · rw [t7, t6, t5, t4, t3, t2, t1, p4, p3]
    simp
  · rw [c7, c6, c5, c4, c3, c2, c1]

/-- C7 with one batch of two entries for "q1" and two batches of one entry
for "q2": the sink ends with the two entries of "q2". -/
theorem sink_holds_last_query_only_witness :
    (run demoHost LocatorWidget.initial
      (supersededRun ['q', '1'] ['q', '2'] [[demoEntry 'x', demoEntry 'y']] []
        [[demoEntry 'v'], [demoEntry 'w']])).m_locatorModel.mEntries
      = [demoEntry 'v', demoEntry 'w'] :=
  (sink_holds_last_query_only demoHost LocatorWidget.initial ['q', '1'] ['q', '2']
    [[demoEntry 'x', demoEntry 'y']] [] [[demoEntry 'v'], [demoEntry 'w']]
    (by decide) (by decide)).1.trans (by decide)

/-- C8: when an accept row is pending at the completion of a task, whatever
the recorded restart text and whether or not the task reports being cancelled,
`handleSearchFinished` performs `acceptEntry` for that row and resets the
pending row; the restart branch is not taken, so the only search that can
start is the one `showText` starts for the replacement text returned by the
accept that was just invoked. -/
theorem pending_accept_beats_restart (h : Host) (s : LocatorWidget)
    (hrow : 0 ≤ s.m_rowRequestedForAccept) (hdone : s.future.running = false) :
    handleSearchFinished h s =
      { acceptEntry h (finishedPrologue s) s.m_rowRequestedForAccept with
        m_rowRequestedForAccept := -1 } ∧
    (((handleSearchFinished h s).acceptCalls = s.acceptCalls ∧
        (handleSearchFinished h s).started = s.started) ∨
      ∃ f e, (handleSearchFinished h s).acceptCalls = s.acceptCalls ++ [(f, e)] ∧
        (((h.accept f e).newText = [] ∧ (handleSearchFinished h s).started = s.started) ∨
         ((h.accept f e).newText ≠ [] ∧
          (handleSearchFinished h s).started
            = s.started ++ [filtersFor h (h.accept f e).newText []]))) := by
  refine ⟨handleSearchFinished_accept h s hrow, ?_⟩
  rw [handleSearchFinished_accept h s hrow]
  exact acceptEntry_logs h (finishedPrologue s) s.m_rowRequestedForAccept hdone

/-- C8 with the restart text "ab" recorded and row 1 committed while the
task for "a" was running: the accept of row 1 is invoked and no search is
started. -/
theorem pending_accept_beats_restart_witness :
    restartAndAcceptPending.m_requestedCompletionText = ['a', 'b'] ∧
    restartAndAcceptPending.m_rowRequestedForAccept = 1 ∧
    restartAndAcceptPending.future.canceled = true ∧
    handleSearchFinished demoHost restartAndAcceptPending =
      { acceptEntry demoHost (finishedPrologue restartAndAcceptPending) 1 with
        m_rowRequestedForAccept := -1 } ∧
    (handleSearchFinished demoHost restartAndAcceptPending).acceptCalls
      = [(2, demoEntry 'y')] ∧
    (handleSearchFinished demoHost restartAndAcceptPending).started
      = restartAndAcceptPending.started :=
  ⟨by decide, by decide, by decide,
   (pending_accept_beats_restart demoHost restartAndAcceptPending (by decide) (by decide)).1,
   by decide, by decide⟩

/-- C9: a commit requested while an update is pending invokes no accept at
that moment and records the row; at the completion, with the completion list
visible and the pending row within the sink, the accept of the filter owning
the entry at that row is invoked exactly once and the pending row is reset to
-1, and a completion handled with the pending row at -1 invokes no accept. -/
theorem deferred_accept_invoked_once (h : Host) (s : LocatorWidget)
    (e : LocatorFilterEntry) (f : Nat)
    (hrow : 0 ≤ s.m_rowRequestedForAccept) (hvis : s.completionListVisible = true)
    (hentry : s.m_locatorModel.mEntries[s.m_rowRequestedForAccept.toNat]? = some e)
    (hf : e.filter = some f) :
    (∀ (s0 : LocatorWidget) (r : Int), s0.m_updateRequested = true →
      (scheduleAcceptEntry h s0 r).acceptCalls = s0.acceptCalls ∧
      (scheduleAcceptEntry h s0 r).m_rowRequestedForAccept = r) ∧
    (handleSearchFinished h s).acceptCalls = s.acceptCalls ++ [(f, e)] ∧
    (handleSearchFinished h s).m_rowRequestedForAccept = -1 ∧
    (∀ s2 : LocatorWidget, s2.m_rowRequestedForAccept = -1 →
      (handleSearchFinished h s2).acceptCalls = s2.acceptCalls) := by
  refine ⟨?_, ?_, ?_, ?_⟩
  · intro s0 r hu
    unfold scheduleAcceptEntry
    rw [if_pos hu]
    exact ⟨rfl, rfl⟩
  · rw [handleSearchFinished_accept h s hrow]
    exact acceptEntry_acceptCalls h (finishedPrologue s) _ e f hvis hrow hentry hf
  · rw [handleSearchFinished_accept h s hrow]
  · intro s2 h2
    unfold handleSearchFinished setProgressIndicatorVisible
    have hnot : ¬ s2.m_rowRequestedForAccept ≥ 0 := by omega
    simp only [hnot, if_false]
    split_ifs
    · exact updateCompletionList_acceptCalls h _ _
    · rfl
    · rfl

/-- C9 with row 0 committed before the completion and three entries present:
the accept of the filter of row 0 is invoked once. -/
theorem deferred_accept_invoked_once_witness :
    acceptPending.m_locatorModel.rowCount = 3 ∧
    acceptPending.m_rowRequestedForAccept = 0 ∧
    acceptPending.acceptCalls = [] ∧
    (handleSearchFinished demoHost acceptPending).acceptCalls = [(2, demoEntry 'x')] ∧
    (handleSearchFinished demoHost acceptPending).m_rowRequestedForAccept = -1 :=
  ⟨by decide, by decide, by decide,
   (deferred_accept_invoked_once demoHost acceptPending (demoEntry 'x') 2
      (by decide) (by decide) (by decide) (by decide)).2.1.trans (by decide),
   (deferred_accept_invoked_once demoHost acceptPending (demoEntry 'x') 2
      (by decide) (by decide) (by decide) (by decide)).2.2.1⟩

/-- C10 fails as stated.  First run: row 5 of a six-entry list is committed
while an update is pending, the popup timer starts the new search, which
delivers two entries and ends; the sink holds fewer than 5 + 1 entries when
the task settles, and yet the completion invokes an accept, for row 0 of the
new list.  Second run: the same with the commit made while the new search is
already running and its batch of two entries delivered after the commit. -/
theorem commit_beyond_shorter_list_accepted :
    (sixEntriesThenEdit.m_updateRequested = true ∧
      (run demoHost sixEntriesThenEdit
        [Event.commitSelection 5, Event.showPopupTimeout,
         Event.resultsReady [demoEntry 'v', demoEntry 'w'],
         Event.taskEnds]).m_locatorModel.rowCount = 2 ∧
      (run demoHost sixEntriesThenEdit
        [Event.commitSelection 5, Event.showPopupTimeout,
         Event.resultsReady [demoEntry 'v', demoEntry 'w'],
         Event.taskEnds]).acceptCalls = [] ∧
      (run demoHost sixEntriesThenEdit
        [Event.commitSelection 5, Event.showPopupTimeout,
         Event.resultsReady [demoEntry 'v', demoEntry 'w'],
         Event.taskEnds, Event.finished]).acceptCalls = [(2, demoEntry 'v')]) ∧
    (newSearchOverOldList.m_updateRequested = true ∧
      newSearchOverOldList.future.running = true ∧
      (run demoHost newSearchOverOldList
        [Event.commitSelection 5, Event.resultsReady [demoEntry 'v', demoEntry 'w'],
         Event.taskEnds]).m_locatorModel.rowCount = 2 ∧
      (run demoHost newSearchOverOldList
        [Event.commitSelection 5, Event.resultsReady [demoEntry 'v', demoEntry 'w'],
         Event.taskEnds]).acceptCalls = [] ∧
      (run demoHost newSearchOverOldList
        [Event.commitSelection 5, Event.resultsReady [demoEntry 'v', demoEntry 'w'],
         Event.taskEnds, Event.finished]).acceptCalls = [(2, demoEntry 'v')]) := by
  decide

/-- C10, amended: after a row r is committed while an update is pending, and
after any notifications other than commits and handled completions, the
pending accept row is r or has been retargeted to 0, and no accept has been
invoked; if the row count of the sink does not exceed that pending row when
the completion is handled, no accept is invoked for the commit. -/
theorem commit_dropped_beyond_pending_row (h : Host) (s : LocatorWidget) (r : Int)
    (mid : List Event) (hpend : s.m_updateRequested = true)
    (hmid : ∀ e ∈ mid, e.isBackground = true) :
    ((run h s (Event.commitSelection r :: mid)).m_rowRequestedForAccept = r ∨
      (run h s (Event.commitSelection r :: mid)).m_rowRequestedForAccept = 0) ∧
    (run h s (Event.commitSelection r :: mid)).acceptCalls = s.acceptCalls ∧
    ((run h s (Event.commitSelection r :: mid)).m_locatorModel.rowCount
        ≤ (run h s (Event.commitSelection r :: mid)).m_rowRequestedForAccept →
      (run h s (Event.commitSelection r :: mid ++ [Event.finished])).acceptCalls
        = s.acceptCalls) := by
  have hcommit : step h s (Event.commitSelection r) =
      { s with m_rowRequestedForAccept := r, future := s.future.cancel } := by
    show scheduleAcceptEntry h s r = _
    unfold scheduleAcceptEntry
    rw [if_pos hpend]
  obtain ⟨b1, b2⟩ := run_background h mid (step h s (Event.commitSelection r)) r hmid
    (Or.inl (by rw [hcommit]))
  have b1' : (run h s (Event.commitSelection r :: mid)).acceptCalls = s.acceptCalls := by
    rw [run_cons, b1, hcommit]
  refine ⟨b2, b1', ?_⟩
  intro hle
  rw [run_append]
  generalize run h s (Event.commitSelection r :: mid) = t at b1' hle
  rw [run_cons, run_nil]
  show (if t.future.running then t else handleSearchFinished h t).acceptCalls = _
  split_ifs
  · exact b1'
  · have hnn : 0 ≤ t.m_rowRequestedForAccept := by
      unfold LocatorModel.rowCount at hle
      omega
    rw [handleSearchFinished_accept h t hnn, acceptEntry_beyond h (finishedPrologue t) _ hle]
    exact b1'

/-- C10, amended, with row 0 committed on an empty sink and a search that
delivers nothing: no accept is invoked. -/
theorem commit_dropped_beyond_pending_row_witness :
    (run demoHost LocatorWidget.initial [Event.textChanged ['a']]).m_updateRequested = true ∧
    (run demoHost (run demoHost LocatorWidget.initial [Event.textChanged ['a']])
      [Event.commitSelection 0, Event.showPopupTimeout, Event.taskEnds]).m_locatorModel.rowCount
      = 0 ∧
    (run demoHost (run demoHost LocatorWidget.initial [Event.textChanged ['a']])
      ([Event.commitSelection 0, Event.showPopupTimeout, Event.taskEnds]
        ++ [Event.finished])).acceptCalls = [] :=
  ⟨by decide, by decide,
   ((commit_dropped_beyond_pending_row demoHost
      (run demoHost LocatorWidget.initial [Event.textChanged ['a']]) 0
      [Event.showPopupTimeout, Event.taskEnds] (by decide) (by decide)).2.2
      (by decide)).trans (by decide)⟩

/-! ## Request coordination: dropped accepts, settling actions and frames -/

/-- C11 on the code: the sink holds six entries of the search for "a"; the
search for "ab" is running and has delivered nothing when row 5 is committed;
the task ends without a batch, so a sink clear is still pending and the
settled sink is empty; yet handling the completion invokes the accept of the
entry that the earlier search left at row 5.  The same completion without a
commit clears the sink. -/
theorem stale_entry_accepted_after_empty_search :
    newSearchOverOldList.future.running = true ∧
    newSearchOverOldList.m_updateRequested = true ∧
    newSearchOverOldList.lineText = ['a', 'b'] ∧
    newSearchOverOldList.acceptCalls = [] ∧
    (run demoHost newSearchOverOldList
      [Event.commitSelection 5, Event.taskEnds]).future.results = [] ∧
    (run demoHost newSearchOverOldList
      [Event.commitSelection 5, Event.taskEnds]).m_needsClearResult = true ∧
    settledEntries (run demoHost newSearchOverOldList
      [Event.commitSelection 5, Event.taskEnds]) = [] ∧
    (run demoHost newSearchOverOldList
      [Event.commitSelection 5, Event.taskEnds, Event.finished]).acceptCalls
      = [(2, demoEntry 'u')] ∧
    (run demoHost newSearchOverOldList
      [Event.taskEnds, Event.finished]).m_locatorModel.mEntries = [] := by
  decide

/-- C12: for every state and every row that is negative or not below the row
count of the sink (any row when the sink is empty), `acceptEntry` returns the
state as it was: no accept is invoked and the line text, the visibility of the
completion list and the sink are unchanged. -/
theorem acceptEntry_out_of_range_noop (h : Host) (s : LocatorWidget) (row : Int)
    (hrow : row < 0 ∨ s.m_locatorModel.rowCount ≤ row) :
    acceptEntry h s row = s := by
  unfold acceptEntry
  split_ifs with h1 h2 h3
  · rfl
  · rfl
  · rfl
  · exfalso
    rcases hrow with hneg | hbig
    · simp at h3
      omega
    · exact h2 hbig

/-- C12 with three entries in a visible list: rows 3 and -1 change nothing,
and neither does row 0 on an empty sink. -/
theorem acceptEntry_out_of_range_noop_witness :
    acceptPending.completionListVisible = true ∧
    acceptPending.m_locatorModel.rowCount = 3 ∧
    acceptEntry demoHost acceptPending 3 = acceptPending ∧
    acceptEntry demoHost acceptPending (-1) = acceptPending ∧
    acceptEntry demoHost { acceptPending with m_locatorModel := LocatorModel.fresh } 0
      = { acceptPending with m_locatorModel := LocatorModel.fresh } :=
  ⟨by decide, by decide,
   acceptEntry_out_of_range_noop demoHost acceptPending 3 (Or.inr (by decide)),
   acceptEntry_out_of_range_noop demoHost acceptPending (-1) (Or.inl (by decide)),
   acceptEntry_out_of_range_noop demoHost
     { acceptPending with m_locatorModel := LocatorModel.fresh } 0 (Or.inr (by decide))⟩

/-- C13: the handling of a completion is exactly one settling action, the one
that `settlingAction` names: the deferred accept when an accept row is
pending, otherwise the restart when the task reports cancelled, otherwise the
idle settle.  The deferred accept leaves the sink and the recorded restart
text alone; the restart invokes no accept, leaves the sink alone and starts
one search, for the recorded text; the idle settle invokes no accept, starts
nothing and applies the pending sink clear. -/
theorem one_settling_action (h : Host) (s : LocatorWidget)
    (hdone : s.future.running = false) :
    handleSearchFinished h s = performSettling h s (settlingAction s) ∧
    ((settleAccept h s).m_locatorModel = s.m_locatorModel ∧
      (settleAccept h s).m_requestedCompletionText = s.m_requestedCompletionText ∧
      (settleAccept h s).m_rowRequestedForAccept = -1) ∧
    ((settleRestart h s).acceptCalls = s.acceptCalls ∧
      (settleRestart h s).started = s.started ++ [filtersFor h s.m_requestedCompletionText []] ∧
      (settleRestart h s).m_requestedCompletionText = [] ∧
      (settleRestart h s).m_locatorModel = s.m_locatorModel) ∧
    ((settleIdle s).acceptCalls = s.acceptCalls ∧
      (settleIdle s).started = s.started ∧
      (settleIdle s).future = s.future ∧
      (settleIdle s).m_locatorModel.mEntries = settledEntries s ∧
      (settleIdle s).m_needsClearResult = false) := by
  refine ⟨?_, ?_, ?_, ?_⟩
  · unfold settlingAction
    by_cases hrow : 0 ≤ s.m_rowRequestedForAccept
    · rw [if_pos hrow]
      exact handleSearchFinished_accept h s hrow
    · rw [if_neg hrow]
      cases hc : s.future.canceled
      · simp only [Bool.false_eq_true, if_false]
        exact handleSearchFinished_eq_settleIdle h s (by omega) hc
      · simp only [if_true]
        exact handleSearchFinished_eq_settleRestart h s (by omega) hc
  · obtain ⟨f1, f2⟩ := acceptEntry_frame h (finishedPrologue s) s.m_rowRequestedForAccept hdone
    exact ⟨f1, f2, rfl⟩
  · unfold settleRestart
    have hr2 : ({ finishedPrologue s with m_requestedCompletionText := [] } :
        LocatorWidget).future.running = false := hdone
    rw [updateCompletionList_idle h _ _ hr2]
    exact ⟨rfl, rfl, rfl, rfl⟩
  · unfold settleIdle settledEntries finishedPrologue
    refine ⟨rfl, rfl, rfl, ?_, rfl⟩
    cases hn : s.m_needsClearResult <;> simp [LocatorModel.clear]

/-- C13 at three completions: with a restart text and an accept row pending
(the accept), with a restart text only (the restart), with neither (the idle
settle). -/
theorem one_settling_action_witness :
    restartAndAcceptPending.future.running = false ∧
    settlingAction restartAndAcceptPending = SettlingAction.accept ∧
    handleSearchFinished demoHost restartAndAcceptPending
      = settleAccept demoHost restartAndAcceptPending ∧
    settlingAction (run demoHost LocatorWidget.initial
      [Event.submitQuery ['a'], Event.submitQuery ['b'], Event.taskEnds])
      = SettlingAction.restart ∧
    handleSearchFinished demoHost (run demoHost LocatorWidget.initial
      [Event.submitQuery ['a'], Event.submitQuery ['b'], Event.taskEnds])
      = settleRestart demoHost (run demoHost LocatorWidget.initial
          [Event.submitQuery ['a'], Event.submitQuery ['b'], Event.taskEnds]) ∧
    settlingAction (run demoHost LocatorWidget.initial
      [Event.submitQuery ['a'], Event.taskEnds]) = SettlingAction.idle ∧
    handleSearchFinished demoHost (run demoHost LocatorWidget.initial
      [Event.submitQuery ['a'], Event.taskEnds])
      = settleIdle (run demoHost LocatorWidget.initial
          [Event.submitQuery ['a'], Event.taskEnds]) :=
  ⟨by decide, by decide,
   (one_settling_action demoHost restartAndAcceptPending (by decide)).1,
   by decide,
   (one_settling_action demoHost (run demoHost LocatorWidget.initial
      [Event.submitQuery ['a'], Event.submitQuery ['b'], Event.taskEnds]) (by decide)).1,
   by decide,
   (one_settling_action demoHost (run demoHost LocatorWidget.initial
      [Event.submitQuery ['a'], Event.taskEnds]) (by decide)).1⟩

/-- C14: a commit issued while an update is requested changes the pending
accept row and the cancel flag of the watched task and nothing else: no accept
is invoked, the task keeps running until it ends, and the sink and the line
text are unchanged. -/
theorem commit_deferred_while_updating (h : Host) (s : LocatorWidget) (row : Int)
    (hupd : s.m_updateRequested = true) :
    scheduleAcceptEntry h s row =
      { s with m_rowRequestedForAccept := row, future := s.future.cancel } ∧
    (scheduleAcceptEntry h s row).acceptCalls = s.acceptCalls ∧
    (scheduleAcceptEntry h s row).m_rowRequestedForAccept = row ∧
    (scheduleAcceptEntry h s row).future.canceled = true ∧
    (scheduleAcceptEntry h s row).future.running = s.future.running ∧
    (scheduleAcceptEntry h s row).m_locatorModel = s.m_locatorModel ∧
    (scheduleAcceptEntry h s row).lineText = s.lineText := by
  have heq : scheduleAcceptEntry h s row =
      { s with m_rowRequestedForAccept := row, future := s.future.cancel } := by
    unfold scheduleAcceptEntry
    rw [if_pos hupd]
  rw [heq]
  exact ⟨rfl, rfl, rfl, rfl, rfl, rfl, rfl⟩

/-- C14 with row 2 committed while the search for "ab" is running. -/
theorem commit_deferred_while_updating_witness :
    newSearchOverOldList.m_updateRequested = true ∧
    (scheduleAcceptEntry demoHost newSearchOverOldList 2).acceptCalls = [] ∧
    (scheduleAcceptEntry demoHost newSearchOverOldList 2).m_rowRequestedForAccept = 2 ∧
    (scheduleAcceptEntry demoHost newSearchOverOldList 2).future.canceled = true :=
  ⟨by decide,
   (commit_deferred_while_updating demoHost newSearchOverOldList 2 (by decide)).2.1.trans
     (by decide),
   (commit_deferred_while_updating demoHost newSearchOverOldList 2 (by decide)).2.2.1,
   (commit_deferred_while_updating demoHost newSearchOverOldList 2 (by decide)).2.2.2.1⟩

/-- C15: a query submitted when no task is running calls `prepareSearch` with
the resolved search text on the resolved filters, in their order, and on no
other filter, starts one search over those filters and that text, marks the
sink as needing a clear and leaves the model untouched. -/
theorem submit_when_idle_starts_search (h : Host) (s : LocatorWidget) (text : QString)
    (hidle : s.future.running = false) :
    (updateCompletionList h s text).prepareSearchCalls
      = s.prepareSearchCalls ++
          (filtersFor h text []).1.map (fun f => (f.id, (filtersFor h text []).2)) ∧
    (updateCompletionList h s text).started = s.started ++ [filtersFor h text []] ∧
    (updateCompletionList h s text).future
      = { running := true, canceled := false, filters := (filtersFor h text []).1,
          searchText := (filtersFor h text []).2, results := [] } ∧
    (updateCompletionList h s text).runningTasks = s.runningTasks + 1 ∧
    (updateCompletionList h s text).m_needsClearResult = true ∧
    (updateCompletionList h s text).m_locatorModel = s.m_locatorModel ∧
    (updateCompletionList h s text).acceptCalls = s.acceptCalls := by
  rw [updateCompletionList_idle h s text hidle]
  refine ⟨rfl, rfl, rfl, ?_, rfl, rfl, rfl⟩
  unfold LocatorWidget.runningTasks
  simp [hidle]
  omega

/-- C15 with the query "cls W" submitted over a sink of six entries: filters 1
and 3 are prepared with "W", one search is started, and the six entries are
still there. -/
theorem submit_when_idle_starts_search_witness :
    sixEntriesThenEdit.future.running = false ∧
    (updateCompletionList demoHost sixEntriesThenEdit
        ['c', 'l', 's', ' ', 'W']).prepareSearchCalls
      = sixEntriesThenEdit.prepareSearchCalls ++ [(1, ['W']), (3, ['W'])] ∧
    (updateCompletionList demoHost sixEntriesThenEdit ['c', 'l', 's', ' ', 'W']).started
      = sixEntriesThenEdit.started ++ [([filterCls, filterCls2], ['W'])] ∧
    (updateCompletionList demoHost sixEntriesThenEdit
        ['c', 'l', 's', ' ', 'W']).m_needsClearResult = true ∧
    (updateCompletionList demoHost sixEntriesThenEdit
        ['c', 'l', 's', ' ', 'W']).m_locatorModel.rowCount = 6 :=
  ⟨by decide,
   (submit_when_idle_starts_search demoHost sixEntriesThenEdit ['c', 'l', 's', ' ', 'W']
      (by decide)).1.trans (by decide),
   (submit_when_idle_starts_search demoHost sixEntriesThenEdit ['c', 'l', 's', ' ', 'W']
      (by decide)).2.1.trans (by decide),
   (submit_when_idle_starts_search demoHost sixEntriesThenEdit ['c', 'l', 's', ' ', 'W']
      (by decide)).2.2.2.2.1,
   by decide⟩

/-- C16: starting with no task running and no accept pending, a search that
completes normally without a delivered batch leaves the sink empty, with
`hasExtraInfo` false and no clear pending; a search that delivered at least
one batch has its completion leave the model as the last batch left it, which
is the delivered batches in order. -/
theorem normal_completion_settles_sink (h : Host) (s : LocatorWidget) (q : QString)
    (b : List LocatorFilterEntry) (bs : List (List LocatorFilterEntry))
    (hidle : s.future.running = false) (hrow : s.m_rowRequestedForAccept < 0) :
    ((run h s [Event.submitQuery q, Event.taskEnds, Event.finished]).m_locatorModel.mEntries = [] ∧
      (run h s [Event.submitQuery q, Event.taskEnds, Event.finished]).m_locatorModel.hasExtraInfo
        = false ∧
      (run h s [Event.submitQuery q, Event.taskEnds, Event.finished]).m_needsClearResult
        = false) ∧
    ((run h s (Event.submitQuery q :: (b :: bs).map Event.resultsReady
        ++ [Event.taskEnds, Event.finished])).m_locatorModel
      = (run h s (Event.submitQuery q :: (b :: bs).map Event.resultsReady)).m_locatorModel ∧
      (run h s (Event.submitQuery q :: (b :: bs).map Event.resultsReady
        ++ [Event.taskEnds, Event.finished])).m_locatorModel.mEntries = (b :: bs).flatten) := by
  obtain ⟨k1, w1, n1⟩ := submit_idle_facts h s q hidle hrow
  rw [run_append, run_cons h s (Event.submitQuery q), run_cons h s (Event.submitQuery q)]
  generalize step h s (Event.submitQuery q) = S1 at k1 w1 n1
  refine ⟨?_, ?_⟩
  · rw [completion_settleIdle h S1 w1 k1]
    unfold settleIdle finishedPrologue taskEnds
    simp [n1, LocatorModel.clear]
  · obtain ⟨-, k2, -, -, -, m2, w2⟩ := run_batches h (b :: bs) S1
    have n2 := run_batches_needsClear h b bs S1
    generalize run h S1 ((b :: bs).map Event.resultsReady) = S2 at k2 m2 w2 n2
    rw [completion_settleIdle h S2 (by rw [w2 w1]; exact w1) (k2.trans k1)]
    have hm : (settleIdle (taskEnds S2)).m_locatorModel = S2.m_locatorModel := by
      unfold settleIdle finishedPrologue taskEnds
      simp [n2]
    refine ⟨hm, ?_⟩
    rw [hm]
    unfold settledEntries at m2
    rw [n2, n1] at m2
    simpa using m2

/-- C16 over a sink of six entries: the search for "z" without a batch ends
with a fresh model, the one with two batches ends with their two entries. -/
theorem normal_completion_settles_sink_witness :
    (run demoHost sixEntriesThenEdit
      [Event.submitQuery ['z'], Event.taskEnds, Event.finished]).m_locatorModel
      = LocatorModel.fresh ∧
    sixEntriesThenEdit.m_locatorModel.rowCount = 6 ∧
    (run demoHost sixEntriesThenEdit
      (Event.submitQuery ['z'] :: [[demoEntry 'v'], [demoEntry 'w']].map Event.resultsReady
        ++ [Event.taskEnds, Event.finished])).m_locatorModel.mEntries
      = [demoEntry 'v', demoEntry 'w'] :=
  ⟨by decide, by decide,
   (normal_completion_settles_sink demoHost sixEntriesThenEdit ['z'] [demoEntry 'v']
      [[demoEntry 'w']] (by decide) (by decide)).2.2.trans (by decide)⟩

/-- C17: when `addSearchResults` delivers a batch of at least one entry while
the sink is empty once the pending clear is applied, row 0 becomes the current
row of the completion list and holds the first delivered entry; an accept
pending for row 0 stays at row 0, and no pending accept is created. -/
theorem first_batch_selects_first_row (s : LocatorWidget) (firstIndex endIndex : Nat)
    (e : LocatorFilterEntry) (es : List LocatorFilterEntry)
    (hbatch : (s.future.results.drop firstIndex).take (endIndex - firstIndex) = e :: es)
    (hempty : settledEntries s = []) :
    (addSearchResults s firstIndex endIndex).completionListCurrentRow = 0 ∧
    (addSearchResults s firstIndex endIndex).m_locatorModel.mEntries = e :: es ∧
    (s.m_rowRequestedForAccept = 0 →
      (addSearchResults s firstIndex endIndex).m_rowRequestedForAccept = 0) ∧
    (s.m_rowRequestedForAccept < 0 →
      (addSearchResults s firstIndex endIndex).m_rowRequestedForAccept
        = s.m_rowRequestedForAccept) := by
  unfold settledEntries at hempty
  unfold addSearchResults
  cases hn : s.m_needsClearResult
  · rw [hn] at hempty
    simp only [Bool.false_eq_true, if_false] at hempty
    simp only [Bool.false_eq_true, if_false, hbatch]
    have hrc : s.m_locatorModel.rowCount = 0 := by
      unfold LocatorModel.rowCount
      rw [hempty]
      rfl
    simp only [hrc, beq_self_eq_true, if_true]
    split_ifs <;> simp_all [addEntries_mEntries, LocatorModel.rowCount]
  · simp only [if_true, hbatch]
    have hrc : (s.m_locatorModel.clear).rowCount = 0 := rfl
    simp only [hrc, beq_self_eq_true, if_true]
    split_ifs <;> simp_all [addEntries_mEntries, LocatorModel.rowCount, LocatorModel.clear]

/-- C17 with row 0 committed over the old list and a first batch of two
entries: the current row is 0 and the pending accept row stays 0. -/
theorem first_batch_selects_first_row_witness :
    firstBatchReported.m_rowRequestedForAccept = 0 ∧
    firstBatchReported.m_locatorModel.rowCount = 6 ∧
    (addSearchResults firstBatchReported 0 2).completionListCurrentRow = 0 ∧
    (addSearchResults firstBatchReported 0 2).m_locatorModel.mEntries
      = [demoEntry 'v', demoEntry 'w'] ∧
    (addSearchResults firstBatchReported 0 2).m_rowRequestedForAccept = 0 :=
  ⟨by decide, by decide,
   (first_batch_selects_first_row firstBatchReported 0 2 (demoEntry 'v') [demoEntry 'w']
      (by decide) (by decide)).1,
   (first_batch_selects_first_row firstBatchReported 0 2 (demoEntry 'v') [demoEntry 'w']
      (by decide) (by decide)).2.1,
   (first_batch_selects_first_row firstBatchReported 0 2 (demoEntry 'v') [demoEntry 'w']
      (by decide) (by decide)).2.2.1 (by decide)⟩

/-! ## The result model: entries and the extra-info flag -/

/-- C18: on a fresh model `hasExtraInfo` is false; after every sequence of
`clear` and `addEntries` it is true exactly when some entry appended since the
last `clear` has non-empty extra info; `addEntries` can only turn it on, and
does so when the batch holds such an entry; `clear` turns it off; and
`columnCount` for the root is 2 when it is true and 1 otherwise. -/
theorem hasExtraInfo_tracks_appended (ops : List ModelOp) (es : List LocatorFilterEntry) :
    LocatorModel.fresh.hasExtraInfo = false ∧
    (LocatorModel.fresh.applyAll ops).hasExtraInfo
      = (appendedSinceClear ops).any hasNonEmptyExtraInfo ∧
    ((LocatorModel.fresh.applyAll ops).addEntries es).hasExtraInfo
      = ((LocatorModel.fresh.applyAll ops).hasExtraInfo || es.any hasNonEmptyExtraInfo) ∧
    ((LocatorModel.fresh.applyAll ops).clear).hasExtraInfo = false ∧
    (LocatorModel.fresh.applyAll ops).columnCount
      = (if (appendedSinceClear ops).any hasNonEmptyExtraInfo then 2 else 1) := by
  refine ⟨rfl, (applyAll_fresh ops).2, addEntries_hasExtraInfo _ es, rfl, ?_⟩
  unfold LocatorModel.columnCount
  rw [(applyAll_fresh ops).2]

/-- C18 on two sequences: three batches, the second with an entry that has
extra info, set the flag and give two columns; a `clear` and a batch without
extra info after them leave the flag off and give one column. -/
theorem hasExtraInfo_tracks_appended_witness :
    (LocatorModel.fresh.applyAll
      [ModelOp.addEntries [demoEntry 'x'], ModelOp.addEntries [demoEntryWithInfo 'y'],
       ModelOp.addEntries [demoEntry 'z']]).hasExtraInfo = true ∧
    (LocatorModel.fresh.applyAll
      [ModelOp.addEntries [demoEntry 'x'], ModelOp.addEntries [demoEntryWithInfo 'y'],
       ModelOp.addEntries [demoEntry 'z']]).columnCount = 2 ∧
    (LocatorModel.fresh.applyAll
      [ModelOp.addEntries [demoEntry 'x'], ModelOp.addEntries [demoEntryWithInfo 'y'],
       ModelOp.addEntries [demoEntry 'z'], ModelOp.clear,
       ModelOp.addEntries [demoEntry 'w']]).hasExtraInfo = false ∧
    (LocatorModel.fresh.applyAll
      [ModelOp.addEntries [demoEntry 'x'], ModelOp.addEntries [demoEntryWithInfo 'y'],
       ModelOp.addEntries [demoEntry 'z'], ModelOp.clear,
       ModelOp.addEntries [demoEntry 'w']]).columnCount = 1 :=
  ⟨(hasExtraInfo_tracks_appended
      [ModelOp.addEntries [demoEntry 'x'], ModelOp.addEntries [demoEntryWithInfo 'y'],
       ModelOp.addEntries [demoEntry 'z']] []).2.1.trans (by decide),
   (hasExtraInfo_tracks_appended
      [ModelOp.addEntries [demoEntry 'x'], ModelOp.addEntries [demoEntryWithInfo 'y'],
       ModelOp.addEntries [demoEntry 'z']] []).2.2.2.2.trans (by decide),
   (hasExtraInfo_tracks_appended
      [ModelOp.addEntries [demoEntry 'x'], ModelOp.addEntries [demoEntryWithInfo 'y'],
       ModelOp.addEntries [demoEntry 'z'], ModelOp.clear,
       ModelOp.addEntries [demoEntry 'w']] []).2.1.trans (by decide),
   (hasExtraInfo_tracks_appended
      [ModelOp.addEntries [demoEntry 'x'], ModelOp.addEntries [demoEntryWithInfo 'y'],
       ModelOp.addEntries [demoEntry 'z'], ModelOp.clear,
       ModelOp.addEntries [demoEntry 'w']] []).2.2.2.2.trans (by decide)⟩

/-- C19: `addEntries` makes the entry list the old list followed by the batch:
the row count grows by the size of the batch, every old row keeps its entry
and the rows after them hold the entries of the batch in order. -/
theorem addEntries_appends (m : LocatorModel) (es : List LocatorFilterEntry) :
    (m.addEntries es).mEntries = m.mEntries ++ es ∧
    (m.addEntries es).rowCount = m.rowCount + es.length ∧
    (∀ i : Nat, i < m.mEntries.length → (m.addEntries es).mEntries[i]? = m.mEntries[i]?) ∧
    (∀ j : Nat, j < es.length → (m.addEntries es).mEntries[m.mEntries.length + j]? = es[j]?) := by
  have hme := addEntries_mEntries m es
  refine ⟨hme, ?_, ?_, ?_⟩
  · unfold LocatorModel.rowCount
    rw [hme, List.length_append]
    push_cast
    rfl
  · intro i hi
    rw [hme, List.getElem?_append_left hi]
  · intro j _
    rw [hme, List.getElem?_append_right (Nat.le_add_right _ _), Nat.add_sub_cancel_left]

/-- C19 with the batch [y, z] added to a model holding [x]. -/
theorem addEntries_appends_witness :
    ((LocatorModel.fresh.addEntries [demoEntry 'x']).addEntries
      [demoEntry 'y', demoEntry 'z']).mEntries = [demoEntry 'x', demoEntry 'y', demoEntry 'z'] ∧
    ((LocatorModel.fresh.addEntries [demoEntry 'x']).addEntries
      [demoEntry 'y', demoEntry 'z']).rowCount = 3 :=
  ⟨(addEntries_appends (LocatorModel.fresh.addEntries [demoEntry 'x'])
      [demoEntry 'y', demoEntry 'z']).1.trans (by decide),
   (addEntries_appends (LocatorModel.fresh.addEntries [demoEntry 'x'])
      [demoEntry 'y', demoEntry 'z']).2.1.trans (by decide)⟩

/-- C20: after `clear` the model has no entries, `hasExtraInfo` is false,
`rowCount` is 0, `columnCount` for the root is 1, and `data` returns the
invalid value for every index and every role, without touching the model. -/
theorem clear_empties_model (h : Host) (m : LocatorModel) (index : QModelIndex)
    (role : ItemRole) :
    m.clear.mEntries = [] ∧
    m.clear.hasExtraInfo = false ∧
    m.clear.rowCount = 0 ∧
    m.clear.columnCount = 1 ∧
    (m.clear.data h index role).value = QVariant.invalid ∧
    (m.clear.data h index role).model = m.clear := by
  refine ⟨rfl, rfl, rfl, rfl, ?_, ?_⟩
  · unfold LocatorModel.data LocatorModel.clear
    by_cases hv : index.isValid = true
    · have h0 : 0 ≤ index.row := by
        unfold QModelIndex.isValid at hv
        simp at hv
        exact hv.1.1
      simp [hv, h0]
    · simp [hv]
  · unfold LocatorModel.data LocatorModel.clear
    by_cases hv : index.isValid = true
    · have h0 : 0 ≤ index.row := by
        unfold QModelIndex.isValid at hv
        simp at hv
        exact hv.1.1
      simp [hv, h0]
    · simp [hv]

/-- C20 on a model of two entries, one with extra info: before `clear` row 0
has a display name, after it the same index gives the invalid value. -/
theorem clear_empties_model_witness :
    ((LocatorModel.fresh.addEntries [demoEntryWithInfo 'x', demoEntry 'y']).data demoHost
      { row := 0, column := 0, hasModel := true } ItemRole.DisplayRole).value
      = QVariant.string ['x'] ∧
    (LocatorModel.fresh.addEntries [demoEntryWithInfo 'x', demoEntry 'y']).columnCount = 2 ∧
    (((LocatorModel.fresh.addEntries [demoEntryWithInfo 'x', demoEntry 'y']).clear).data demoHost
      { row := 0, column := 0, hasModel := true } ItemRole.DisplayRole).value
      = QVariant.invalid ∧
    ((LocatorModel.fresh.addEntries [demoEntryWithInfo 'x', demoEntry 'y']).clear).columnCount
      = 1 :=
  ⟨by decide, by decide,
   (clear_empties_model demoHost
      (LocatorModel.fresh.addEntries [demoEntryWithInfo 'x', demoEntry 'y'])
      { row := 0, column := 0, hasModel := true } ItemRole.DisplayRole).2.2.2.2.1,
   (clear_empties_model demoHost
      (LocatorModel.fresh.addEntries [demoEntryWithInfo 'x', demoEntry 'y'])
      { row := 0, column := 0, hasModel := true } ItemRole.DisplayRole).2.2.2.1⟩

/-! ## Retargeted accepts and the current row -/

/-- C27: when `addSearchResults` delivers a batch while the sink is empty once
the pending clear is applied and an accept is pending for a row r >= 0, the
pending accept row becomes 0 whatever r was; when the sink is not empty, or no
accept is pending, the pending accept row is unchanged. -/
theorem pending_accept_retargeted_on_empty_sink (s : LocatorWidget) (firstIndex endIndex : Nat) :
    (settledEntries s = [] → 0 ≤ s.m_rowRequestedForAccept →
      (addSearchResults s firstIndex endIndex).m_rowRequestedForAccept = 0) ∧
    (settledEntries s ≠ [] →
      (addSearchResults s firstIndex endIndex).m_rowRequestedForAccept
        = s.m_rowRequestedForAccept) ∧
    (s.m_rowRequestedForAccept < 0 →
      (addSearchResults s firstIndex endIndex).m_rowRequestedForAccept
        = s.m_rowRequestedForAccept) := by
  unfold settledEntries addSearchResults
  cases hn : s.m_needsClearResult
  · simp only [Bool.false_eq_true, if_false]
    by_cases he : s.m_locatorModel.mEntries = []
    · have hrc : s.m_locatorModel.rowCount = 0 := by
        unfold LocatorModel.rowCount
        rw [he]
        rfl
      simp only [hrc, beq_self_eq_true, if_true]
      refine ⟨?_, ?_, ?_⟩
      · intro _ hr
        simp [hr]
      · intro hne
        exact absurd he hne
      · intro hr
        have : ¬ s.m_rowRequestedForAccept ≥ 0 := by omega
        simp [this]
    · have hrc : (s.m_locatorModel.rowCount == 0) = false := by
        unfold LocatorModel.rowCount
        cases hm : s.m_locatorModel.mEntries with
        | nil => exact absurd hm he
        | cons a t =>
          simp only [List.length_cons, Nat.cast_add, Nat.cast_one, beq_eq_false_iff_ne, ne_eq]
          omega
      simp only [hrc, Bool.false_eq_true, if_false]
      refine ⟨fun h1 _ => absurd h1 he, fun _ => ?_, fun _ => ?_⟩ <;> trivial
  · have hrc : (s.m_locatorModel.clear.rowCount == 0) = true := rfl
    simp only [if_true, hrc]
    refine ⟨?_, ?_, ?_⟩
    · intro _ hr
      simp [hr]
    · intro hne
      exact absurd rfl hne
    · intro hr
      have : ¬ s.m_rowRequestedForAccept ≥ 0 := by omega
      simp [this]

/-- C27 with a pending row 5 and a batch into a sink that is pending a clear
(the row becomes 0), and with a pending row 2 and a batch into a sink of
three entries (the row stays 2). -/
theorem pending_accept_retargeted_on_empty_sink_witness :
    settledEntries newSearchOverOldList = [] ∧
    (addSearchResults
      { newSearchOverOldList with
        m_rowRequestedForAccept := 5
        future := { newSearchOverOldList.future with results := [demoEntry 'v'] } }
      0 1).m_rowRequestedForAccept = 0 ∧
    settledEntries acceptPending ≠ [] ∧
    (addSearchResults { acceptPending with m_rowRequestedForAccept := 2 } 0 1).m_rowRequestedForAccept
      = 2 :=
  ⟨by decide,
   (pending_accept_retargeted_on_empty_sink
      { newSearchOverOldList with
        m_rowRequestedForAccept := 5
        future := { newSearchOverOldList.future with results := [demoEntry 'v'] } }
      0 1).1 (by decide) (by decide),
   by decide,
   (pending_accept_retargeted_on_empty_sink
      { acceptPending with m_rowRequestedForAccept := 2 } 0 1).2.1 (by decide)⟩

/-- C30: on a completion list of n >= 1 rows with the current row r within
[0, n), `next` moves the current row to (r + 1) mod n and `previous` to
(r - 1) mod n, both within [0, n); `previous` after `next` and `next` after
`previous` give r again, and so do n applications of `next`. -/
theorem next_previous_wrap (s : LocatorWidget) (hn : 1 ≤ s.m_locatorModel.rowCount)
    (h0 : 0 ≤ s.completionListCurrentRow)
    (h1 : s.completionListCurrentRow < s.m_locatorModel.rowCount) :
    (CompletionList.next s).completionListCurrentRow
      = (s.completionListCurrentRow + 1) % s.m_locatorModel.rowCount ∧
    (CompletionList.previous s).completionListCurrentRow
      = (s.completionListCurrentRow - 1) % s.m_locatorModel.rowCount ∧
    (0 ≤ (CompletionList.next s).completionListCurrentRow ∧
      (CompletionList.next s).completionListCurrentRow < s.m_locatorModel.rowCount) ∧
    (0 ≤ (CompletionList.previous s).completionListCurrentRow ∧
      (CompletionList.previous s).completionListCurrentRow < s.m_locatorModel.rowCount) ∧
    (CompletionList.previous (CompletionList.next s)).completionListCurrentRow
      = s.completionListCurrentRow ∧
    (CompletionList.next (CompletionList.previous s)).completionListCurrentRow
      = s.completionListCurrentRow ∧
    (CompletionList.next^[s.m_locatorModel.rowCount.toNat] s).completionListCurrentRow
      = s.completionListCurrentRow := by
  have hpos : (0 : Int) < s.m_locatorModel.rowCount := by omega
  have hne : s.m_locatorModel.rowCount ≠ 0 := by omega
  have nr := next_row s hn h0 h1
  have pr := previous_row s hn h0 h1
  have nb : 0 ≤ (CompletionList.next s).completionListCurrentRow ∧
      (CompletionList.next s).completionListCurrentRow < s.m_locatorModel.rowCount := by
    rw [nr]; exact ⟨Int.emod_nonneg _ hne, Int.emod_lt_of_pos _ hpos⟩
  have pb : 0 ≤ (CompletionList.previous s).completionListCurrentRow ∧
      (CompletionList.previous s).completionListCurrentRow < s.m_locatorModel.rowCount := by
    rw [pr]; exact ⟨Int.emod_nonneg _ hne, Int.emod_lt_of_pos _ hpos⟩
  refine ⟨nr, pr, nb, pb, ?_, ?_, ?_⟩
  · rw [previous_row (CompletionList.next s) hn nb.1 nb.2, next_model, nr, Int.sub_emod,
      Int.emod_emod, ← Int.sub_emod, add_sub_cancel_right, Int.emod_eq_of_lt h0 h1]
  · rw [next_row (CompletionList.previous s) hn pb.1 pb.2, previous_model, pr, Int.add_emod,
      Int.emod_emod, ← Int.add_emod, sub_add_cancel, Int.emod_eq_of_lt h0 h1]
  · rw [(next_iterate s hn h0 h1 _).2, Int.toNat_of_nonneg (by omega), Int.add_emod_self,
      Int.emod_eq_of_lt h0 h1]

/-- C30 on three rows: `next` from row 2 wraps to 0, `previous` from row 0
wraps to 2, and three times `next` from row 1 gives row 1. -/
theorem next_previous_wrap_witness :
    acceptPending.m_locatorModel.rowCount = 3 ∧
    (CompletionList.next (setCurrentIndexRow acceptPending 2)).completionListCurrentRow = 0 ∧
    (CompletionList.previous (setCurrentIndexRow acceptPending 0)).completionListCurrentRow = 2 ∧
    (CompletionList.next^[3] (setCurrentIndexRow acceptPending 1)).completionListCurrentRow = 1 :=
  ⟨by decide,
   (next_previous_wrap (setCurrentIndexRow acceptPending 2) (by decide) (by decide)
      (by decide)).1.trans (by decide),
   (next_previous_wrap (setCurrentIndexRow acceptPending 0) (by decide) (by decide)
      (by decide)).2.1.trans (by decide),
   (next_previous_wrap (setCurrentIndexRow acceptPending 1) (by decide) (by decide)
      (by decide)).2.2.2.2.2.2⟩

/-! ## Filter resolution: the compared token -/

/-- C29: provided lower-casing maps no non-empty text to the empty text and
puts no space into a text without one, the token that `filtersFor` compares
with the shortcut strings (the lower-cased `mid` between the first
non-whitespace character and the first space) is non-empty and holds no
space; hence a filter whose shortcut string is empty or holds a space is in
the result only if it is included by default and the result is the default
subset. -/
theorem prefix_token_nonempty_spaceless (h : Host) (text st0 : QString)
    (hnonempty : ∀ t : QString, t ≠ [] → h.toLower t ≠ [])
    (hspaceless : ∀ t : QString, QChar.Space ∉ t → QChar.Space ∉ h.toLower t) :
    (∀ ws, QString.indexOf text QChar.Space (firstNonSpace text) = some ws →
      h.toLower (QString.mid text (firstNonSpace text) (ws - firstNonSpace text)) ≠ [] ∧
      QChar.Space ∉ h.toLower (QString.mid text (firstNonSpace text) (ws - firstNonSpace text))) ∧
    (∀ f ∈ (filtersFor h text st0).1,
      (f.shortcutString = [] ∨ QChar.Space ∈ f.shortcutString) →
        f.isIncludedByDefault = true ∧
        (filtersFor h text st0).1 = h.filters.filter (fun g => g.isIncludedByDefault)) := by
  refine ⟨?_, ?_⟩
  · intro ws hws
    rw [indexOf_space_eq] at hws
    by_cases hsp : QChar.Space ∈ afterLeadingWhitespace text
    · rw [if_pos hsp] at hws
      have hw := Option.some.inj hws
      rw [← hw, mid_token_eq]
      exact ⟨hnonempty _ (rawToken_nonempty text hsp), hspaceless _ (rawToken_spaceless _)⟩
    · rw [if_neg hsp] at hws
      exact Option.noConfusion hws
  · intro f hf hbad
    rw [filtersFor_eq] at hf ⊢
    by_cases hc : QChar.Space ∈ afterLeadingWhitespace text ∧
        filtersWithShortcut h (leadingToken h text) ≠ []
    · rw [if_pos hc] at hf
      exfalso
      have hfs : f.shortcutString = leadingToken h text := by
        unfold filtersWithShortcut at hf
        simpa using (List.mem_filter.mp hf).2
      have hne : leadingToken h text ≠ [] := hnonempty _ (rawToken_nonempty text hc.1)
      have hns : QChar.Space ∉ leadingToken h text := hspaceless _ (rawToken_spaceless _)
      rcases hbad with hb | hb
      · exact hne (hfs ▸ hb)
      · exact hns (hfs ▸ hb)
    · rw [if_neg hc] at hf ⊢
      unfold defaultFilters at hf
      exact ⟨by simpa using (List.mem_filter.mp hf).2, rfl⟩

/-- C29 with a registered filter whose shortcut string is empty and which is
not included by default: for "  x" and for "cls x" it is not returned. -/
theorem prefix_token_nonempty_spaceless_witness :
    filterNoShortcut ∈ emptyShortcutHost.filters ∧
    (filtersFor emptyShortcutHost [' ', ' ', 'x'] []).1 = [filterFiles] ∧
    (filtersFor emptyShortcutHost ['c', 'l', 's', ' ', 'x'] []).1 = [filterCls] ∧
    (∀ f ∈ (filtersFor emptyShortcutHost [' ', ' ', 'x'] []).1,
      (f.shortcutString = [] ∨ QChar.Space ∈ f.shortcutString) →
        f.isIncludedByDefault = true ∧
        (filtersFor emptyShortcutHost [' ', ' ', 'x'] []).1
          = emptyShortcutHost.filters.filter (fun g => g.isIncludedByDefault)) :=
  ⟨by decide, by decide, by decide,
   (prefix_token_nonempty_spaceless emptyShortcutHost [' ', ' ', 'x'] []
      asciiToLower_nonempty asciiToLower_spaceless).2⟩

/-! ## The result model: decorations -/

/-- C21: `addEntries` stores the entries of the batch as they are, without
resolving an icon; along every sequence of reads of one row at most one icon
is looked up, and then for the file of that row's entry, which had no icon;
the decoration read of column 0 that finds the entry without an icon and with
a file name looks the icon up, returns it and stores it on the entry, and
every later decoration read of that row returns the same icon without a
lookup. -/
theorem decoration_lazy_memoized (h : Host) (m : LocatorModel) (row : Int)
    (e : LocatorFilterEntry) (hrow : 0 ≤ row) (hentry : m.mEntries[row.toNat]? = some e) :
    (∀ (before : LocatorModel) (batch : List LocatorFilterEntry),
      (before.addEntries batch).mEntries = before.mEntries ++ batch) ∧
    (∀ reads, ((m.readRow h row reads).2).length ≤ 1) ∧
    (∀ reads, (m.readRow h row reads).2 ≠ [] →
      e.displayIcon = none ∧ (m.readRow h row reads).2 = [e.fileName]) ∧
    (∀ role, needsIconLookup e 0 role = true →
      (m.data h { row := row, column := 0, hasModel := true } role).value
        = QVariant.icon (some (h.icon e.fileName)) ∧
      (m.data h { row := row, column := 0, hasModel := true } role).iconLookups
        = [e.fileName] ∧
      (m.data h { row := row, column := 0, hasModel := true } role).model.mEntries[row.toNat]?
        = some { e with displayIcon := some (h.icon e.fileName) } ∧
      ∀ (reads : List (Int × ItemRole)) (later : ItemRole),
        (later = ItemRole.DecorationRole ∨ later = ItemRole.ResultIconRole) →
        (((m.data h { row := row, column := 0, hasModel := true } role).model.readRow h row
            reads).2 = [] ∧
          ((((m.data h { row := row, column := 0, hasModel := true } role).model.readRow h row
            reads).1).data h { row := row, column := 0, hasModel := true } later).value
            = QVariant.icon (some (h.icon e.fileName)) ∧
          ((((m.data h { row := row, column := 0, hasModel := true } role).model.readRow h row
            reads).1).data h { row := row, column := 0, hasModel := true } later).iconLookups
            = [])) := by
  have hlt : row.toNat < m.mEntries.length := (List.getElem?_eq_some_iff.mp hentry).1
  refine ⟨fun before batch => addEntries_mEntries before batch, ?_, ?_, ?_⟩
  · intro reads
    rcases readRow_lookups h m row e hrow hentry reads with h0 | ⟨-, -, h1⟩
    · rw [h0]; simp
    · rw [h1]; simp
  · intro reads hne
    rcases readRow_lookups h m row e hrow hentry reads with h0 | ⟨h1, -, h2⟩
    · exact absurd h0 hne
    · exact ⟨h1, h2⟩
  · intro role hneed
    obtain ⟨h1, h2, h3⟩ := (data_at_entry h m row 0 role e hrow hentry).1 hneed
    have hstored : (m.data h { row := row, column := 0, hasModel := true } role).model.mEntries[
        row.toNat]? = some { e with displayIcon := some (h.icon e.fileName) } := by
      rw [h3]
      simp [List.getElem?_set, hlt]
    refine ⟨h1, h2, hstored, ?_⟩
    intro reads later hlater
    have hres := readRow_resolved h _ row { e with displayIcon := some (h.icon e.fileName) }
      (h.icon e.fileName) hrow hstored rfl reads
    rw [hres]
    refine ⟨rfl, ?_, ?_⟩
    · have hd := hstored
      generalize (m.data h { row := row, column := 0, hasModel := true } role).model = m2 at hd
      have hlt2 : row < m2.mEntries.length := by
        have := (List.getElem?_eq_some_iff.mp hd).1
        omega
      have hnot : ¬ (row ≥ (m2.mEntries.length : Int)) := by omega
      unfold LocatorModel.data QModelIndex.isValid
      rcases hlater with hl | hl <;> subst hl <;> simp [hrow, hnot, hd]
    · have hno : needsIconLookup { e with displayIcon := some (h.icon e.fileName) } 0 later
          = false := by
        unfold needsIconLookup
        simp
      exact ((data_at_entry h _ row 0 later _ hrow hstored).2 hno).1

/-- C21 on the entry for "a.h" in row 1: five reads of the row, three of them
decoration reads of column 0, look the icon up once; the first of them
returns icon 43 and a second read after it looks nothing up. -/
theorem decoration_lazy_memoized_witness :
    (LocatorModel.fresh.addEntries [demoEntry 'x', demoFileEntry]).mEntries
      = [demoEntry 'x', demoFileEntry] ∧
    ((LocatorModel.fresh.addEntries [demoEntry 'x', demoFileEntry]).readRow iconHost 1
      [(1, ItemRole.DecorationRole), (0, ItemRole.DisplayRole), (0, ItemRole.DecorationRole),
       (0, ItemRole.ResultIconRole), (0, ItemRole.DecorationRole)]).2 = [['a', '.', 'h']] ∧
    ((LocatorModel.fresh.addEntries [demoEntry 'x', demoFileEntry]).data iconHost
      { row := 1, column := 0, hasModel := true } ItemRole.DecorationRole).value
      = QVariant.icon (some 43) ∧
    (((LocatorModel.fresh.addEntries [demoEntry 'x', demoFileEntry]).data iconHost
      { row := 1, column := 0, hasModel := true } ItemRole.DecorationRole).model.data iconHost
      { row := 1, column := 0, hasModel := true } ItemRole.DecorationRole).iconLookups = [] :=
  ⟨by decide,
   ((decoration_lazy_memoized iconHost
      (LocatorModel.fresh.addEntries [demoEntry 'x', demoFileEntry]) 1 demoFileEntry
      (by decide) (by decide)).2.2.1 _ (by decide)).2,
   ((decoration_lazy_memoized iconHost
      (LocatorModel.fresh.addEntries [demoEntry 'x', demoFileEntry]) 1 demoFileEntry
      (by decide) (by decide)).2.2.2 ItemRole.DecorationRole (by decide)).1,
   ((((decoration_lazy_memoized iconHost
      (LocatorModel.fresh.addEntries [demoEntry 'x', demoFileEntry]) 1 demoFileEntry
      (by decide) (by decide)).2.2.2 ItemRole.DecorationRole (by decide)).2.2.2 []
      ItemRole.DecorationRole (Or.inl rfl)).2.2)⟩

end Locator

namespace Debugger

open Locator

/-! ## Watch window: lemmas -/

theorem foldl_collectMember (start endAddress : Nat) (cs : List WatchRow)
    (acc : List MemberVariable) :
    cs.foldl (collectMember start endAddress) acc
      = acc ++ (cs.filter (withinArea start endAddress)).map WatchRow.toMember := by
  induction cs generalizing acc with
  | nil => simp
  | cons c t ih =>
    rw [List.foldl_cons, ih]
    unfold collectMember withinArea
    by_cases hk : (c.address != 0 && decide (c.address ≥ start)
        && decide ((c.address + c.size) % quint64Modulus ≤ endAddress)) = true
    · have hk2 : (c.address != 0 && decide (start ≤ c.address)
          && decide ((c.address + c.size) % quint64Modulus ≤ endAddress)) = true := hk
      simp only [hk, if_true, List.filter_cons, hk2, List.map_cons, List.append_assoc,
        List.singleton_append]
      rfl
    · have hk2 : ¬ (c.address != 0 && decide (start ≤ c.address)
          && decide ((c.address + c.size) % quint64Modulus ≤ endAddress)) = true := hk
      simp only [hk, if_false, List.filter_cons, hk2]
      rfl

theorem sortedMemberVariables_eq (m : WatchItem) (start endAddress : Nat) :
    sortedMemberVariables m start endAddress
      = qStableSort lessThanMV (keptMembers m start endAddress) := by
  unfold sortedMemberVariables keptMembers
  simp only []
  split_ifs with h0
  · have : m.children = [] := List.length_eq_zero.mp h0
    rw [this]
    rfl
  · rw [foldl_collectMember, List.nil_append]

theorem stableInsert_perm {α : Type} (lt : α → α → Bool) (x : α) (l : List α) :
    (stableInsert lt x l).Perm (x :: l) := by
  induction l with
  | nil => exact List.Perm.refl _
  | cons y ys ih =>
    unfold stableInsert
    split_ifs
    · exact (List.Perm.cons y ih).trans (List.Perm.swap x y ys)
    · exact List.Perm.refl _

theorem qStableSort_perm {α : Type} (lt : α → α → Bool) (l : List α) :
    (qStableSort lt l).Perm l := by
  induction l with
  | nil => exact List.Perm.refl _
  | cons x xs ih =>
    unfold qStableSort
    exact (stableInsert_perm lt x _).trans (List.Perm.cons x ih)

theorem stableInsert_sorted (x : MemberVariable) (l : List MemberVariable)
    (hl : l.Pairwise (fun a b => a.address ≤ b.address)) :
    (stableInsert lessThanMV x l).Pairwise (fun a b => a.address ≤ b.address) := by
  induction l with
  | nil => simp [stableInsert]
  | cons y ys ih =>
    rw [List.pairwise_cons] at hl
    unfold stableInsert
    by_cases hlt : lessThanMV y x = true
    · rw [if_pos hlt]
      have hyx : y.address < x.address := by simpa [lessThanMV] using hlt
      rw [List.pairwise_cons]
      refine ⟨?_, ih hl.2⟩
      intro z hz
      rcases List.mem_cons.mp ((stableInsert_perm lessThanMV x ys).mem_iff.mp hz) with hzx | hzy
      · rw [hzx]; omega
      · exact hl.1 z hzy
    · rw [if_neg hlt]
      have hxy : x.address ≤ y.address := by
        have : ¬ y.address < x.address := by simpa [lessThanMV] using hlt
        omega
      rw [List.pairwise_cons]
      refine ⟨?_, List.pairwise_cons.mpr hl⟩
      intro z hz
      rcases List.mem_cons.mp hz with hzy | hzs
      · rw [hzy]; exact hxy
      · exact le_trans hxy (hl.1 z hzs)

theorem qStableSort_sorted (l : List MemberVariable) :
    (qStableSort lessThanMV l).Pairwise (fun a b => a.address ≤ b.address) := by
  induction l with
  | nil => exact List.Pairwise.nil
  | cons x xs ih =>
    unfold qStableSort
    exact stableInsert_sorted x _ ih

theorem stableInsert_filter (x : MemberVariable) (l : List MemberVariable) (a : Nat) :
    (stableInsert lessThanMV x l).filter (fun mv => mv.address == a)
      = (x :: l).filter (fun mv => mv.address == a) := by
  induction l with
  | nil => rfl
  | cons y ys ih =>
    unfold stableInsert
    by_cases hlt : lessThanMV y x = true
    · rw [if_pos hlt]
      have hyx : y.address < x.address := by simpa [lessThanMV] using hlt
      rw [List.filter_cons, ih]
      by_cases hya : y.address = a
      · have hxa : ¬ x.address = a := by omega
        simp [List.filter_cons, hya, hxa]
      · simp [List.filter_cons, hya]
    · rw [if_neg hlt]

theorem qStableSort_filter (l : List MemberVariable) (a : Nat) :
    (qStableSort lessThanMV l).filter (fun mv => mv.address == a)
      = l.filter (fun mv => mv.address == a) := by
  induction l with
  | nil => rfl
  | cons x xs ih =>
    unfold qStableSort
    rw [stableInsert_filter, List.filter_cons, List.filter_cons, ih]

theorem withinArea_eq_liesWithin (start endAddress : Nat) (c : WatchRow)
    (hfit : c.address + c.size < quint64Modulus) :
    withinArea start endAddress c = liesWithin start endAddress c := by
  unfold withinArea liesWithin
  rw [Nat.mod_eq_of_lt hfit]

theorem truncateExpression_length (exp : QString) : (truncateExpression exp).length ≤ 33 := by
  unfold truncateExpression
  split_ifs with h
  · rw [List.length_append, List.length_take]
    simp
  · omega

theorem absorb_absorb_same (back new : Markup) (runs : List Markup)
    (hbg : back.background = new.background) :
    absorb back (absorb new runs)
      = absorb { back with size := back.size + new.size } runs := by
  cases runs with
  | nil =>
    simp [absorb, hbg]
  | cons next more =>
    by_cases hn : next.background = new.background
    · have hn2 : next.background = back.background := hn.trans hbg.symm
      simp [absorb, hn, hn2, hbg, Nat.add_assoc]
    · have hn2 : ¬ next.background = back.background := fun e => hn (e.trans hbg)
      simp [absorb, hn, hn2, hbg]

theorem absorb_head_background (first : Markup) (runs : List Markup) :
    ∃ r rest, absorb first runs = r :: rest ∧ r.background = first.background ∧
      r.address = first.address ∧ r.toolTip = first.toolTip := by
  cases runs with
  | nil => exact ⟨first, [], rfl, rfl, rfl, rfl⟩
  | cons next more =>
    by_cases h : next.background = first.background
    · refine ⟨{ first with size := first.size + next.size }, more, ?_, rfl, rfl, rfl⟩
      simp only [absorb, h, if_true]
    · refine ⟨first, next :: more, ?_, rfl, rfl, rfl⟩
      simp only [absorb, h, if_false]

theorem absorb_of_ne (back : Markup) (r : Markup) (rest : List Markup)
    (hne : ¬ r.background = back.background) : absorb back (r :: rest) = back :: r :: rest := by
  simp [absorb, hne]

theorem condenseLoop_eq (address : Nat) (ranges : List ColorNamePair) (i : Nat)
    (back : Markup) (earlier : List Markup) :
    condenseLoop address ranges i (back :: earlier)
      = earlier.reverse ++ absorb back (colourRuns address i ranges) := by
  induction ranges generalizing i back earlier with
  | nil => simp [condenseLoop, colourRuns, absorb]
  | cons range rest ih =>
    unfold condenseLoop
    by_cases hbg : back.background = range.1
    · have hb : (back.background != range.1) = false := by simpa using hbg
      rw [hb]
      simp only [Bool.false_eq_true, if_false]
      rw [ih]
      congr 1
      have := absorb_absorb_same back (byteMarkup address i range)
        (colourRuns address (i + 1) rest) hbg
      rw [colourRuns, this]
      rfl
    · have hb : (back.background != range.1) = true := by simpa using hbg
      rw [hb]
      simp only [if_true]
      rw [ih]
      obtain ⟨r, more, hr, hrb, -, -⟩ := absorb_head_background (byteMarkup address i range)
        (colourRuns address (i + 1) rest)
      have hne : ¬ r.background = back.background := by
        rw [hrb]
        exact fun e => hbg e.symm
      rw [colourRuns, hr, absorb_of_ne back r more hne, ← hr]
      change (back :: earlier).reverse ++ _ = _
      simp [byteMarkup]

/-- The condensing loop computes the runs of identical colour. -/
theorem condenseLoop_runs (address : Nat) (ranges : List ColorNamePair) :
    condenseLoop address ranges 0 [] = colourRuns address 0 ranges := by
  cases ranges with
  | nil => rfl
  | cons range rest =>
    unfold condenseLoop
    rw [condenseLoop_eq]
    rfl

theorem totalSize_absorb (first : Markup) (runs : List Markup) :
    totalSize (absorb first runs) = first.size + totalSize runs := by
  cases runs with
  | nil => simp [absorb, totalSize]
  | cons next more =>
    by_cases h : next.background = first.background
    · simp [absorb, h, totalSize, Nat.add_assoc]
    · simp [absorb, h, totalSize]

theorem totalSize_colourRuns (address : Nat) (ranges : List ColorNamePair) (off : Nat) :
    totalSize (colourRuns address off ranges) = ranges.length := by
  induction ranges generalizing off with
  | nil => rfl
  | cons range rest ih =>
    rw [colourRuns, totalSize_absorb, ih]
    simp [byteMarkup, Nat.add_comm]

theorem expandColours_cons (r : Markup) (rest : List Markup) :
    expandColours (r :: rest) = List.replicate r.size r.background ++ expandColours rest := by
  simp [expandColours]

theorem expandColours_absorb (first : Markup) (runs : List Markup) :
    expandColours (absorb first runs)
      = List.replicate first.size first.background ++ expandColours runs := by
  cases runs with
  | nil => simp [absorb, expandColours]
  | cons next more =>
    by_cases h : next.background = first.background
    · simp only [absorb, h, if_true, expandColours_cons, List.replicate_add, List.append_assoc]
    · simp only [absorb, h, if_false, expandColours_cons]

theorem expandColours_colourRuns (address : Nat) (ranges : List ColorNamePair) (off : Nat) :
    expandColours (colourRuns address off ranges) = ranges.map Prod.fst := by
  induction ranges generalizing off with
  | nil => rfl
  | cons range rest ih =>
    rw [colourRuns, expandColours_absorb, ih]
    simp [byteMarkup]

theorem size_pos_absorb (first : Markup) (runs : List Markup) (hfirst : 1 ≤ first.size)
    (hruns : ∀ r ∈ runs, 1 ≤ r.size) : ∀ r ∈ absorb first runs, 1 ≤ r.size := by
  cases runs with
  | nil =>
    intro r hr
    simp only [absorb, List.mem_singleton] at hr
    subst hr
    exact hfirst
  | cons next more =>
    intro r hr
    by_cases h : next.background = first.background
    · simp only [absorb, h, if_true, List.mem_cons] at hr
      rcases hr with hr | hr
      · subst hr
        simp only
        omega
      · exact hruns r (List.mem_cons_of_mem _ hr)
    · simp only [absorb, h, if_false, List.mem_cons] at hr
      rcases hr with hr | hr | hr
      · subst hr
        exact hfirst
      · subst hr
        exact hruns _ (List.mem_cons_self _ _)
      · exact hruns r (List.mem_cons_of_mem _ hr)

theorem size_pos_colourRuns (address : Nat) (ranges : List ColorNamePair) (off : Nat) :
    ∀ r ∈ colourRuns address off ranges, 1 ≤ r.size := by
  induction ranges generalizing off with
  | nil =>
    intro r hr
    simp [colourRuns] at hr
  | cons range rest ih =>
    rw [colourRuns]
    exact size_pos_absorb _ _ (Nat.le_refl 1) (ih (off + 1))

theorem chain_absorb (first : Markup) (runs : List Markup)
    (hruns : runs.Chain' (fun a b => a.background ≠ b.background)) :
    (absorb first runs).Chain' (fun a b => a.background ≠ b.background) := by
  cases runs with
  | nil => simp [absorb]
  | cons next more =>
    by_cases h : next.background = first.background
    · simp only [absorb, h, if_true]
      cases more with
      | nil => simp
      | cons n2 m2 =>
        rw [List.chain'_cons] at hruns ⊢
        refine ⟨?_, hruns.2⟩
        simp only
        rw [← h]
        exact hruns.1
    · simp only [absorb, h, if_false]
      rw [List.chain'_cons]
      exact ⟨fun e => h e.symm, hruns⟩

theorem chain_colourRuns (address : Nat) (ranges : List ColorNamePair) (off : Nat) :
    (colourRuns address off ranges).Chain' (fun a b => a.background ≠ b.background) := by
  induction ranges generalizing off with
  | nil => simp [colourRuns]
  | cons range rest ih =>
    rw [colourRuns]
    exact chain_absorb _ _ (ih (off + 1))

theorem startOffsets_absorb (f : Nat → Nat) (first : Markup) (runs : List Markup) (off : Nat)
    (hfirst : first.address = f off)
    (hruns : runs.map (fun r => r.address) = (startOffsets (off + first.size) runs).map f) :
    (absorb first runs).map (fun r => r.address)
      = (startOffsets off (absorb first runs)).map f := by
  cases runs with
  | nil => simp [absorb, startOffsets, hfirst]
  | cons next more =>
    simp only [startOffsets, List.map_cons, List.cons.injEq] at hruns
    by_cases h : next.background = first.background
    · simp only [absorb, h, if_true, startOffsets, List.map_cons, List.cons.injEq]
      refine ⟨hfirst, ?_⟩
      rw [hruns.2, Nat.add_assoc]
    · simp only [absorb, h, if_false, startOffsets, List.map_cons, List.cons.injEq]
      exact ⟨hfirst, hruns.1, hruns.2⟩

theorem startOffsets_colourRuns (address : Nat) (ranges : List ColorNamePair) (off : Nat) :
    (colourRuns address off ranges).map (fun r => r.address)
      = (startOffsets off (colourRuns address off ranges)).map
          (fun o => (address + o) % quint64Modulus) := by
  induction ranges generalizing off with
  | nil => rfl
  | cons range rest ih =>
    rw [colourRuns]
    exact startOffsets_absorb (fun o => (address + o) % quint64Modulus) _ _ off rfl (ih (off + 1))

theorem mem_absorb_pair (first : Markup) (runs : List Markup) (r : Markup)
    (hr : r ∈ absorb first runs) :
    (r.background = first.background ∧ r.toolTip = first.toolTip) ∨ r ∈ runs := by
  cases runs with
  | nil =>
    simp only [absorb, List.mem_singleton] at hr
    subst hr
    exact Or.inl ⟨rfl, rfl⟩
  | cons next more =>
    by_cases h : next.background = first.background
    · simp only [absorb, h, if_true, List.mem_cons] at hr
      rcases hr with hr | hr
      · subst hr
        exact Or.inl ⟨rfl, rfl⟩
      · exact Or.inr (List.mem_cons_of_mem _ hr)
    · simp only [absorb, h, if_false, List.mem_cons] at hr
      rcases hr with hr | hr | hr
      · subst hr
        exact Or.inl ⟨rfl, rfl⟩
      · subst hr
        exact Or.inr (List.mem_cons_self _ _)
      · exact Or.inr (List.mem_cons_of_mem _ hr)

/-- Every range of the runs carries the colour and the tool tip of one byte. -/
theorem mem_colourRuns_pair (address : Nat) (ranges : List ColorNamePair) (off : Nat) :
    ∀ r ∈ colourRuns address off ranges, (r.background, r.toolTip) ∈ ranges := by
  induction ranges generalizing off with
  | nil =>
    intro r hr
    simp [colourRuns] at hr
  | cons range rest ih =>
    intro r hr
    rw [colourRuns] at hr
    rcases mem_absorb_pair _ _ r hr with ⟨hb, ht⟩ | hmem
    · have : (r.background, r.toolTip) = range := by
        rw [hb, ht]
        rfl
      rw [this]
      exact List.mem_cons_self _ _
    · exact List.mem_cons_of_mem _ (ih (off + 1) r hmem)

/-- The colour of byte `i` is the background of the range that holds it. -/
theorem markupAt_background (ranges : List Markup) (i : Nat) :
    (expandColours ranges)[i]? = (markupAt ranges i).map (fun r => r.background) := by
  induction ranges generalizing i with
  | nil => simp [expandColours, markupAt]
  | cons r rest ih =>
    rw [expandColours_cons, markupAt]
    by_cases h : i < r.size
    · rw [if_pos h, List.getElem?_append_left (by simpa using h)]
      simp [List.getElem?_replicate, h]
    · rw [if_neg h, List.getElem?_append_right (by simpa using h), ← ih]
      simp

theorem qFill_spec (ranges : List ColorNamePair) (first last : Nat) (value : ColorNamePair)
    (filled : List ColorNamePair) (h : qFill ranges first last value = some filled) :
    filled.length = ranges.length ∧
    ∀ i, filled[i]? = (ranges[i]?).map (fun cur => if first ≤ i ∧ i < last then value else cur) := by
  unfold qFill at h
  split_ifs at h with hb
  obtain ⟨h1, h2⟩ := hb
  simp only [Option.some.injEq] at h
  subst h
  constructor
  · simp only [List.length_append, List.length_take, List.length_replicate, List.length_drop]
    omega
  · intro i
    by_cases hi1 : i < first
    · rw [List.append_assoc, List.getElem?_append_left (by simp; omega)]
      rw [List.getElem?_take_of_lt hi1]
      cases ranges[i]? with
      | none => rfl
      | some c => simp [Nat.not_le.mpr hi1]
    · by_cases hi2 : i < last
      · rw [List.append_assoc, List.getElem?_append_right (by simp; omega)]
        rw [List.getElem?_append_left (by simp; omega)]
        have hlt : i < ranges.length := by omega
        rw [List.getElem?_eq_getElem hlt]
        have hc : (first ≤ i ∧ i < last) := ⟨by omega, hi2⟩
        simp only [Option.map_some', if_pos hc, List.getElem?_replicate, List.length_take]
        rw [if_pos (by omega)]
      · rw [List.getElem?_append_right (by simp; omega)]
        rw [List.getElem?_drop]
        have : last + (i - (List.take first ranges ++ List.replicate (last - first) value).length) = i := by
          simp only [List.length_append, List.length_take, List.length_replicate]
          omega
        rw [this]
        cases ranges[i]? with
        | none => rfl
        | some c => simp [hi2]

theorem qFill_bound (ranges : List ColorNamePair) (first last : Nat) (value : ColorNamePair)
    (filled : List ColorNamePair) (h : qFill ranges first last value = some filled) :
    last ≤ ranges.length := by
  unfold qFill at h
  split_ifs at h with hb
  exact hb.2

theorem qFill_isSome (ranges : List ColorNamePair) (first last : Nat) (value : ColorNamePair)
    (h1 : first ≤ last) (h2 : last ≤ ranges.length) :
    ∃ filled, qFill ranges first last value = some filled := by
  unfold qFill
  rw [if_pos ⟨h1, h2⟩]
  exact ⟨_, rfl⟩

theorem fillMembers_spec (qt : Toolkit) (name : QString) (address : Nat)
    (members : List MemberVariable) :
    ∀ (k : Nat) (mc1 mc2 : Colour) (ranges filled : List ColorNamePair),
      mc1 = qt.darker120^[k / 2] qt.yellowLighter →
      mc2 = qt.darker120^[(k + 1) / 2] qt.cyanLighter →
      fillMembers qt name address members k mc1 mc2 ranges = some filled →
      filled.length = ranges.length ∧
      ∀ i, filled[i]? = (ranges[i]?).map (fun cur => paintByte qt name address members k cur i) := by
  induction members with
  | nil =>
    intro k mc1 mc2 ranges filled _ _ h
    simp only [fillMembers, Option.some.injEq] at h
    subst h
    refine ⟨rfl, fun i => ?_⟩
    cases ranges[i]? with
    | none => rfl
    | some c => rfl
  | cons member rest ih =>
    intro k mc1 mc2 ranges filled h1 h2 h
    simp only [fillMembers] at h
    cases hq : qFill ranges ((member.address + quint64Modulus - address) % quint64Modulus)
        ((member.address + quint64Modulus - address) % quint64Modulus + member.size)
        (if k % 2 = 1 then mc1 else mc2,
          qt.memberToolTip name member.name
            ((member.address + quint64Modulus - address) % quint64Modulus)) with
    | none =>
      rw [hq] at h
      exact absurd h (by simp)
    | some mid =>
      rw [hq] at h
      simp only at h
      obtain ⟨hlen, hget⟩ := qFill_spec _ _ _ _ _ hq
      have hc1 : (if k % 2 = 1 then qt.darker120 mc1 else mc1)
          = qt.darker120^[(k + 1) / 2] qt.yellowLighter := by
        split_ifs with hk
        · have : (k + 1) / 2 = k / 2 + 1 := by omega
          rw [this, Function.iterate_succ_apply', h1]
        · have : (k + 1) / 2 = k / 2 := by omega
          rw [this, h1]
      have hc2 : (if k % 2 = 1 then mc2 else qt.darker120 mc2)
          = qt.darker120^[(k + 1 + 1) / 2] qt.cyanLighter := by
        split_ifs with hk
        · have : (k + 1 + 1) / 2 = (k + 1) / 2 := by omega
          rw [this, h2]
        · have : (k + 1 + 1) / 2 = (k + 1) / 2 + 1 := by omega
          rw [this, Function.iterate_succ_apply', h2]
      obtain ⟨hlen2, hget2⟩ := ih (k + 1) _ _ mid filled hc1 hc2 h
      refine ⟨hlen2.trans hlen, fun i => ?_⟩
      rw [hget2 i, hget i]
      have hcol : (if k % 2 = 1 then mc1 else mc2) = memberColour qt k := by
        unfold memberColour
        split_ifs with hk
        · exact h1
        · have : (k + 1) / 2 = k / 2 := by omega
          rw [h2, this]
      cases ranges[i]? with
      | none => rfl
      | some c =>
        simp only [Option.map_some', paintByte, covers, memberOffset, hcol]
        by_cases hcov : (member.address + quint64Modulus - address) % quint64Modulus ≤ i ∧
            i < (member.address + quint64Modulus - address) % quint64Modulus + member.size
        · simp [hcov]
        · simp [hcov]

theorem fillMembers_isSome (qt : Toolkit) (name : QString) (address : Nat)
    (members : List MemberVariable) :
    ∀ (k : Nat) (mc1 mc2 : Colour) (ranges : List ColorNamePair),
      (∀ mv ∈ members, memberOffset address mv + mv.size ≤ ranges.length) →
      ∃ filled, fillMembers qt name address members k mc1 mc2 ranges = some filled := by
  induction members with
  | nil =>
    intro k mc1 mc2 ranges _
    exact ⟨ranges, rfl⟩
  | cons member rest ih =>
    intro k mc1 mc2 ranges hall
    have hm := hall member (List.mem_cons_self _ _)
    unfold memberOffset at hm
    obtain ⟨mid, hmid⟩ := qFill_isSome ranges
      ((member.address + quint64Modulus - address) % quint64Modulus)
      ((member.address + quint64Modulus - address) % quint64Modulus + member.size)
      (if k % 2 = 1 then mc1 else mc2,
        qt.memberToolTip name member.name
          ((member.address + quint64Modulus - address) % quint64Modulus))
      (Nat.le_add_right _ _) hm
    have hlen := (qFill_spec _ _ _ _ _ hmid).1
    simp only [fillMembers, hmid]
    apply ih
    intro mv hmv
    rw [hlen]
    exact hall mv (List.mem_cons_of_mem _ hmv)

/-- A fill that leaves the vector makes the whole filling fail, whatever
follows. -/
theorem fillMembers_none_of_out_of_range (qt : Toolkit) (name : QString) (address : Nat)
    (members : List MemberVariable) :
    ∀ (k : Nat) (mc1 mc2 : Colour) (ranges : List ColorNamePair),
      (∃ mv ∈ members, ranges.length < memberOffset address mv + mv.size) →
      fillMembers qt name address members k mc1 mc2 ranges = none := by
  induction members with
  | nil =>
    intro k mc1 mc2 ranges h
    obtain ⟨mv, hmv, _⟩ := h
    simp at hmv
  | cons member rest ih =>
    intro k mc1 mc2 ranges h
    cases hq : qFill ranges ((member.address + quint64Modulus - address) % quint64Modulus)
        ((member.address + quint64Modulus - address) % quint64Modulus + member.size)
        (if k % 2 = 1 then mc1 else mc2,
          qt.memberToolTip name member.name
            ((member.address + quint64Modulus - address) % quint64Modulus)) with
    | none => simp only [fillMembers, hq]
    | some mid =>
      simp only [fillMembers, hq]
      have hlen := (qFill_spec _ _ _ _ _ hq).1
      apply ih
      obtain ⟨mv, hmv, hout⟩ := h
      rcases List.mem_cons.mp hmv with he | hr
      · subst he
        exfalso
        have hb := qFill_bound _ _ _ _ _ hq
        unfold memberOffset at hout
        omega
      · exact ⟨mv, hr, by rw [hlen]; exact hout⟩

theorem paintByte_not_covered (qt : Toolkit) (name : QString) (address : Nat)
    (members : List MemberVariable) (i : Nat) :
    ∀ (k : Nat) (cur : ColorNamePair), (∀ mv ∈ members, covers address mv i = false) →
      paintByte qt name address members k cur i = cur := by
  induction members with
  | nil =>
    intro k cur _
    rfl
  | cons mv rest ih =>
    intro k cur h
    rw [paintByte, h mv (List.mem_cons_self _ _)]
    simp only [Bool.false_eq_true, if_false]
    exact ih (k + 1) cur (fun mv2 h2 => h mv2 (List.mem_cons_of_mem _ h2))

theorem paintByte_last_cover (qt : Toolkit) (name : QString) (address : Nat)
    (pre : List MemberVariable) (mv : MemberVariable) (post : List MemberVariable) (i : Nat)
    (hcov : covers address mv i = true) (hpost : ∀ mv2 ∈ post, covers address mv2 i = false) :
    ∀ (k : Nat) (cur : ColorNamePair),
      paintByte qt name address (pre ++ mv :: post) k cur i
        = (memberColour qt (k + pre.length),
            qt.memberToolTip name mv.name (memberOffset address mv)) := by
  induction pre with
  | nil =>
    intro k cur
    simp only [List.nil_append, paintByte, hcov, if_true, List.length_nil, Nat.add_zero]
    exact paintByte_not_covered qt name address post i (k + 1) _ hpost
  | cons p pre ih =>
    intro k cur
    rw [List.cons_append, paintByte, ih (k + 1), List.length_cons]
    congr 2
    omega

theorem paintByte_cases (qt : Toolkit) (name : QString) (address : Nat)
    (members : List MemberVariable) (i : Nat) :
    ∀ (k : Nat) (cur : ColorNamePair),
      paintByte qt name address members k cur i = cur ∨
      ∃ j, j < members.length ∧
        (paintByte qt name address members k cur i).1 = memberColour qt (k + j) := by
  induction members with
  | nil =>
    intro k cur
    exact Or.inl rfl
  | cons mv rest ih =>
    intro k cur
    rw [paintByte]
    rcases ih (k + 1) (if covers address mv i then
        (memberColour qt k, qt.memberToolTip name mv.name (memberOffset address mv))
       else cur) with h | ⟨j, hj, h⟩
    · by_cases hc : covers address mv i = true
      · right
        refine ⟨0, by simp, ?_⟩
        rw [h, if_pos hc]
        rfl
      · left
        rw [h, if_neg hc]
    · right
      refine ⟨j + 1, by simpa using hj, ?_⟩
      rw [h]
      congr 1
      omega

theorem mem_sortedMemberVariables (m : WatchItem) (start endAddress : Nat)
    (mv : MemberVariable) :
    mv ∈ sortedMemberVariables m start endAddress ↔
      ∃ c ∈ m.children, withinArea start endAddress c = true ∧ mv = c.toMember := by
  rw [sortedMemberVariables_eq, (qStableSort_perm lessThanMV _).mem_iff]
  unfold keptMembers
  simp only [List.mem_map, List.mem_filter]
  constructor
  · rintro ⟨c, ⟨hc, hw⟩, rfl⟩
    exact ⟨c, hc, hw, rfl⟩
  · rintro ⟨c, hc, hw, rfl⟩
    exact ⟨c, ⟨hc, hw⟩, rfl⟩

/-- Without a sum that leaves the 64-bit range every kept member is filled
within the vector. -/
theorem kept_in_bounds (m : WatchItem) (address size : Nat)
    (harea : address + size < quint64Modulus)
    (hrows : ∀ c ∈ m.children, c.address + c.size < quint64Modulus) :
    ∀ mv ∈ sortedMemberVariables m address ((address + size) % quint64Modulus),
      memberOffset address mv + mv.size ≤ size := by
  intro mv hmv
  obtain ⟨c, hc, hw, rfl⟩ := (mem_sortedMemberVariables _ _ _ _).mp hmv
  have hfit := hrows c hc
  rw [withinArea_eq_liesWithin _ _ _ hfit, Nat.mod_eq_of_lt harea] at hw
  unfold liesWithin at hw
  simp only [Bool.and_eq_true, decide_eq_true_eq] at hw
  obtain ⟨⟨_, h1⟩, h2⟩ := hw
  unfold memberOffset WatchRow.toMember
  simp only
  have h3 : c.address + quint64Modulus - address = quint64Modulus + (c.address - address) := by
    omega
  rw [h3, Nat.add_mod_left, Nat.mod_eq_of_lt (by omega)]
  omega

theorem variableMemoryMarkup_eq (qt : Toolkit) (m : WatchItem) (address size : Nat)
    (sizeIsEstimate : Bool) (defaultBackground : Colour)
    (hnotEarly : (sizeIsEstimate
      && (sortedMemberVariables m address ((address + size) % quint64Modulus)).isEmpty) = false) :
    variableMemoryMarkup qt m address size sizeIsEstimate defaultBackground
      = (memberRanges qt m address size sizeIsEstimate defaultBackground).map
          (colourRuns address 0) := by
  unfold variableMemoryMarkup
  simp only [hnotEarly, Bool.false_eq_true, if_false]
  cases memberRanges qt m address size sizeIsEstimate defaultBackground with
  | none => rfl
  | some ranges => simp only [Option.map_some', condenseLoop_runs]

theorem memberRanges_spec (qt : Toolkit) (m : WatchItem) (address size : Nat)
    (sizeIsEstimate : Bool) (defaultBackground : Colour) (filled : List ColorNamePair)
    (h : memberRanges qt m address size sizeIsEstimate defaultBackground = some filled) :
    filled.length = size ∧
    ∀ i, i < size → filled[i]? = some (paintByte qt m.name address
      (sortedMemberVariables m address ((address + size) % quint64Modulus)) 0
      (if sizeIsEstimate then defaultBackground else qt.lightGray, m.name) i) := by
  have hint : ¬ intLimit ≤ size := by
    intro hbig
    unfold memberRanges at h
    simp only [if_pos hbig] at h
    exact absurd h (by simp)
  unfold memberRanges at h
  simp only [if_neg hint] at h
  obtain ⟨hlen, hget⟩ := fillMembers_spec qt m.name address _ 0 _ _ _ filled rfl rfl h
  rw [List.length_replicate] at hlen
  refine ⟨hlen, fun i hi => ?_⟩
  rw [hget i, List.getElem?_replicate, if_pos hi]
  rfl

theorem memberRanges_size (qt : Toolkit) (m : WatchItem) (address size : Nat)
    (sizeIsEstimate : Bool) (defaultBackground : Colour) (filled : List ColorNamePair)
    (h : memberRanges qt m address size sizeIsEstimate defaultBackground = some filled) :
    size < intLimit := by
  by_contra hint
  unfold memberRanges at h
  simp only [if_pos (Nat.not_lt.mp hint)] at h
  exact absurd h (by simp)

theorem memberRanges_none_of_large (qt : Toolkit) (m : WatchItem) (address size : Nat)
    (sizeIsEstimate : Bool) (defaultBackground : Colour) (hbig : intLimit ≤ size) :
    memberRanges qt m address size sizeIsEstimate defaultBackground = none := by
  unfold memberRanges
  simp only [if_pos hbig]

theorem memberRanges_isSome (qt : Toolkit) (m : WatchItem) (address size : Nat)
    (sizeIsEstimate : Bool) (defaultBackground : Colour)
    (hsize : size < intLimit)
    (harea : address + size < quint64Modulus)
    (hrows : ∀ c ∈ m.children, c.address + c.size < quint64Modulus) :
    ∃ filled, memberRanges qt m address size sizeIsEstimate defaultBackground = some filled := by
  unfold memberRanges
  simp only [if_neg (Nat.not_le.mpr hsize)]
  apply fillMembers_isSome
  intro mv hmv
  rw [List.length_replicate]
  exact kept_in_bounds m address size harea hrows mv hmv

theorem markupAt_mem (ranges : List Markup) (i : Nat) (r : Markup)
    (h : markupAt ranges i = some r) : r ∈ ranges := by
  induction ranges generalizing i with
  | nil => simp [markupAt] at h
  | cons a rest ih =>
    rw [markupAt] at h
    split_ifs at h with hi
    · simp only [Option.some.injEq] at h
      subst h
      exact List.mem_cons_self _ _
    · exact List.mem_cons_of_mem _ (ih _ h)

theorem head_of_startOffsets (f : Nat → Nat) (ranges : List Markup) (off : Nat)
    (h : ranges.map (fun r => r.address) = (startOffsets off ranges).map f) :
    ∀ r ∈ ranges.head?, r.address = f off := by
  cases ranges with
  | nil =>
    intro r hr
    simp at hr
  | cons a rest =>
    intro r hr
    simp only [List.head?_cons, Option.mem_def, Option.some.injEq] at hr
    subst hr
    simp only [startOffsets, List.map_cons, List.cons.injEq] at h
    exact h.1

theorem chain_of_startOffsets (address : Nat) (ranges : List Markup) :
    ∀ off, ranges.map (fun r => r.address)
        = (startOffsets off ranges).map (fun o => (address + o) % quint64Modulus) →
      ranges.Chain' (fun a b => b.address = (a.address + a.size) % quint64Modulus) := by
  induction ranges with
  | nil =>
    intro off _
    exact List.chain'_nil
  | cons a rest ih =>
    intro off h
    simp only [startOffsets, List.map_cons, List.cons.injEq] at h
    cases rest with
    | nil => exact List.chain'_singleton _
    | cons b more =>
      rw [List.chain'_cons]
      refine ⟨?_, ih (off + a.size) h.2⟩
      have hb := h.2
      simp only [startOffsets, List.map_cons, List.cons.injEq] at hb
      rw [hb.1, h.1, Nat.mod_add_mod, Nat.add_assoc]

theorem plain_chain_of_startOffsets (address bound : Nat) (hfit : address + bound ≤ quint64Modulus)
    (ranges : List Markup) :
    ∀ off, ranges.map (fun r => r.address)
        = (startOffsets off ranges).map (fun o => (address + o) % quint64Modulus) →
      (∀ r ∈ ranges, 1 ≤ r.size) → off + totalSize ranges ≤ bound →
      ranges.Chain' (fun a b => b.address = a.address + a.size) := by
  induction ranges with
  | nil =>
    intro off _ _ _
    exact List.chain'_nil
  | cons a rest ih =>
    intro off h hpos hsum
    simp only [startOffsets, List.map_cons, List.cons.injEq] at h
    have hsum2 : off + a.size + totalSize rest ≤ bound := by
      simp only [totalSize, List.map_cons, List.sum_cons] at hsum ⊢
      omega
    cases rest with
    | nil => exact List.chain'_singleton _
    | cons b more =>
      rw [List.chain'_cons]
      refine ⟨?_, ih (off + a.size) h.2 (fun r hr => hpos r (List.mem_cons_of_mem _ hr)) hsum2⟩
      have hb := h.2
      simp only [startOffsets, List.map_cons, List.cons.injEq] at hb
      have hbs : 1 ≤ b.size := hpos b (List.mem_cons_of_mem _ (List.mem_cons_self _ _))
      have hbt : off + a.size + b.size ≤ bound := by
        simp only [totalSize, List.map_cons, List.sum_cons] at hsum2
        omega
      rw [hb.1, h.1, Nat.mod_eq_of_lt (by omega), Nat.mod_eq_of_lt (by omega)]
      omega

/-- A kept member whose address plus size leaves the 64-bit range is filled
past the end of the vector when the area itself ends within the range. -/
theorem wrapping_member_out_of_bounds (m : WatchItem) (address size : Nat)
    (harea : address + size < quint64Modulus) (mv : MemberVariable)
    (hmv : mv ∈ sortedMemberVariables m address ((address + size) % quint64Modulus))
    (haddress : mv.address < quint64Modulus)
    (hwrap : quint64Modulus ≤ mv.address + mv.size) :
    size < memberOffset address mv + mv.size := by
  obtain ⟨c, hc, hw, rfl⟩ := (mem_sortedMemberVariables _ _ _ _).mp hmv
  unfold withinArea at hw
  simp only [Bool.and_eq_true, decide_eq_true_eq] at hw
  obtain ⟨⟨_, h1⟩, _⟩ := hw
  unfold memberOffset WatchRow.toMember at *
  simp only at *
  have h3 : c.address + quint64Modulus - address = quint64Modulus + (c.address - address) := by
    omega
  rw [h3, Nat.add_mod_left, Nat.mod_eq_of_lt (by omega)]
  omega

/-! ## Watch window: the claims -/

/-- C22: `sortedMemberVariables m start end` holds exactly the member variables
(address, size, name) of the child rows of `m` that the test of the loop
keeps: address non-zero, at least `start`, and address plus size, as the
64-bit sum, at most `end`. It is a rearrangement of the kept rows, it is
ordered by ascending address, and for each address the rows of that address
appear in their row order. When no child row has a sum that leaves the 64-bit
range, the kept rows are those with address plus size, as a plain number, at
most `end`. -/
theorem sortedMemberVariables_spec (m : WatchItem) (start endAddress : Nat) :
    (sortedMemberVariables m start endAddress).Perm (keptMembers m start endAddress) ∧
    (∀ mv, mv ∈ sortedMemberVariables m start endAddress ↔
      ∃ c ∈ m.children, withinArea start endAddress c = true ∧ mv = c.toMember) ∧
    (sortedMemberVariables m start endAddress).Pairwise (fun a b => a.address ≤ b.address) ∧
    (∀ a : Nat, (sortedMemberVariables m start endAddress).filter (fun mv => mv.address == a)
      = (keptMembers m start endAddress).filter (fun mv => mv.address == a)) ∧
    ((∀ c ∈ m.children, c.address + c.size < quint64Modulus) →
      keptMembers m start endAddress
        = (m.children.filter (liesWithin start endAddress)).map WatchRow.toMember) := by
  rw [sortedMemberVariables_eq]
  refine ⟨qStableSort_perm _ _, ?_, qStableSort_sorted _, fun a => qStableSort_filter _ a, ?_⟩
  · intro mv
    rw [(qStableSort_perm lessThanMV _).mem_iff]
    unfold keptMembers
    rw [List.mem_map]
    constructor
    · rintro ⟨c, hc, rfl⟩
      obtain ⟨hc1, hc2⟩ := List.mem_filter.mp hc
      exact ⟨c, hc1, hc2, rfl⟩
    · rintro ⟨c, hc1, hc2, rfl⟩
      exact ⟨c, List.mem_filter.mpr ⟨hc1, hc2⟩, rfl⟩
  · intro hfit
    unfold keptMembers
    congr 1
    apply List.filter_congr
    intro c hc
    exact withinArea_eq_liesWithin start endAddress c (hfit c hc)

/-- C22 on the item "s" and the area from 100 to 108: the row behind the area,
the row without address and the static member are left out, the two rows at
address 100 keep their row order. -/
theorem sortedMemberVariables_spec_witness :
    sortedMemberVariables demoStruct 100 108
      = [{ address := 100, size := 0, name := ['B'] },
         { address := 100, size := 1, name := ['b'] },
         { address := 101, size := 1, name := ['c'] },
         { address := 104, size := 4, name := ['x'] }] ∧
    (sortedMemberVariables demoStruct 100 108).Pairwise (fun a b => a.address ≤ b.address) ∧
    keptMembers demoStruct 100 108
      = (demoStruct.children.filter (liesWithin 100 108)).map WatchRow.toMember :=
  ⟨by decide, (sortedMemberVariables_spec demoStruct 100 108).2.2.1,
   (sortedMemberVariables_spec demoStruct 100 108).2.2.2.2 (by decide)⟩

/-- C23: the markup of a call of `variableMemoryMarkup` that does not return
early. When `size` is a non-negative `int` and neither the end of the area nor
the end of a child row leaves the 64-bit range, the call returns a markup;
when `size` is no non-negative `int`, it returns none. Every returned markup
belongs to a `size` below 2^31 and is the list of
the maximal runs of identical background colour of the per-byte vector, which
has `size` entries: the ranges, each written out byte by byte, give the
colours of the vector; every range has a size of at least 1; consecutive
ranges differ in their background colour; the first range starts at `address`
and each further one where the one before it ends (as 64-bit sums, and as
plain sums when the area ends within the 64-bit range); the sizes add up to
`size`. -/
theorem markup_condenses_runs (qt : Toolkit) (m : WatchItem) (address size : Nat)
    (sizeIsEstimate : Bool) (defaultBackground : Colour) :
    (size < intLimit → address + size < quint64Modulus →
      (∀ c ∈ m.children, c.address + c.size < quint64Modulus) →
      ∃ result, variableMemoryMarkup qt m address size sizeIsEstimate defaultBackground
        = some result) ∧
    (intLimit ≤ size →
      (sizeIsEstimate
        && (sortedMemberVariables m address ((address + size) % quint64Modulus)).isEmpty)
          = false →
      variableMemoryMarkup qt m address size sizeIsEstimate defaultBackground = none) ∧
    ∀ result,
      (sizeIsEstimate
        && (sortedMemberVariables m address ((address + size) % quint64Modulus)).isEmpty)
          = false →
      variableMemoryMarkup qt m address size sizeIsEstimate defaultBackground = some result →
      ∃ filled, memberRanges qt m address size sizeIsEstimate defaultBackground = some filled ∧
        size < intLimit ∧
        filled.length = size ∧
        expandColours result = filled.map Prod.fst ∧
        (∀ r ∈ result, 1 ≤ r.size) ∧
        result.Chain' (fun a b => a.background ≠ b.background) ∧
        (∀ r ∈ result.head?, r.address = address % quint64Modulus) ∧
        result.Chain' (fun a b => b.address = (a.address + a.size) % quint64Modulus) ∧
        (address + size ≤ quint64Modulus →
          result.Chain' (fun a b => b.address = a.address + a.size)) ∧
        totalSize result = size := by
  refine ⟨?_, ?_, ?_⟩
  · intro hsize harea hrows
    by_cases hearly : (sizeIsEstimate
        && (sortedMemberVariables m address ((address + size) % quint64Modulus)).isEmpty) = true
    · refine ⟨[], ?_⟩
      unfold variableMemoryMarkup
      simp only [hearly, if_true]
    · have hne : (sizeIsEstimate
          && (sortedMemberVariables m address ((address + size) % quint64Modulus)).isEmpty)
            = false := by simpa using hearly
      obtain ⟨filled, hf⟩ := memberRanges_isSome qt m address size sizeIsEstimate
        defaultBackground hsize harea hrows
      rw [variableMemoryMarkup_eq qt m address size sizeIsEstimate defaultBackground hne, hf]
      exact ⟨_, rfl⟩
  · intro hbig hnotEarly
    rw [variableMemoryMarkup_eq qt m address size sizeIsEstimate defaultBackground hnotEarly,
      memberRanges_none_of_large qt m address size sizeIsEstimate defaultBackground hbig]
    rfl
  · intro result hnotEarly hresult
    rw [variableMemoryMarkup_eq qt m address size sizeIsEstimate defaultBackground hnotEarly]
      at hresult
    cases hf : memberRanges qt m address size sizeIsEstimate defaultBackground with
    | none =>
      rw [hf] at hresult
      exact absurd hresult (by simp)
    | some filled =>
      rw [hf] at hresult
      simp only [Option.map_some', Option.some.injEq] at hresult
      subst hresult
      have hlen := (memberRanges_spec qt m address size sizeIsEstimate defaultBackground
        filled hf).1
      have hstart := startOffsets_colourRuns address filled 0
      refine ⟨filled, rfl,
        memberRanges_size qt m address size sizeIsEstimate defaultBackground filled hf,
        hlen, expandColours_colourRuns address filled 0,
        size_pos_colourRuns address filled 0, chain_colourRuns address filled 0, ?_,
        chain_of_startOffsets address _ 0 hstart, ?_, ?_⟩
      · exact head_of_startOffsets _ _ 0 hstart
      · intro hfit
        refine plain_chain_of_startOffsets address size hfit _ 0 hstart
          (size_pos_colourRuns address filled 0) ?_
        rw [totalSize_colourRuns, hlen]
        omega
      · rw [totalSize_colourRuns, hlen]

/-- C23 on the item "s" with its area of 8 bytes at address 100: four ranges,
for the members b, c, the two bytes of padding and the member x. -/
theorem markup_condenses_runs_witness :
    variableMemoryMarkup demoToolkit demoStruct 100 8 false 7
      = some [{ address := 100, size := 1, background := 100, toolTip := "s.b at #0".toList },
              { address := 101, size := 1, background := 201, toolTip := "s.c at #1".toList },
              { address := 102, size := 2, background := 1, toolTip := ['s'] },
              { address := 104, size := 4, background := 101, toolTip := "s.x at #4".toList }] ∧
    ∃ filled, memberRanges demoToolkit demoStruct 100 8 false 7 = some filled ∧
      filled.length = 8 ∧
      expandColours [{ address := 100, size := 1, background := 100,
                       toolTip := "s.b at #0".toList },
                     { address := 101, size := 1, background := 201,
                       toolTip := "s.c at #1".toList },
                     { address := 102, size := 2, background := 1, toolTip := ['s'] },
                     { address := 104, size := 4, background := 101,
                       toolTip := "s.x at #4".toList }]
        = filled.map Prod.fst :=
  ⟨by decide,
   match (markup_condenses_runs demoToolkit demoStruct 100 8 false 7).2.2 _ (by decide)
      (by decide) with
   | ⟨filled, h1, _, h2, h3, _⟩ => ⟨filled, h1, h2, h3⟩⟩

/-- C24: the colours of the bytes in a call of `variableMemoryMarkup` that does
not return early and returns a markup. In the per-byte vector, a byte that no
member variable covers holds the base colour (the default background when the
size is an estimate, light gray otherwise) and the name of the item; a byte
covered by member variables holds the colour and the tool tip of the one that
comes last in address order, the colour being the one of its number in that
order. In the markup, the range that holds a byte has the colour of that byte
in the vector, and when no member colour equals the base colour, every range
in the base colour carries the name of the item as tool tip. -/
theorem padding_and_member_colours (qt : Toolkit) (m : WatchItem) (address size : Nat)
    (sizeIsEstimate : Bool) (defaultBackground : Colour) (result : List Markup)
    (hnotEarly : (sizeIsEstimate
      && (sortedMemberVariables m address ((address + size) % quint64Modulus)).isEmpty) = false)
    (hresult : variableMemoryMarkup qt m address size sizeIsEstimate defaultBackground
      = some result) :
    ∃ filled, memberRanges qt m address size sizeIsEstimate defaultBackground = some filled ∧
      ∀ i, i < size →
        ((∀ mv ∈ sortedMemberVariables m address ((address + size) % quint64Modulus),
            covers address mv i = false) →
          filled[i]? = some (if sizeIsEstimate then defaultBackground else qt.lightGray,
            m.name)) ∧
        (∀ pre mv post,
          sortedMemberVariables m address ((address + size) % quint64Modulus)
            = pre ++ mv :: post →
          covers address mv i = true → (∀ mv2 ∈ post, covers address mv2 i = false) →
          filled[i]? = some (memberColour qt pre.length,
            qt.memberToolTip m.name mv.name (memberOffset address mv))) ∧
        ∃ r, markupAt result i = some r ∧
          (∀ p, filled[i]? = some p → r.background = p.1) ∧
          ((∀ j, j < (sortedMemberVariables m address
                ((address + size) % quint64Modulus)).length →
              memberColour qt j ≠ (if sizeIsEstimate then defaultBackground else qt.lightGray)) →
            r.background = (if sizeIsEstimate then defaultBackground else qt.lightGray) →
            r.toolTip = m.name) := by
  rw [variableMemoryMarkup_eq qt m address size sizeIsEstimate defaultBackground hnotEarly]
    at hresult
  cases hf : memberRanges qt m address size sizeIsEstimate defaultBackground with
  | none =>
    rw [hf] at hresult
    exact absurd hresult (by simp)
  | some filled =>
    rw [hf] at hresult
    simp only [Option.map_some', Option.some.injEq] at hresult
    subst hresult
    obtain ⟨hlen, hget⟩ := memberRanges_spec qt m address size sizeIsEstimate
      defaultBackground filled hf
    refine ⟨filled, rfl, fun i hi => ⟨?_, ?_, ?_⟩⟩
    · intro hnot
      rw [hget i hi, paintByte_not_covered qt m.name address _ i 0 _ hnot]
    · intro pre mv post hsplit hcov hpost
      rw [hget i hi, hsplit, paintByte_last_cover qt m.name address pre mv post i hcov hpost,
        Nat.zero_add]
    · have hbg := markupAt_background (colourRuns address 0 filled) i
      rw [expandColours_colourRuns, List.getElem?_map, hget i hi] at hbg
      cases hr : markupAt (colourRuns address 0 filled) i with
      | none =>
        rw [hr] at hbg
        exact absurd hbg (by simp)
      | some r =>
        rw [hr] at hbg
        simp only [Option.map_some', Option.some.injEq] at hbg
        refine ⟨r, rfl, ?_, ?_⟩
        · intro p hp
          rw [hget i hi] at hp
          simp only [Option.some.injEq] at hp
          rw [← hp, hbg]
        · intro hdistinct hbase
          have hmem := mem_colourRuns_pair address filled 0 r (markupAt_mem _ i r hr)
          obtain ⟨j, hj, hjeq⟩ := List.getElem_of_mem hmem
          have hj2 : j < size := by omega
          have hgj := hget j hj2
          rw [List.getElem?_eq_getElem hj, hjeq] at hgj
          simp only [Option.some.injEq] at hgj
          rcases paintByte_cases qt m.name address
            (sortedMemberVariables m address ((address + size) % quint64Modulus)) j 0
            (if sizeIsEstimate then defaultBackground else qt.lightGray, m.name) with hc | hc
          · rw [hc] at hgj
            exact (Prod.mk.inj hgj).2
          · obtain ⟨k, hk, hcol⟩ := hc
            rw [← hgj, Nat.zero_add] at hcol
            exact absurd (hcol.symm.trans hbase) (hdistinct k hk)

/-- C24 on the union "u": byte 1 is covered by both members and holds the
colour and the tool tip of h, the later one in address order. -/
theorem padding_and_member_colours_witness :
    variableMemoryMarkup demoToolkit demoUnion 100 4 true 7 = some demoUnionMarkup ∧
    ∃ filled, memberRanges demoToolkit demoUnion 100 4 true 7 = some filled ∧
      filled[1]? = some (100, "u.h at #0".toList) :=
  ⟨by decide,
   match padding_and_member_colours demoToolkit demoUnion 100 4 true 7 demoUnionMarkup (by decide)
      (by decide) with
   | ⟨filled, h1, h2⟩ =>
     ⟨filled, h1,
      ((h2 1 (by decide)).2.1 [{ address := 100, size := 4, name := ['i'] }]
        { address := 100, size := 2, name := ['h'] } [] (by decide) (by decide)
        (by decide)).trans (by decide)⟩⟩

/-- C26: the texts of the two watch actions. An empty expression gives the
label alone; an expression of at most 30 characters is embedded unchanged
between the quotes; a longer one is embedded as its first 30 characters
followed by three dots; the embedded text never has more than 33
characters. -/
theorem action_texts_truncate (exp : QString) :
    (exp = [] → addWatchActionText exp = "Watch Expression".toList ∧
      removeWatchActionText exp = "Remove Watch Expression".toList) ∧
    (exp ≠ [] → exp.length ≤ 30 →
      addWatchActionText exp = "Watch Expression \"".toList ++ exp ++ ['"'] ∧
      removeWatchActionText exp = "Remove Watch Expression \"".toList ++ exp ++ ['"']) ∧
    (30 < exp.length →
      addWatchActionText exp
        = "Watch Expression \"".toList ++ (exp.take 30 ++ ['.', '.', '.']) ++ ['"'] ∧
      removeWatchActionText exp
        = "Remove Watch Expression \"".toList ++ (exp.take 30 ++ ['.', '.', '.']) ++ ['"']) ∧
    (exp ≠ [] →
      addWatchActionText exp = "Watch Expression \"".toList ++ truncateExpression exp ++ ['"'] ∧
      removeWatchActionText exp
        = "Remove Watch Expression \"".toList ++ truncateExpression exp ++ ['"']) ∧
    (truncateExpression exp).length ≤ 33 := by
  refine ⟨?_, ?_, ?_, ?_, truncateExpression_length exp⟩
  · intro he
    subst he
    exact ⟨rfl, rfl⟩
  · intro hne hlen
    have hemp : exp.isEmpty = false := by
      cases exp with
      | nil => exact absurd rfl hne
      | cons c t => rfl
    have ht : truncateExpression exp = exp := by
      unfold truncateExpression
      rw [if_neg (by omega)]
    unfold addWatchActionText removeWatchActionText
    simp only [hemp, Bool.false_eq_true, if_false, ht]
    exact ⟨trivial, trivial⟩
  · intro hlen
    have hemp : exp.isEmpty = false := by
      cases exp with
      | nil => simp at hlen
      | cons c t => rfl
    have ht : truncateExpression exp = exp.take 30 ++ ['.', '.', '.'] := by
      unfold truncateExpression
      rw [if_pos hlen]
    unfold addWatchActionText removeWatchActionText
    simp only [hemp, Bool.false_eq_true, if_false, ht]
    exact ⟨trivial, trivial⟩
  · intro hne
    have hemp : exp.isEmpty = false := by
      cases exp with
      | nil => exact absurd rfl hne
      | cons c t => rfl
    unfold addWatchActionText removeWatchActionText
    simp only [hemp, Bool.false_eq_true, if_false]
    exact ⟨trivial, trivial⟩

/-- C26 on a short expression and on an expression of 37 characters. -/
theorem action_texts_truncate_witness :
    addWatchActionText ['a', '[', 'i', ']'] = "Watch Expression \"a[i]\"".toList ∧
    removeWatchActionText "this->m_members.at(index).value.first".toList
      = "Remove Watch Expression \"this->m_members.at(index).valu...\"".toList ∧
    (truncateExpression "this->m_members.at(index).value.first".toList).length = 33 :=
  ⟨((action_texts_truncate ['a', '[', 'i', ']']).2.1 (by decide) (by decide)).1.trans
      (by decide),
   ((action_texts_truncate "this->m_members.at(index).value.first".toList).2.2.1
      (by decide)).2.trans (by decide),
   by decide⟩

/-- C28 on the code: the area of 8 bytes that starts 16 bytes below 2^64 ends
within the 64-bit range, and the child row of 4 bytes that starts 2 bytes
below 2^64 is kept, because its address plus size is taken modulo 2^64; its
offset is 14, so the fill of the bytes 14 to 18 leaves the vector of 8 entries
and there is no markup. In general, with an area that ends within the 64-bit
range, every kept member whose address plus size leaves the range is filled
past the end of the vector; and when no child row has such a sum, every kept
member is filled within the vector. -/
theorem fill_past_end_on_wrapping_member :
    (quint64Modulus - 16 + 8 < quint64Modulus ∧
     sortedMemberVariables wrappingStruct (quint64Modulus - 16)
         ((quint64Modulus - 16 + 8) % quint64Modulus)
       = [{ address := quint64Modulus - 2, size := 4, name := ['m'] }] ∧
     memberOffset (quint64Modulus - 16)
         { address := quint64Modulus - 2, size := 4, name := ['m'] } = 14 ∧
     qFill (List.replicate 8 (demoToolkit.lightGray, ['w'])) 14 (14 + 4)
         (demoToolkit.cyanLighter, "w.m at #14".toList) = none ∧
     memberRanges demoToolkit wrappingStruct (quint64Modulus - 16) 8 false 7 = none ∧
     variableMemoryMarkup demoToolkit wrappingStruct (quint64Modulus - 16) 8 false 7 = none) ∧
    (∀ (qt : Toolkit) (m : WatchItem) (address size : Nat) (sizeIsEstimate : Bool)
        (defaultBackground : Colour) (mv : MemberVariable),
      address + size < quint64Modulus →
      mv ∈ sortedMemberVariables m address ((address + size) % quint64Modulus) →
      mv.address < quint64Modulus → quint64Modulus ≤ mv.address + mv.size →
      size < memberOffset address mv + mv.size ∧
      variableMemoryMarkup qt m address size sizeIsEstimate defaultBackground = none) ∧
    (∀ (m : WatchItem) (address size : Nat),
      address + size < quint64Modulus →
      (∀ c ∈ m.children, c.address + c.size < quint64Modulus) →
      ∀ mv ∈ sortedMemberVariables m address ((address + size) % quint64Modulus),
        memberOffset address mv + mv.size ≤ size) := by
  refine ⟨by decide, ?_, kept_in_bounds⟩
  intro qt m address size sizeIsEstimate defaultBackground mv harea hmv haddress hwrap
  have hout := wrapping_member_out_of_bounds m address size harea mv hmv haddress hwrap
  refine ⟨hout, ?_⟩
  have hne : (sizeIsEstimate
      && (sortedMemberVariables m address ((address + size) % quint64Modulus)).isEmpty)
        = false := by
    cases hs : sortedMemberVariables m address ((address + size) % quint64Modulus) with
    | nil =>
      rw [hs] at hmv
      simp at hmv
    | cons a l => simp
  rw [variableMemoryMarkup_eq qt m address size sizeIsEstimate defaultBackground hne]
  have hnone : memberRanges qt m address size sizeIsEstimate defaultBackground = none := by
    by_cases hbig : intLimit ≤ size
    · exact memberRanges_none_of_large qt m address size sizeIsEstimate defaultBackground hbig
    · unfold memberRanges
      simp only [if_neg hbig]
      apply fillMembers_none_of_out_of_range
      exact ⟨mv, hmv, by rw [List.length_replicate]; exact hout⟩
  rw [hnone]
  rfl

end Debugger
